import Mathlib

/-!
Shallow embedding of the `vendor_catalog_import` Odoo module
(vendor catalog synchronization engine) and proofs about the claims of
its specification.

Conventions used throughout the embedding:

* Python `dict.get` results are modelled as `Option` values; a missing key
  is `none`.  Python truthiness on strings treats `""` (and `None`) as
  falsy, which is what `pyOrS` / `truthyS` implement.
* Numeric feed values may arrive as numbers or strings; they are modelled
  by `JVal`.  `float(x)` is modelled on the plain-decimal fragment
  (optional sign, digits, optional fractional part, surrounding blanks),
  which covers every value considered in the theorems; rationals stand in
  for IEEE floats, faithful on short decimals.
* Record stores (`product.template`, `product.supplierinfo`,
  `product.image`, `product.category`) are lists kept in creation (id)
  order; `search(..., limit=1)` is `List.find?`, `search(...)` is
  `List.filter`, `write` updates by id in place and `unlink` filters rows
  out.  Ids are unique (`WF` below) and freshly allocated from a counter.
-/

namespace VendorCatalog

/-- Python `a or b` for optional strings: `None` and `""` are falsy. -/
def pyOrS (a b : Option String) : Option String :=
  match a with
  | some s => if s = "" then b else some s
  | none => b

/-- Python truthiness of an optional string. -/
def truthyS (a : Option String) : Bool :=
  match a with
  | some s => s ≠ ""
  | none => false

/-- Normalise an optional string so that `some ""` becomes `none`
(the result of storing `value or False` in a char field). -/
def truthyOpt (a : Option String) : Option String :=
  match a with
  | some s => if s = "" then none else some s
  | none => none

/-- First truthy string of a list of optional values (`a or b or c …`). -/
def firstTruthyS : List (Option String) → Option String
  | [] => none
  | a :: rest => match a with
    | some s => if s = "" then firstTruthyS rest else some s
    | none => firstTruthyS rest

/-- Feed values can be numbers or strings (JSON-ish scalars). -/
inductive JVal where
  | num (q : ℚ)
  | str (s : String)
  deriving DecidableEq, Repr

/-- Python truthiness of an optional `JVal` (`0`, `0.0`, `""`, `None` falsy). -/
def truthyJ : Option JVal → Bool
  | none => false
  | some (.num q) => q ≠ 0
  | some (.str s) => s ≠ ""

/-- First truthy scalar of a chain `a or b or c`. -/
def firstTruthyJ : List (Option JVal) → Option JVal
  | [] => none
  | a :: rest => if truthyJ a then a else firstTruthyJ rest

/-- Digit list of a numeral string fragment, value of the digits. -/
def digitsVal (l : List Char) : ℕ :=
  l.foldl (fun a c => a * 10 + (c.toNat - 48)) 0

/-- Parse the decimal-literal fragment of Python `float()`:
optional sign, digits, optional `.` and digits, with at least one digit
overall, after stripping surrounding blanks.  Any other shape raises in
Python, represented here by `none`. -/
def pyFloatOfChars (l : List Char) : Option ℚ :=
  let l := (l.dropWhile (· = ' ')).reverse.dropWhile (· = ' ') |>.reverse
  let (sign, l) : ℚ × List Char :=
    match l with
    | '-' :: rest => (-1, rest)
    | '+' :: rest => (1, rest)
    | _ => (1, l)
  let intPart := l.takeWhile Char.isDigit
  let rest := l.dropWhile Char.isDigit
  match rest with
  | [] => if intPart = [] then none else some (sign * digitsVal intPart)
  | '.' :: fracPart =>
    if fracPart.all Char.isDigit ∧ (intPart ≠ [] ∨ fracPart ≠ []) then
      some (sign * (digitsVal intPart + (digitsVal fracPart : ℚ) / (10 : ℚ) ^ fracPart.length))
    else none
  | _ => none

/-- Python `float(x)` on a scalar (`none` models a raised exception). -/
def pyFloat : JVal → Option ℚ
  | .num q => some q
  | .str s => pyFloatOfChars s.data

/-- The module's `_robust_float`: `None` stays `None`; otherwise `float(x)`
with any exception collapsed to `0.0`. -/
def robustFloat : Option JVal → Option ℚ
  | none => none
  | some v => some ((pyFloat v).getD 0)

/-- Truncation toward zero, Python `int(float)`. -/
def ratTrunc (q : ℚ) : ℤ :=
  if 0 ≤ q then ⌊q⌋ else ⌈q⌉

/-- Python `int(x)` on a scalar: strings must be integer literals
(optional sign and digits, surrounding blanks); floats truncate toward 0;
`none` models a raised exception. -/
def pyInt : JVal → Option ℤ
  | .num q => some (ratTrunc q)
  | .str s =>
    let l := (s.data.dropWhile (· = ' ')).reverse.dropWhile (· = ' ') |>.reverse
    let (sign, l) : ℤ × List Char :=
      match l with
      | '-' :: rest => (-1, rest)
      | '+' :: rest => (1, rest)
      | _ => (1, l)
    if l ≠ [] ∧ l.all Char.isDigit then some (sign * digitsVal l) else none

/-- ASCII lower-casing of one character (enough for the texts involved;
the regexes use `re.I` which the embedding applies to ASCII letters). -/
def lowerAscii (c : Char) : Char :=
  if 'A' ≤ c ∧ c ≤ 'Z' then Char.ofNat (c.toNat + 32) else c

/-- Python `str.strip()` on a char list (default whitespace). -/
def stripChars (l : List Char) : List Char :=
  (l.dropWhile Char.isWhitespace).reverse.dropWhile Char.isWhitespace |>.reverse

/-- Python `str.strip()` as a string operation. -/
def pyStrip (s : String) : String :=
  ⟨stripChars s.data⟩

/-!
`_smart_split_ecom_path` from `models/_ecom_public_category_patch.py`:
an index loop over the string, tracking parenthesis depth, that flushes a
segment at each top-level `' / '` (three explicit characters, consuming
all three) and at each `'>'` whose previous raw character is `' '` and
whose next character is `' '` or the end of the string (consuming only
the `'>'`).  Non-empty stripped segments are collected; if nothing was
collected the stripped whole string is returned.  The loop is modelled by
recursion on the remaining characters with the previous raw character
carried along (`prev`), since the `' > '` test reads `s[i-1]` from the
raw string, not from the segment buffer.
-/

/-- Parenthesis-depth update of the splitter loop. -/
def updDepth (d : ℕ) (c : Char) : ℕ :=
  if c = '(' then d + 1 else if c = ')' ∧ d > 0 then d - 1 else d

/-- Loop body of `_smart_split_ecom_path`; `prev` is the raw previous
character, `buf` the current segment in order, `parts` the flushed
segments so far.  The `' / '` separator fires when the current character
is a space at depth zero followed by `'/'` and another space (all three
characters consumed); the `' > '` separator fires on a `'>'` at depth
zero whose previous raw character is a space, followed by a space or the
end of the input (only the `'>'` consumed — the surrounding spaces are
buffered and stripped away). -/
def smartSplitAux (prev : Option Char) (depth skip : ℕ) (buf : List Char)
    (parts : List (List Char)) : List Char → List (List Char)
  | [] => parts ++ (if stripChars buf ≠ [] then [stripChars buf] else [])
  | c :: rest =>
    if 0 < skip then
      smartSplitAux (some c) depth (skip - 1) buf parts rest
    else if c = ' ' ∧ depth = 0 ∧ rest.head? = some '/' ∧ (rest.drop 1).head? = some ' ' then
      smartSplitAux (some ' ') depth 2 []
        (parts ++ (if stripChars buf ≠ [] then [stripChars buf] else [])) rest
    else if c = '>' ∧ updDepth depth c = 0 ∧ prev = some ' ' ∧
        (rest = [] ∨ rest.head? = some ' ') then
      smartSplitAux (some '>') (updDepth depth c) 0 []
        (parts ++ (if stripChars buf ≠ [] then [stripChars buf] else [])) rest
    else
      smartSplitAux (some c) (updDepth depth c) 0 (buf ++ [c]) parts rest

/-- The separator condition the code's loop actually fires on, as a
scanner over the same state. -/
def codeHasSep (prev : Option Char) (depth : ℕ) : List Char → Bool
  | [] => false
  | c :: rest =>
    if c = ' ' ∧ depth = 0 ∧ rest.head? = some '/' ∧ (rest.drop 1).head? = some ' ' then
      true
    else
      if c = '>' ∧ updDepth depth c = 0 ∧ prev = some ' ' ∧
          (rest = [] ∨ rest.head? = some ' ') then
        true
      else codeHasSep (some c) (updDepth depth c) rest

/-- Modelled from the spec claim's words: some occurrence of the
three-character token `" / "` or `" > "` at parenthesis depth zero
(scanning left to right, tracking paren depth). -/
def specHasTopSep : ℕ → List Char → Bool
  | _, [] => false
  | d, c :: rest =>
    if d = 0 ∧ ((" / ".data).isPrefixOf (c :: rest) ∨ (" > ".data).isPrefixOf (c :: rest))
    then true
    else specHasTopSep (updDepth d c) rest

/-- The category-path splitter `_smart_split_ecom_path`. -/
def smartSplitEcomPath (s : String) : List String :=
  let parts := smartSplitAux none 0 0 [] [] s.data
  if parts ≠ [] then parts.map (fun l => (⟨l⟩ : String))
  else [pyStrip s]

/-- Fuelled digit production; any fuel at least the number suffices. -/
def natDigitsAux : ℕ → ℕ → List Char
  | 0, n => [Nat.digitChar n]
  | fuel + 1, n =>
    if n < 10 then [Nat.digitChar n]
    else natDigitsAux fuel (n / 10) ++ [Nat.digitChar (n % 10)]

/-- Decimal digit list of a natural number (model of Python `str(n)`). -/
def natDigits (n : ℕ) : List Char :=
  natDigitsAux n n

/-- Decimal rendering of a natural number, Python `str(n)` / f-string. -/
def natStr (n : ℕ) : String := ⟨natDigits n⟩

/-!
`_derive_numbered_urls` from `models/_gallery_patch.py`.  The regex
`^(?P<base>.+?)(?P<sep>[-_])?(?P<num>\d{1,2})?\.(?P<ext>jpg|jpeg|png|webp)$`
(case-insensitive on the extension) is embedded directly: the lazy group
`base` is realised by trying split points left to right (`tryParseMain`)
and the tail `[-_]?\d{0,2}\.ext$` is deterministic (`parseTail`), because
after an optional separator character the digit group is bounded by the
mandatory dot: shorter digit matches put a digit where the dot must be,
so no backtracking can succeed where the greedy parse fails.
-/

/-- Case-insensitive match of a whole char list against the four image
extensions; returns the original (case-preserved) list on success. -/
def extMatchCI (l : List Char) : Option (List Char) :=
  let low := l.map lowerAscii
  if low = "jpg".data ∨ low = "jpeg".data ∨ low = "png".data ∨ low = "webp".data
  then some l else none

/-- Greedy take of at most two leading digits. -/
def takeUpTo2Digits : List Char → List Char × List Char
  | a :: b :: rest =>
    if a.isDigit then
      if b.isDigit then ([a, b], rest) else ([a], b :: rest)
    else ([], a :: b :: rest)
  | [a] => if a.isDigit then ([a], []) else ([], [a])
  | [] => ([], [])

/-- Deterministic parse of the regex tail `[-_]?\d{0,2}\.(jpg|jpeg|png|webp)$`. -/
def parseTail (l : List Char) : Option (Option Char × Option (List Char) × List Char) :=
  let (sepO, l1) : Option Char × List Char :=
    match l with
    | c :: rest => if c = '-' ∨ c = '_' then (some c, rest) else (none, l)
    | [] => (none, [])
  let (ds, l2) := takeUpTo2Digits l1
  match l2 with
  | c :: r =>
    if c = '.' then (extMatchCI r).map (fun e => (sepO, if ds = [] then none else some ds, e))
    else none
  | [] => none

/-- Lazy `base` group: try split points left to right, shortest base first. -/
def tryParseMain : List Char → List Char → Option (List Char × Option Char × Option (List Char) × List Char)
  | _, [] => none
  | taken, c :: rest =>
    match parseTail rest with
    | some (se, nu, ex) => some (taken ++ [c], se, nu, ex)
    | none => tryParseMain (taken ++ [c]) rest

/-- Python `murl.rsplit('.', 1)` when it yields two pieces. -/
def rsplitDot (l : List Char) : Option (List Char × List Char) :=
  if '.' ∈ l then
    let r := l.reverse
    some (((r.dropWhile (· ≠ '.')).tail).reverse, (r.takeWhile (· ≠ '.')).reverse)
  else none

/-- The gallery URL derivation `_derive_numbered_urls`. -/
def deriveNumberedUrls (mainUrl : String) (maxImages : ℕ) : List String :=
  if mainUrl = "" then []
  else
    let murl := pyStrip mainUrl
    match tryParseMain [] murl.data with
    | some (base, sepO, numO, ext) =>
      let sep := sepO.getD '_'
      let start : ℕ :=
        match numO with
        | some ds => if 1 ≤ digitsVal ds then digitsVal ds + 1 else 2
        | none => 2
      (List.range' start (maxImages + 1 - start)).map
        (fun i => (⟨base⟩ : String) ++ (⟨[sep]⟩ : String) ++ natStr i ++ "." ++ (⟨ext⟩ : String))
    | none =>
      match rsplitDot murl.data with
      | some (base, ext) =>
        (List.range' 2 (maxImages - 1)).map
          (fun i => (⟨base⟩ : String) ++ "_" ++ natStr i ++ "." ++ (⟨ext⟩ : String))
      | none => []

/-- Separator class of `re.split(r"[|\n;,]+", …)` in `_to_list_images`. -/
def isImgSep (c : Char) : Bool :=
  c = '|' ∨ c = '\n' ∨ c = ';' ∨ c = ','

/-- Accumulator pass collecting maximal runs between separator characters. -/
def splitImgSepsAux : List Char → List Char → List (List Char)
  | buf, [] => if buf = [] then [] else [buf.reverse]
  | buf, c :: rest =>
    if isImgSep c then
      if buf = [] then splitImgSepsAux [] rest
      else buf.reverse :: splitImgSepsAux [] rest
    else splitImgSepsAux (c :: buf) rest

/-- Maximal runs between separator characters (the non-empty pieces of the
`re.split`; empty boundary pieces are dropped by the caller's filter). -/
def splitImgSeps (l : List Char) : List (List Char) :=
  splitImgSepsAux [] l

/-- Gallery-ish feed values: lists of URLs or one delimited string. -/
inductive GalField where
  | lst (xs : List String)
  | str (s : String)
  deriving DecidableEq, Repr

/-- The gallery helper `_to_list_images`. -/
def toListImages : Option GalField → List String
  | none => []
  | some (.lst xs) =>
    if xs = [] then [] else (xs.filter (· ≠ "")).map pyStrip
  | some (.str s) =>
    if s = "" then []
    else ((splitImgSeps s.data).map (fun l => (⟨stripChars l⟩ : String))).filter (· ≠ "")

/-- Step 3 of the gallery stage: strip each candidate, drop empties, the
main URL and previously seen URLs (first occurrence kept). -/
def cleanUrls (main : String) (urls : List String) : List String :=
  urls.foldl (fun acc u =>
    if pyStrip u = "" ∨ pyStrip u = main ∨ acc.contains (pyStrip u) then acc
    else acc ++ [pyStrip u]) []

/-!
Data model.  A canonical item is a flat key/value record whose keys are
the wire-contract field names read by the engine; a missing key is
`none`.  The embedding restricts item dictionaries to the canonical
schema, so the gallery patch's probe over numbered key spellings
(`image2`, `img_3`, `foto4`, … up to index 20) finds no keys and
contributes no candidate URLs.
-/

structure Item where
  name : Option String
  title : Option String
  sku : Option String
  defaultCode : Option String
  barcode : Option String
  cost : Option JVal
  price : Option JVal
  listPrice : Option JVal
  weight : Option JVal
  category : Option String
  imageUrl : Option String
  images : Option GalField
  extraImages : Option GalField
  gallery : Option GalField
  imageUrls : Option GalField
  descriptionEcommerce : Option String
  websiteDescription : Option String
  description : Option String
  descriptionSale : Option String
  vendorName : Option String
  vendorStock : Option JVal
  stock : Option JVal
  stockTotal : Option JVal
  vendorCode : Option String
  deriving DecidableEq, Repr

/-- An item with every key absent. -/
def emptyItem : Item :=
  ⟨none, none, none, none, none, none, none, none, none, none, none, none,
   none, none, none, none, none, none, none, none, none, none, none, none⟩

/-- The `vendor.catalog.config` fields the engine reads.
`vendorDisplayName` is the display name of the configured partner. -/
structure Config where
  vendorId : Option ℕ
  vendorDisplayName : String
  mapBy : String
  defaultCategId : Option ℕ
  publishOnWebsite : Bool
  websiteId : Option ℕ
  batchCommit : ℕ
  deriving DecidableEq, Repr

/-- One `product.product` variant (description surfaces only; the engine
touches nothing else on variants). -/
structure Variant where
  websiteDescription : Option String
  description : Option String
  descriptionSale : Option String
  websiteShortDescription : Option String
  deriving DecidableEq, Repr

/-- One `product.template` record, with the fields the engine reads or
writes.  The schema modelled has `description_ecommerce`,
`website_description` and `website_ids` present and `weight_0` absent
(the dynamic `in ProductT._fields` probes resolve accordingly). -/
structure Tmpl where
  id : ℕ
  name : String
  saleOk : Bool
  purchaseOk : Bool
  defaultCode : Option String
  barcode : Option String
  standardPrice : ℚ
  weight : ℚ
  categId : Option ℕ
  descriptionEcommerce : Option String
  websiteDescription : Option String
  description : Option String
  descriptionSale : Option String
  websiteShortDescription : Option String
  xVendorStock : ℤ
  xVendorName : Option String
  websitePublished : Bool
  websiteIds : List ℕ
  image1920 : Option (List ℕ)
  variants : List Variant
  deriving DecidableEq, Repr

/-- A fresh template before `create` vals are applied (store defaults;
one auto-created variant). -/
def defaultTmpl (i : ℕ) : Tmpl :=
  ⟨i, "", false, false, none, none, 0, 0, none, none, none, none, none,
   none, 0, none, false, [], none, [⟨none, none, none, none⟩]⟩

/-- One `product.supplierinfo` record. -/
structure SI where
  id : ℕ
  partnerId : ℕ
  productTmplId : ℕ
  productCode : Option String
  xVendorStockInfo : ℤ
  deriving DecidableEq, Repr

/-- One `product.image` record. -/
structure Img where
  id : ℕ
  productTmplId : ℕ
  image1920 : List ℕ
  name : Option String
  sequence : ℕ
  xVendorImage : Bool
  xVendorImageUrl : Option String
  xVendorName : String
  deriving DecidableEq, Repr

/-- One `product.category` record. -/
structure Cat where
  id : ℕ
  name : String
  deriving DecidableEq, Repr

/-- The persistent store: each collection in creation (id) order, plus the
id allocator. -/
structure State where
  templates : List Tmpl
  sis : List SI
  images : List Img
  categories : List Cat
  nextId : ℕ
  deriving DecidableEq, Repr

/-- A store with nothing in it. -/
def emptyState : State := ⟨[], [], [], [], 1⟩

/-- Store well-formedness: ids are unique per collection and below the
allocator, and supplier lines reference existing templates (the
`product_tmpl_id` foreign key). -/
def WF (s : State) : Prop :=
  (s.templates.map Tmpl.id).Nodup ∧ (∀ t ∈ s.templates, t.id < s.nextId) ∧
  (s.sis.map SI.id).Nodup ∧ (∀ r ∈ s.sis, r.id < s.nextId) ∧
  (∀ r ∈ s.sis, ∃ tm ∈ s.templates, tm.id = r.productTmplId) ∧
  (s.images.map Img.id).Nodup ∧ (∀ im ∈ s.images, im.id < s.nextId) ∧
  (s.categories.map Cat.id).Nodup ∧ (∀ c ∈ s.categories, c.id < s.nextId)

/-- `write` on one template, by id. -/
def writeTmplState (s : State) (i : ℕ) (f : Tmpl → Tmpl) : State :=
  { s with templates := s.templates.map (fun t => if t.id = i then f t else t) }

/-- `write` on one supplier line, by id. -/
def writeSI (sis : List SI) (i : ℕ) (f : SI → SI) : List SI :=
  sis.map (fun r => if r.id = i then f r else r)

/-- `browse` one template by id. -/
def lookupTmpl (s : State) (i : ℕ) : Option Tmpl :=
  s.templates.find? (fun t => t.id = i)

/-- `search` for this vendor's supplier line with the given
`product_code`, limit 1. -/
def searchSIVendor (s : State) (v : ℕ) (sku : String) : Option ℕ :=
  (s.sis.find? (fun r => r.partnerId = v ∧ r.productCode = some sku)).map (·.productTmplId)

/-- `search` for any vendor's supplier line with the given
`product_code`, limit 1. -/
def searchSIAny (s : State) (sku : String) : Option ℕ :=
  (s.sis.find? (fun r => r.productCode = some sku)).map (·.productTmplId)

/-- `search` for a template by exact `default_code`, limit 1. -/
def searchDC (s : State) (sku : String) : Option ℕ :=
  (s.templates.find? (fun t => t.defaultCode = some sku)).map (·.id)

/-- `search` for a template by exact `barcode`, limit 1. -/
def searchBC (s : State) (barcode : String) : Option ℕ :=
  (s.templates.find? (fun t => t.barcode = some barcode)).map (·.id)

/-- The identity resolver `_find_template`: when `map_by = "supplierinfo"`
and a sku is given, first this vendor's supplier line by `product_code`,
then any vendor's; then (for every `map_by`) exact `default_code`, then
exact `barcode`; first hit wins. -/
def findTemplate (cfg : Config) (s : State) (sku barcode : String) : Option ℕ :=
  let t1 : Option ℕ :=
    if cfg.mapBy = "supplierinfo" ∧ sku ≠ "" then
      let viaVendor : Option ℕ :=
        match cfg.vendorId with
        | some v => searchSIVendor s v sku
        | none => none
      match viaVendor with
      | some t => some t
      | none => searchSIAny s sku
    else none
  let t2 : Option ℕ :=
    match t1 with
    | some t => some t
    | none => if sku ≠ "" then searchDC s sku else none
  match t2 with
  | some t => some t
  | none => if barcode ≠ "" then searchBC s barcode else none

/-- Modelled from the spec claim's words, for comparison with
`findTemplate`: the priority-ordered key chain in which the configured
key is tried first — `"supplier-code"` gives vendor link, any link,
`default_code`, `barcode`; `"internal-reference"` puts the
`default_code` match first; `"barcode"` puts the `barcode` match first —
falling back through the remaining keys in the order above. -/
def specFindTemplate (cfg : Config) (s : State) (sku barcode : String) : Option ℕ :=
  let a : Option ℕ :=
    match cfg.vendorId with
    | some v => if sku ≠ "" then searchSIVendor s v sku else none
    | none => none
  let b := if sku ≠ "" then searchSIAny s sku else none
  let c := if sku ≠ "" then searchDC s sku else none
  let d := if barcode ≠ "" then searchBC s barcode else none
  let chain : List (Option ℕ) :=
    if cfg.mapBy = "default_code" then [c, a, b, d]
    else if cfg.mapBy = "barcode" then [d, a, b, c]
    else [a, b, c, d]
  chain.foldl (fun acc o => match acc with | some t => some t | none => o) none

/-- The supplier-link block of `_upsert_product` (runs when a vendor is
configured and the sku is non-empty): find the vendor's line on the
record; find other-vendor lines on the record with the same
`product_code`; if the vendor has none and others exist, rewrite the
first other line's partner and delete the rest, else delete all others;
finally write (or create) the canonical line. -/
def reconcileLinks (v tmplId : ℕ) (sku : String) (stockInfo : ℤ)
    (sis : List SI) (nextId : ℕ) : List SI × ℕ :=
  let siNew := sis.find? (fun r => r.partnerId = v ∧ r.productTmplId = tmplId)
  let siOthers := sis.filter
    (fun r => r.productTmplId = tmplId ∧ r.productCode = some sku ∧ r.partnerId ≠ v)
  let step : List SI × Option ℕ :=
    match siNew with
    | none =>
      match siOthers with
      | o :: rest =>
        let sis1 := writeSI sis o.id (fun r => { r with partnerId := v })
        (sis1.filter (fun r => ¬ (rest.map SI.id).contains r.id), some o.id)
      | [] => (sis, none)
    | some rNew =>
      (sis.filter (fun r => ¬ (siOthers.map SI.id).contains r.id), some rNew.id)
  let siVals : SI → SI := fun r =>
    { r with partnerId := v, productTmplId := tmplId, productCode := some sku,
             xVendorStockInfo := stockInfo }
  match step with
  | (sis1, some i) => (writeSI sis1 i siVals, nextId)
  | (sis1, none) => (sis1 ++ [⟨nextId, v, tmplId, some sku, stockInfo⟩], nextId + 1)

/-- Magic-byte sniff `_looks_like_image` (JPEG, PNG, RIFF/WEBP). -/
def looksLikeImage (b : List ℕ) : Bool :=
  b.length ≥ 12 ∧
  (b.take 2 = [0xff, 0xd8] ∨
   b.take 8 = [0x89, 0x50, 0x4e, 0x47, 0x0d, 0x0a, 0x1a, 0x0a] ∨
   b.take 4 = [0x52, 0x49, 0x46, 0x46])

/-- Stripped sku of an item, `(item.get('sku') or item.get('default_code')
or '').strip()`. -/
def itemSku (item : Item) : String :=
  pyStrip ((pyOrS item.sku item.defaultCode).getD "")

/-- Stripped barcode of an item. -/
def itemBarcode (item : Item) : String :=
  pyStrip (item.barcode.getD "")

/-- Cost chain of `_upsert_product`: `_robust_float(cost)`, falling back
to `_robust_float(price)` only when the `cost` key is absent. -/
def itemCost (item : Item) : Option ℚ :=
  match robustFloat item.cost with
  | none => robustFloat item.price
  | some c => some c

/-- Normalised weight, `float(str(item.get('weight') or 0).replace(',', '.'))`
with exceptions collapsing to `0.0`. -/
def itemWeight (item : Item) : ℚ :=
  match item.weight with
  | some (.num q) => q
  | some (.str t) =>
    if t ≠ "" then
      (pyFloatOfChars (t.data.map (fun c => if c = ',' then '.' else c))).getD 0
    else 0
  | none => 0

/-- Informational vendor stock,
`max(int(vendor_stock or stock or stock_total or 0), 0)` with exceptions
collapsing to `0`. -/
def itemVStock (item : Item) : ℤ :=
  max (match firstTruthyJ [item.vendorStock, item.stock, item.stockTotal] with
       | none => 0
       | some v => (pyInt v).getD 0) 0

/-- Vendor display text,
`(item.get('vendor_name') or (vendor and vendor.display_name) or '').strip()`. -/
def itemVName (cfg : Config) (item : Item) : String :=
  pyStrip ((firstTruthyS [item.vendorName,
    if cfg.vendorId.isSome then some cfg.vendorDisplayName else none]).getD "")

/-- Net `description_ecommerce` vals entry of the base upsert: the second
write of the key (the fallback chain) overwrites the first whenever the
chain is truthy, and when the chain is falsy the first entry is absent
too, so the stored entry is exactly the first truthy of the chain. -/
def itemDescEcom (item : Item) : Option String :=
  firstTruthyS [item.descriptionEcommerce, item.websiteDescription,
                item.description, item.descriptionSale]

/-- The category block of `_upsert_product`: exact-name search, else the
configured default, else create; absent text falls to the default only.
Returns the `categ_id` vals entry and the (possibly grown) store. -/
def resolveCategory (cfg : Config) (item : Item) (s : State) : Option ℕ × State :=
  match item.category with
  | some cn =>
    if cn ≠ "" then
      match s.categories.find? (fun c => c.name = cn) with
      | some c => (some c.id, s)
      | none =>
        match cfg.defaultCategId with
        | some d => (some d, s)
        | none =>
          (some s.nextId,
           { s with categories := s.categories ++ [⟨s.nextId, cn⟩],
                    nextId := s.nextId + 1 })
    else
      match cfg.defaultCategId with
      | some d => (some d, s)
      | none => (none, s)
  | none =>
    match cfg.defaultCategId with
    | some d => (some d, s)
    | none => (none, s)

/-- Barcode-collision guard of `_upsert_product`: the barcode vals entry
is set only when no record owns it or the owner is the matched record. -/
def barcodeToSet (s : State) (tmpl? : Option ℕ) (barcode : String) : Option String :=
  if barcode ≠ "" then
    match s.templates.find? (fun t => t.barcode = some barcode) with
    | none => some barcode
    | some existing =>
      match tmpl? with
      | some t => if existing.id = t then some barcode else none
      | none => none
  else none

/-- The vals application of the base `_upsert_product` (a dict write with
statically known keys): name and flags always; `description_ecommerce`,
`standard_price`, weight, `categ_id`, `default_code` and `barcode` only
when their vals entry exists; vendor info fields always. -/
def baseApplyVals (nameV descEcom : Option String) (cost : Option ℚ) (w : ℚ)
    (catId? : Option ℕ) (sku : String) (bset : Option String)
    (vstock : ℤ) (vname : String) (t0 : Tmpl) : Tmpl :=
  let t := { t0 with name := nameV.getD "", saleOk := true, purchaseOk := true }
  let t := match descEcom with
    | some d => { t with descriptionEcommerce := some d }
    | none => t
  let t := match cost with
    | some c => { t with standardPrice := c }
    | none => t
  let t := if w ≠ 0 ∧ w > 0 then { t with weight := w } else t
  let t := match catId? with
    | some c => { t with categId := some c }
    | none => t
  let t := if sku ≠ "" then { t with defaultCode := some sku } else t
  let t := match bset with
    | some b => { t with barcode := some b }
    | none => t
  { t with xVendorStock := vstock, xVendorName := truthyOpt (some vname) }

/-- Resolution, category block, vals build and create-or-write of the
base `_upsert_product`. -/
def upsertTmplStep (cfg : Config) (item : Item) (s : State) : State × ℕ × Bool :=
  let sku := itemSku item
  let barcode := itemBarcode item
  let tmpl? := findTemplate cfg s sku barcode
  let cs := resolveCategory cfg item s
  let bset := barcodeToSet cs.2 tmpl? barcode
  let applyVals := baseApplyVals (pyOrS item.name item.title) (itemDescEcom item)
    (itemCost item) (itemWeight item) cs.1 sku bset (itemVStock item) (itemVName cfg item)
  match tmpl? with
  | some t => (writeTmplState cs.2 t applyVals, t, false)
  | none =>
    ({ cs.2 with templates := cs.2.templates ++ [applyVals (defaultTmpl cs.2.nextId)],
                 nextId := cs.2.nextId + 1 },
     cs.2.nextId, true)

/-- The supplier-link block of the base `_upsert_product` (runs when a
vendor is configured and the sku is non-empty). -/
def upsertLinkStep (cfg : Config) (item : Item) (r : State × ℕ × Bool) :
    State × ℕ × Bool :=
  match cfg.vendorId with
  | some v =>
    if itemSku item ≠ "" then
      let rl := reconcileLinks v r.2.1 (itemSku item) (itemVStock item) r.1.sis r.1.nextId
      ({ r.1 with sis := rl.1, nextId := rl.2 }, r.2.1, r.2.2)
    else r
  | none => r

/-- The main-image block of the base `_upsert_product`: download once,
sniff the magic bytes, store on success, skip silently otherwise. -/
def upsertImageStep (dl : String → Option (List ℕ)) (item : Item)
    (r : State × ℕ × Bool) : State × ℕ × Bool :=
  if truthyS item.imageUrl then
    match dl (item.imageUrl.getD "") with
    | some content =>
      if looksLikeImage content then
        (writeTmplState r.1 r.2.1 (fun t => { t with image1920 := some content }), r.2.1, r.2.2)
      else r
    | none => r
  else r

/-- The publication block of the base `_upsert_product`. -/
def upsertPublishStep (cfg : Config) (r : State × ℕ × Bool) : State × ℕ × Bool :=
  if cfg.publishOnWebsite then
    let s1 := writeTmplState r.1 r.2.1 (fun t => { t with websitePublished := true })
    match cfg.websiteId with
    | some wid =>
      (writeTmplState s1 r.2.1 (fun t =>
        { t with websiteIds :=
            if t.websiteIds.contains wid then t.websiteIds else t.websiteIds ++ [wid] }),
       r.2.1, r.2.2)
    | none => (s1, r.2.1, r.2.2)
  else r

/-- The body of the base `_upsert_product` after validation. -/
def upsertBaseCore (cfg : Config) (dl : String → Option (List ℕ)) (item : Item)
    (s : State) : State × ℕ × Bool :=
  upsertPublishStep cfg (upsertImageStep dl item (upsertLinkStep cfg item
    (upsertTmplStep cfg item s)))

/-- The base `_upsert_product` of `vendor.catalog.config` (validation,
vals build, create-or-write, supplier-link block, main image, publish).
`dl` abstracts `_download_first_ok` (the network fetch over the
getpicture candidate URLs, an external collaborator): `none`/empty bytes
are failed downloads.  The trailing gallery block of the source calls
`tmpl.vc_apply_gallery_urls`, a method defined nowhere in the module, so
the call raises `AttributeError` into the surrounding
`except Exception` and never changes the store.  Error strings elide the
quotes of the original messages. -/
def upsertBase (cfg : Config) (dl : String → Option (List ℕ)) (item : Item)
    (s : State) : Except String (State × ℕ × Bool) :=
  if ¬ truthyS (pyOrS item.name item.title) then .error "Falta name en el item"
  else if itemSku item = "" ∧ itemBarcode item = "" then
    .error "Falta SKU/default_code o barcode en el item"
  else .ok (upsertBaseCore cfg dl item s)

/-- The `web_html` chain of the brand overlay: the item's own
`website_description` if truthy, else `_as_html` of the first truthy
generic description. -/
def brandWebHtml (asHtml : String → Option String) (item : Item) : Option String :=
  match truthyOpt item.websiteDescription with
  | some h => some h
  | none =>
    match firstTruthyS [item.description, item.descriptionSale] with
    | some txt => asHtml txt
    | none => none

/-- The template/variant write of the brand/notes overlay: keep exactly
`website_description`, clear the other description surfaces on the
record and all its variants. -/
def brandWriteTmpl (stored : Option String) (tm : Tmpl) : Tmpl :=
  { tm with websiteDescription := stored, description := none,
            descriptionSale := none, websiteShortDescription := none,
            variants := tm.variants.map (fun v =>
              { v with websiteDescription := stored, description := none,
                       descriptionSale := none, websiteShortDescription := none }) }

/-- The brand/notes overlay `VendorCatalogConfigBrandNotes._upsert_product`
(after its `super()` call): re-resolve the template; keep exactly
`website_description` (the item's own, else `_as_html` of the generic
descriptions) and clear `description`, `description_sale` and
`website_short_description` on the template and all its variants.
`asHtml` abstracts the pure text-to-markup utility `_as_html`
(out of the engine's scope per the specification); `none` models its
`False` result. -/
def brandStage (cfg : Config) (asHtml : String → Option String) (item : Item)
    (res : State × ℕ × Bool) : State × ℕ × Bool :=
  let (s, tid, wc) := res
  match findTemplate cfg s (itemSku item) (itemBarcode item) with
  | none => res
  | some t =>
    (writeTmplState s t (brandWriteTmpl (truthyOpt (brandWebHtml asHtml item))), tid, wc)

/-- Candidate URLs of the gallery overlay (its steps 1–3): explicit list
fields, else the numbered derivation from the main URL, then cleaned. -/
def galleryCandidates (item : Item) : List String :=
  let main := pyStrip (item.imageUrl.getD "")
  let urls := toListImages item.images ++ toListImages item.extraImages ++
              toListImages item.gallery ++ toListImages item.imageUrls
  let urls := if urls = [] ∧ main ≠ "" then deriveNumberedUrls main 8 else urls
  cleanUrls main urls

/-- One iteration of the gallery download loop: skip known URLs, create
one tagged `product.image` per successful non-empty download. -/
def galleryFoldStep (dl : String → Option (List ℕ)) (existingUrls : List String)
    (t : ℕ) (imgName : Option String) (seqBase : ℕ) (vname : String)
    (acc : List Img × ℕ × ℕ) (url : String) : List Img × ℕ × ℕ :=
  let (imgs, nid, idx) := acc
  if existingUrls.contains url then (imgs, nid, idx + 1)
  else
    match dl url with
    | some content =>
      if content ≠ [] then
        (imgs ++ [⟨nid, t, content, imgName, seqBase + idx, true, some url, vname⟩],
         nid + 1, idx + 1)
      else (imgs, nid, idx + 1)
    | none => (imgs, nid, idx + 1)

/-- The gallery overlay `VendorCatalogConfigGallery._upsert_product`
(after its `super()` call): re-resolve the template, gather candidate
URLs, skip URLs already recorded on the record's vendor images, download
the rest and create one tagged `product.image` per successful download,
sequencing after the current maximum. -/
def galleryStage (cfg : Config) (dl : String → Option (List ℕ)) (item : Item)
    (res : State × ℕ × Bool) : State × ℕ × Bool :=
  let (s, tid, wc) := res
  match findTemplate cfg s (itemSku item) (itemBarcode item) with
  | none => res
  | some t =>
    let clean := galleryCandidates item
    if clean = [] then res
    else
      let existingUrls :=
        (s.images.filter (fun im =>
          im.productTmplId = t ∧ im.xVendorImage ∧ truthyS im.xVendorImageUrl)).filterMap
          (·.xVendorImageUrl)
      let vname0 := itemVName cfg item
      let vname := if vname0 = "" then "Proveedor" else vname0
      let seqBase :=
        ((s.images.filter (fun im => im.productTmplId = t)).map (·.sequence)).foldl max 0 + 10
      let tmName := match lookupTmpl s t with
        | some tm => tm.name
        | none => ""
      let imgName := firstTruthyS [some tmName, some (itemSku item), some (itemBarcode item)]
      let step := clean.foldl
        (galleryFoldStep dl existingUrls t imgName seqBase vname) ([], s.nextId, 1)
      ({ s with images := s.images ++ step.1, nextId := step.2.1 }, tid, wc)

/-- The full `_upsert_product` override chain.  Every overlay calls
`super()._upsert_product(item)` first, so the base runs first and the
overlay bodies run afterwards; their relative order does not matter
(they touch disjoint fields), and the public-category overlay — which
only writes `public_categ_ids` and `product.public.category` rows, none
of which any other component reads — is kept out of the store model. -/
def upsertFull (cfg : Config) (dl : String → Option (List ℕ))
    (asHtml : String → Option String) (item : Item) (s : State) :
    Except String (State × ℕ × Bool) :=
  (upsertBase cfg dl item s).map
    (fun r => galleryStage cfg dl item (brandStage cfg asHtml item r))

/-- The full upsert chain as an orchestrator step (the run loop only uses
the second tuple component, `was_created`). -/
def stepOfUpsert (u : Item → State → Except String (State × ℕ × Bool)) :
    State → Item → Except String (State × Bool) :=
  fun s it => (u it s).map (fun r => (r.1, r.2.2))

/-- Best-effort key for a failure detail line,
`raw.get("sku") or raw.get("default_code") or raw.get("barcode") or "N/A"`. -/
def bestKey (item : Item) : String :=
  (firstTruthyS [item.sku, item.defaultCode, item.barcode]).getD "N/A"

/-- Accumulated run counters of `action_run_import`. -/
structure RunAcc (σ : Type) where
  state : σ
  created : ℕ
  updated : ℕ
  skipped : ℕ
  details : List String
  deriving Repr

/-- The per-item loop of the base `action_run_import`: each item is
upserted; an exception is caught, counted as failed and recorded as one
`ERROR key: message` detail line, and the loop continues.  Batch commits
only flush the transaction and do not change the store. -/
def runFoldStep {σ : Type} (step : σ → Item → Except String (σ × Bool))
    (acc : RunAcc σ) (raw : Item) : RunAcc σ :=
  match step acc.state raw with
  | .ok (s', wasCreated) =>
    if wasCreated then { acc with state := s', created := acc.created + 1 }
    else { acc with state := s', updated := acc.updated + 1 }
  | .error e =>
    { acc with skipped := acc.skipped + 1,
               details := acc.details ++ ["ERROR " ++ bestKey raw ++ ": " ++ e] }

/-- The loop over the feed, from zeroed counters. -/
def runImport {σ : Type} (step : σ → Item → Except String (σ × Bool))
    (s0 : σ) (items : List Item) : RunAcc σ :=
  items.foldl (runFoldStep step) ⟨s0, 0, 0, 0, []⟩

/-- The summary line
`Total: {t} | Creados: {c} | Actualizados: {u} | Fallidos: {f}`. -/
def mkMsgLine (t c u f : ℕ) : String :=
  "Total: " ++ natStr t ++ " | Creados: " ++ natStr c ++
  " | Actualizados: " ++ natStr u ++ " | Fallidos: " ++ natStr f

/-- Newline join of a list of lines, `"\n".join(lines)`. -/
def joinLines : List String → String
  | [] => ""
  | [l] => l
  | l :: rest => l ++ "\n" ++ joinLines rest

/-- The persisted `last_result` of the base run: the summary line alone,
or the summary line plus at most 200 detail lines. -/
def mkResultText (msg : String) (details : List String) : String :=
  if details = [] then msg else joinLines (msg :: details.take 200)

/-- The base `action_run_import` on an item list already fetched:
runs the loop and renders `last_result`. -/
def actionRunImportBase {σ : Type} (step : σ → Item → Except String (σ × Bool))
    (s0 : σ) (items : List Item) : RunAcc σ × String :=
  let acc := runImport step s0 items
  (acc, mkResultText (mkMsgLine items.length acc.created acc.updated acc.skipped) acc.details)

/-!
The statistics-reconciler overlay `VendorCatalogStatsPatch.action_run_import`
from `models/_import_stats_patch.py`.
-/

/-- `_key_of`: the natural key of a feed item under the configured
`map_by` (a Python `or` chain, so the first truthy field). -/
def keyOf (mapBy : String) (item : Item) : Option String :=
  if mapBy = "barcode" then
    firstTruthyS [item.barcode, item.sku, item.vendorCode, item.defaultCode]
  else
    firstTruthyS [item.sku, item.vendorCode, item.defaultCode, item.barcode]

/-- De-duplicated feed keys in first-occurrence order. -/
def feedKeys (mapBy : String) (items : List Item) : List String :=
  items.foldl
    (fun ks it =>
      match keyOf mapBy it with
      | some k => if ks.contains k then ks else ks ++ [k]
      | none => ks) []

/-- `field_map.get(map_by, 'default_code')`. -/
def ptFieldOf (mapBy : String) : String :=
  if mapBy = "barcode" then "barcode" else "default_code"

/-- Normalised `map_by`, `(cfg.map_by or 'sku').strip().lower()`. -/
def mapByNorm (cfg : Config) : String :=
  ⟨(pyStrip (if cfg.mapBy = "" then "sku" else cfg.mapBy)).data.map lowerAscii⟩

/-- Membership of a key in a snapshot: some template carries it in the
snapshot field (the patched `search(pt_field in keys).mapped(pt_field)`
set restricted to one key). -/
def hasKeyTmpl (field : String) (s : State) (k : String) : Bool :=
  s.templates.any (fun t =>
    (if field = "barcode" then t.barcode else t.defaultCode) = some k)

/-- Prefix removal on char lists. -/
def stripPfx : List Char → List Char → Option (List Char)
  | [], l => some l
  | _ :: _, [] => none
  | p :: ps, c :: cs => if p = c then stripPfx ps cs else none

/-- Substring occurrence of `pat` in `l`. -/
def containsChars (l pat : List Char) : Bool :=
  l.tails.any (fun t => pat.isPrefixOf t)

/-- Substring occurrence on strings. -/
def containsStr (s pat : String) : Bool :=
  containsChars s.data pat.data

/-- The soft-failure message (the escaped-dot regex is a literal,
matched case-insensitively). -/
def softBody : String :=
  "no se pudo descifrar este archivo como un archivo de imagen."

/-- A detail line counted as a soft (unreadable-image) failure:
contains `ERROR ` and, case-insensitively, the unreadable-image text. -/
def isSoftLine (ln : String) : Bool :=
  containsStr ln "ERROR " ∧ containsChars (ln.data.map lowerAscii) softBody.data

/-- Python `\s` on ASCII. -/
def isWsPy (c : Char) : Bool :=
  c = ' ' ∨ c = '\t' ∨ c = '\n' ∨ c = '\x0b' ∨ c = '\x0c' ∨ c = '\r'

/-- One-or-more whitespace (`\s+`), greedy; greedy is exact here since the
regex continues with non-whitespace. -/
def wsPlus (l : List Char) : Option (List Char) :=
  match l with
  | c :: rest => if isWsPy c then some (rest.dropWhile isWsPy) else none
  | [] => none

/-- Match of `galería\s+saltada\s+[a-z0-9]` at the head of an
(ASCII-lowered) char list; the trailing `+` of the character class needs
only its first character. -/
def skipAt (l : List Char) : Bool :=
  match stripPfx "galería".data l with
  | none => false
  | some r1 =>
    match wsPlus r1 with
    | none => false
    | some r2 =>
      match stripPfx "saltada".data r2 with
      | none => false
      | some r3 =>
        match wsPlus r3 with
        | none => false
        | some r4 =>
          match r4 with
          | c :: _ => c.isDigit ∨ ('a' ≤ c ∧ c ≤ 'z')
          | [] => false

/-- A detail line counted as a gallery-skip event:
`re.search(r"Galería\s+saltada\s+[A-Z0-9]+", ln, re.I)`, modelled by
ASCII lowering and trying every suffix. -/
def isSkipLine (ln : String) : Bool :=
  (ln.data.map lowerAscii).tails.any skipAt

/-- Greedy `\d+`. -/
def parseNatChars (l : List Char) : Option (ℕ × List Char) :=
  let ds := l.takeWhile Char.isDigit
  if ds = [] then none else some (digitsVal ds, l.dropWhile Char.isDigit)

/-- Parse of the summary-line regex
`Total:\s*(\d+)\s*\|\s*Creados:\s*(\d+)\s*\|\s*Actualizados:\s*(\d+)\s*\|\s*Fallidos:\s*(\d+)`,
modelled on the canonical single-space rendering — the only shape the
base orchestrator emits. -/
def parseFirstLine (s : String) : Option (ℕ × ℕ × ℕ × ℕ) :=
  match stripPfx "Total: ".data s.data with
  | none => none
  | some r1 =>
    match parseNatChars r1 with
    | none => none
    | some (t, r2) =>
      match stripPfx " | Creados: ".data r2 with
      | none => none
      | some r3 =>
        match parseNatChars r3 with
        | none => none
        | some (c, r4) =>
          match stripPfx " | Actualizados: ".data r4 with
          | none => none
          | some r5 =>
            match parseNatChars r5 with
            | none => none
            | some (u, r6) =>
              match stripPfx " | Fallidos: ".data r6 with
              | none => none
              | some r7 =>
                match parseNatChars r7 with
                | none => none
                | some (f, _) => some (t, c, u, f)

/-- `splitOnNl` cuts a char list at every newline. -/
def splitOnNl : List Char → List (List Char)
  | [] => [[]]
  | c :: rest =>
    if c = '\n' then [] :: splitOnNl rest
    else
      match splitOnNl rest with
      | h :: t => (c :: h) :: t
      | [] => [[c]]

/-- Python `str.splitlines()` restricted to `\n` terminators (the only
terminator occurring in the engine's texts). -/
def pySplitlines (s : String) : List String :=
  if s.data = [] then []
  else
    let parts := splitOnNl s.data
    let parts := if s.data.getLast? = some '\n' then parts.dropLast else parts
    parts.map (fun l => (⟨l⟩ : String))

/-- Python `str.rstrip("\n")`. -/
def rstripNl (s : String) : String :=
  ⟨(s.data.reverse.dropWhile (· = '\n')).reverse⟩

/-- The statistics-reconciler overlay `action_run_import`:
fetch the feed once for its de-duplicated natural keys and snapshot which
of them the catalog already knows; run the base import; classify the
detail lines (`soft` unreadable-image errors, `skipped` gallery-skip
events); re-parse the summary line; recompute `failed` (base minus soft),
`success`, `created` (pre-absent, post-present keys, capped at success),
`updated` (the remainder) and `no_extra_images` (the side-channel counter
— never incremented anywhere in the module, hence 0 — plus soft plus
skipped); rewrite the first line of `last_result`.  Returns the final
store and the final `last_result` text. -/
def actionRunImportStats (step : State → Item → Except String (State × Bool))
    (cfg : Config) (s0 : State) (items : List Item) : State × String :=
  let mapBy := mapByNorm cfg
  let field := ptFieldOf mapBy
  let keys := feedKeys mapBy items
  let (acc, baseText) := actionRunImportBase step s0 items
  match pySplitlines (rstripNl baseText) with
  | [] => (acc.state, baseText)
  | first :: tail =>
    let soft := (tail.filter isSoftLine).length
    let skipped := (tail.filter isSkipLine).length
    match parseFirstLine first with
    | none =>
      let noExtra := 0 + soft + skipped
      (acc.state, joinLines ((first ++ " | Sin imagen extra: " ++ natStr noExtra) :: tail))
    | some (total, _, _, failedBase) =>
      let failedReal := failedBase - soft
      let success := total - failedReal
      let createdRaw :=
        (keys.filter (fun k => ¬ hasKeyTmpl field s0 k ∧ hasKeyTmpl field acc.state k)).length
      let createdReal := if createdRaw > success then success else createdRaw
      let updatedReal := success - createdReal
      let noExtra := 0 + soft + skipped
      (acc.state,
       joinLines (("Total: " ++ natStr total ++ " | Creados: " ++ natStr createdReal ++
                   " | Actualizados: " ++ natStr updatedReal ++
                   " | Fallidos: " ++ natStr failedReal ++
                   " | Sin imagen extra: " ++ natStr noExtra) :: tail))

/-!
Flat category mapping.  Two implementations exist: the wrapper
`myscript/catalog_map_wrapper.py::get_items_mapped` and the final
(`PATCH v3`) redefinition of `get_items_mapped` in
`myscript/infortisa/infortisa_catalog.py`.  The text normalizer
(`unicodedata`-based accent stripping) and `difflib.get_close_matches`
are standard-library collaborators, passed as parameters. -/

/-- Mapping-table lookup (`dict.get`); the loader keeps one binding per
normalised key. -/
def lookupMap (cmap : List (String × String)) (k : String) : Option String :=
  (cmap.find? (fun p => p.1 = k)).map (·.2)

/-- The mapping-application part of the wrapper `get_items_mapped`,
after the item list and the mapping table were obtained.  When the
mapping is empty or unavailable the source runs
`it["category"] = cat_map.get(_norm(src_cat)) or FALLBACK_CATEGORY` per
item — but `cat_map` and `_norm` are names defined nowhere, so the first
loop iteration raises `NameError` (modelled as `.error`).  Otherwise each
item's category is rewritten only on a truthy lookup hit (the per-item
`try` swallows nothing here: `dict.get` cannot raise on a string key). -/
def wrapperApplyMap (normKey : String → String) (cmap : List (String × String))
    (items : List Item) : Except String (List Item) :=
  if cmap = [] then
    match items with
    | [] => .ok []
    | _ :: _ => .error "NameError: name cat_map is not defined"
  else
    .ok (items.map (fun it =>
      let orig := (truthyOpt it.category).getD ""
      match lookupMap cmap (normKey orig) with
      | some d => if d ≠ "" then { it with category := some d } else it
      | none => it))

/-- `_mm_find_map` of the `PATCH v3` implementation: exact normalised
lookup, then prefix/suffix key match, then `difflib.get_close_matches`
with cutoff 0.92 (`closeMatch`, returning the best key above the cutoff
if any); `none` when nothing hits. -/
def mmFindMap (closeMatch : String → List String → Option String)
    (normKey : String → String) (cmap : List (String × String))
    (src : String) : Option String :=
  if cmap = [] then none
  else
    let key := normKey src
    match lookupMap cmap key with
    | some d => some d
    | none =>
      match (cmap.map (·.1)).find?
          (fun k => k.data.isPrefixOf key.data ∨ k.data.reverse.isPrefixOf key.data.reverse ∨
            key.data.isPrefixOf k.data) with
      | some k => lookupMap cmap k
      | none => (closeMatch key (cmap.map (·.1))).bind (lookupMap cmap)

/-- The item loop of the `PATCH v3` `get_items_mapped`: an empty mapping
returns the items untouched; otherwise a hit rewrites `category` (and
`public_category`, not part of the canonical item model) and a miss
leaves the item unchanged. -/
def mmApplyMap (closeMatch : String → List String → Option String)
    (normKey : String → String) (cmap : List (String × String))
    (items : List Item) : List Item :=
  if cmap = [] then items
  else
    items.map (fun it =>
      let src := (truthyOpt it.category).getD ""
      match mmFindMap closeMatch normKey cmap src with
      | some d => if d ≠ "" then { it with category := some d } else it
      | none => it)

/-- Membership form of the gallery's `existing_urls` set: a vendor image
of the record already stores this origin URL. -/
def urlStored (s : State) (t : ℕ) (url : String) : Prop :=
  ∃ im ∈ s.images, im.productTmplId = t ∧ im.xVendorImage = true ∧
    truthyS im.xVendorImageUrl = true ∧ im.xVendorImageUrl = some url

/-- A configuration with no vendor and `sku` mapping, for the
orchestrator scenarios. -/
def c1Cfg : Config := ⟨none, "", "sku", none, false, none, 0⟩

/-- A downloader that always fails. -/
def c1Dl : String → Option (List ℕ) := fun x => none

/-- A markup helper that always returns `False`. -/
def c1Ah : String → Option String := fun x => none

/-- Feed item `A` (pre-known key). -/
def c1ItemA : Item :=
  { emptyItem with
    name := some "Prod A"
    sku := some "A" }

/-- Feed item `B` (no name, fails validation). -/
def c1ItemB : Item :=
  { emptyItem with
    sku := some "B" }

/-- Feed item `C` (new key). -/
def c1ItemC : Item :=
  { emptyItem with
    name := some "Prod C"
    sku := some "C" }

/-- Pre-run catalog holding exactly key `A`. -/
def c1S0 : State :=
  ⟨[{ defaultTmpl 0 with
      name := "Old A"
      defaultCode := some "A" }], [], [], [], 1⟩

/-- An item carrying both an explicit `description_ecommerce` payload and
an explicit `website_description` payload. -/
def c3Item : Item :=
  { emptyItem with
    name := some "P"
    sku := some "S"
    descriptionEcommerce := some "E"
    websiteDescription := some "W" }

/-!
Theorems.
-/

/-- When no separator fires anywhere in the remaining input, the splitter
loop appends the stripped concatenation of buffer and input (when
non-empty) to the already flushed parts. -/
theorem smartSplitAux_noSep (prev : Option Char) (d skip : ℕ) (buf : List Char)
    (parts : List (List Char)) (l : List Char)
    (hs : skip = 0) (h : codeHasSep prev d l = false) :
    smartSplitAux prev d skip buf parts l =
      parts ++ (if stripChars (buf ++ l) ≠ [] then [stripChars (buf ++ l)] else []) := by
  induction prev, d, skip, buf, parts, l using smartSplitAux.induct with
  | case1 prev d skip buf parts =>
    simp [smartSplitAux]
  | case2 prev d skip buf parts c rest hskip ih =>
    omega
  | case3 prev d skip buf parts c rest hskip hsep ih =>
    rw [codeHasSep, if_pos hsep] at h
    exact absurd h (by simp)
  | case4 prev d skip buf parts c rest hskip hsep1 hsep2 ih =>
    rw [codeHasSep, if_neg hsep1, if_pos hsep2] at h
    exact absurd h (by simp)
  | case5 prev d skip buf parts c rest hskip hsep1 hsep2 ih =>
    rw [codeHasSep, if_neg hsep1, if_neg hsep2] at h
    rw [smartSplitAux, if_neg hskip, if_neg hsep1, if_neg hsep2, ih rfl h]
    simp

/-- C6 counterexample: on `"Audio >"` no three-character `" / "` or
`" > "` token occurs at any parenthesis depth (`specHasTopSep`, modelled
from the claim's words, is `false`), so the claim predicts the single
trimmed segment `["Audio >"]`; the code's splitter nevertheless treats
the space-preceded final `'>'` as a separator and returns `["Audio"]`. -/
theorem C6_split_counterexample :
    specHasTopSep 0 (String.data "Audio >") = false ∧
    smartSplitEcomPath "Audio >" = ["Audio"] ∧
    pyStrip "Audio >" = "Audio >" ∧
    (["Audio"] : List String) ≠ ["Audio >"] := by
  refine ⟨by decide, by decide, by decide, by decide⟩

/-- C6 (amended): the splitter divides only at top-level `" / "` tokens
and at top-level `'>'` characters that are preceded by a space and
followed by a space or the end of the string; when no such separator
occurs (`codeHasSep` is `false` on the initial scan state), the trimmed
whole string is returned as the single segment.  The claim's two
examples hold as stated. -/
theorem C6_split_amended :
    (∀ s : String, codeHasSep none 0 s.data = false →
      smartSplitEcomPath s = [pyStrip s]) ∧
    smartSplitEcomPath "Audio / Video (4 > 8 in)" = ["Audio", "Video (4 > 8 in)"] ∧
    smartSplitEcomPath "Single Category" = ["Single Category"] := by
  refine ⟨fun s h => ?_, by decide, by decide⟩
  rw [smartSplitEcomPath]
  rw [smartSplitAux_noSep none 0 0 [] [] s.data rfl h]
  simp only [List.nil_append]
  by_cases hc : stripChars s.data = []
  · simp [hc, pyStrip]
  · simp [hc, pyStrip]

/-- C6 witness: the no-separator branch of the amended theorem applied at
the concrete input `"Single Category"`. -/
theorem C6_split_amended_witness :
    codeHasSep none 0 (String.data "Single Category") = false ∧
    smartSplitEcomPath "Single Category" = [pyStrip "Single Category"] :=
  ⟨by decide, C6_split_amended.1 "Single Category" (by decide)⟩

/-- C5 counterexample: with priority `"barcode"`, sku `"S"` and barcode
`"B"`, against a store where record 1 has `default_code = "S"` (and an
unrelated barcode) and record 2 owns barcode `"B"`, the resolver of the
code returns record 1 — the `default_code` match — while the claim's
order (barcode tried first) would return record 2. -/
theorem C5_resolution_counterexample :
    let cfg : Config := ⟨some 7, "V", "barcode", none, false, none, 100⟩
    let s : State :=
      { emptyState with
        templates := [{ defaultTmpl 1 with defaultCode := some "S", barcode := some "BX" },
                      { defaultTmpl 2 with barcode := some "B" }],
        nextId := 3 }
    findTemplate cfg s "S" "B" = some 1 ∧
    specFindTemplate cfg s "S" "B" = some 2 ∧
    findTemplate cfg s "S" "B" ≠ specFindTemplate cfg s "S" "B" := by
  exact ⟨by decide, by decide, by decide⟩

/-- C5 (amended): with priority `"supplier-code"` the resolver is exactly
the claimed chain — this vendor's supplier line, any supplier line, exact
`default_code`, exact `barcode`, first non-empty hit — and in particular
a supplier-code match wins over any stale barcode match; but with
priority `"internal-reference"` or `"barcode"` the supplier-link lookups
are skipped entirely and the resolver always tries exact `default_code`
first and then exact `barcode`, in that fixed order, regardless of which
of the two keys is configured. -/
theorem C5_resolution_amended :
    (∀ (cfg : Config) (s : State) (v : ℕ) (sku barcode : String),
      cfg.mapBy = "supplierinfo" → cfg.vendorId = some v → sku ≠ "" →
      findTemplate cfg s sku barcode =
        (((searchSIVendor s v sku).orElse fun _ =>
          (searchSIAny s sku).orElse fun _ =>
          (searchDC s sku).orElse fun _ =>
          if barcode ≠ "" then searchBC s barcode else none))) ∧
    (∀ (cfg : Config) (s : State) (sku barcode : String),
      cfg.mapBy ≠ "supplierinfo" →
      findTemplate cfg s sku barcode =
        ((if sku ≠ "" then searchDC s sku else none).orElse fun _ =>
          if barcode ≠ "" then searchBC s barcode else none)) ∧
    (∀ (cfg : Config) (s : State) (v : ℕ) (sku barcode : String) (t : ℕ),
      cfg.mapBy = "supplierinfo" → cfg.vendorId = some v → sku ≠ "" →
      searchSIVendor s v sku = some t →
      findTemplate cfg s sku barcode = some t) := by
  refine ⟨?_, ?_, ?_⟩
  · intro cfg s v sku barcode h1 h2 h3
    rw [findTemplate, h2]
    simp only [if_pos (And.intro h1 h3)]
    cases hA : searchSIVendor s v sku with
    | some t => simp [Option.orElse, hA]
    | none =>
      cases hB : searchSIAny s sku with
      | some t => simp [Option.orElse, hB, h3]
      | none =>
        cases hC : searchDC s sku with
        | some t => simp [Option.orElse, hC, h3]
        | none => simp [Option.orElse, hC, h3]
  · intro cfg s sku barcode h1
    have hcond : ¬ (cfg.mapBy = "supplierinfo" ∧ sku ≠ "") := fun hc => h1 hc.1
    rw [findTemplate]
    simp only [if_neg hcond]
    by_cases hsku : sku = ""
    · simp [hsku, Option.orElse]
    · cases hC : searchDC s sku with
      | some t => simp [Option.orElse, hC, hsku]
      | none => simp [Option.orElse, hC, hsku]
  · intro cfg s v sku barcode t h1 h2 h3 hA
    rw [findTemplate, h2]
    simp only [if_pos (And.intro h1 h3), hA]

/-- Two members of a list of length at most one coincide. -/
theorem eq_of_mem_length_le_one {α : Type} {l : List α} {a b : α}
    (ha : a ∈ l) (hb : b ∈ l) (h : l.length ≤ 1) : a = b := by
  match l with
  | [] => cases ha
  | [x] =>
    rw [List.mem_singleton] at ha hb
    rw [ha, hb]
  | x :: y :: xs => simp at h

/-- Writing a row in place preserves the id column. -/
theorem writeSI_map_id (l : List SI) (i : ℕ) (f : SI → SI)
    (hf : ∀ r, (f r).id = r.id) :
    (writeSI l i f).map SI.id = l.map SI.id := by
  simp only [writeSI, List.map_map]
  refine List.map_congr_left ?_
  intro a _
  by_cases h : a.id = i <;> simp [h, hf]

/-- Rows in a list with no duplicate ids are determined by their id. -/
theorem eq_of_id_eq {l : List SI} (hnodup : (l.map SI.id).Nodup) {a b : SI}
    (ha : a ∈ l) (hb : b ∈ l) (hid : a.id = b.id) : a = b :=
  List.inj_on_of_nodup_map hnodup ha hb hid

/-- Templates in a list with no duplicate ids are determined by their id. -/
theorem tmpl_eq_of_id_eq {l : List Tmpl} (hnodup : (l.map Tmpl.id).Nodup) {a b : Tmpl}
    (ha : a ∈ l) (hb : b ∈ l) (hid : a.id = b.id) : a = b :=
  List.inj_on_of_nodup_map hnodup ha hb hid

/-- `find?` commutes with a map that does not change the predicate. -/
theorem find?_map_pred {α : Type} (l : List α) (g : α → α) (p : α → Bool)
    (hp : ∀ a, p (g a) = p a) : (l.map g).find? p = (l.find? p).map g := by
  induction l with
  | nil => rfl
  | cons a l ih =>
    rw [List.map_cons]
    by_cases hpa : p a = true
    · rw [List.find?_cons_of_pos _ (by rw [hp]; exact hpa),
          List.find?_cons_of_pos _ hpa]
      rfl
    · rw [List.find?_cons_of_neg _ (by rw [hp]; exact hpa),
          List.find?_cons_of_neg _ hpa, ih]

/-- `find?` over an append scans the left part first. -/
theorem find?_append_chain {α : Type} (l1 l2 : List α) (p : α → Bool) :
    (l1 ++ l2).find? p = ((l1.find? p).orElse fun _ => l2.find? p) := by
  induction l1 with
  | nil => rfl
  | cons a l ih =>
    by_cases hpa : p a = true
    · rw [List.cons_append, List.find?_cons_of_pos _ hpa, List.find?_cons_of_pos _ hpa]
      rfl
    · rw [List.cons_append, List.find?_cons_of_neg _ hpa, List.find?_cons_of_neg _ hpa, ih]

/-- Writing one template in place, by id, commutes with `browse`. -/
theorem lookupTmpl_write (s : State) (i t : ℕ) (f : Tmpl → Tmpl)
    (hf : ∀ tm, (f tm).id = tm.id) :
    lookupTmpl (writeTmplState s i f) t =
      (lookupTmpl s t).map (fun tm => if tm.id = i then f tm else tm) := by
  simp only [lookupTmpl, writeTmplState]
  exact find?_map_pred s.templates _ _ (fun tm => by by_cases h : tm.id = i <;> simp [h, hf])

/-- `browse` finds a member template by its id when ids are unique. -/
theorem lookupTmpl_of_mem {s : State} (hnodup : (s.templates.map Tmpl.id).Nodup)
    {tm : Tmpl} (htm : tm ∈ s.templates) : lookupTmpl s tm.id = some tm := by
  have hsome : (s.templates.find? (fun x => x.id = tm.id)).isSome :=
    List.find?_isSome.mpr ⟨tm, htm, by simp⟩
  rw [lookupTmpl]
  rcases hfind : s.templates.find? (fun x => x.id = tm.id) with _ | r
  · rw [hfind] at hsome; cases hsome
  · have hr : r ∈ s.templates := List.mem_of_find?_eq_some hfind
    have hid : r.id = tm.id := by simpa using List.find?_some hfind
    rw [hfind, tmpl_eq_of_id_eq hnodup hr htm hid]

/-- The allocator id is free: no template carries it. -/
theorem lookupTmpl_nextId {s : State} (hwf : WF s) : lookupTmpl s s.nextId = none := by
  rw [lookupTmpl]
  refine List.find?_eq_none.mpr ?_
  intro tm htm
  have := hwf.2.1 tm htm
  simp only [decide_eq_true_eq]
  omega

/-- A vendor-line hit designates an existing template, by the
foreign-key clause of `WF`. -/
theorem searchSIVendor_fk {s : State} {v : ℕ} {sku : String} {t : ℕ} (hwf : WF s)
    (h : searchSIVendor s v sku = some t) : ∃ tm ∈ s.templates, tm.id = t := by
  rcases hfind : s.sis.find? (fun r => r.partnerId = v ∧ r.productCode = some sku) with _ | r
  · rw [searchSIVendor, hfind] at h; cases h
  · rw [searchSIVendor, hfind] at h
    simp only [Option.map_some', Option.some.injEq] at h
    rw [← h]
    exact hwf.2.2.2.2.1 r (List.mem_of_find?_eq_some hfind)

/-- An any-vendor-line hit designates an existing template. -/
theorem searchSIAny_fk {s : State} {sku : String} {t : ℕ} (hwf : WF s)
    (h : searchSIAny s sku = some t) : ∃ tm ∈ s.templates, tm.id = t := by
  rcases hfind : s.sis.find? (fun r => r.productCode = some sku) with _ | r
  · rw [searchSIAny, hfind] at h; cases h
  · rw [searchSIAny, hfind] at h
    simp only [Option.map_some', Option.some.injEq] at h
    rw [← h]
    exact hwf.2.2.2.2.1 r (List.mem_of_find?_eq_some hfind)

/-- A `default_code` hit designates an existing template. -/
theorem searchDC_mem {s : State} {sku : String} {t : ℕ}
    (h : searchDC s sku = some t) : ∃ tm ∈ s.templates, tm.id = t := by
  rcases hfind : s.templates.find? (fun tm => tm.defaultCode = some sku) with _ | r
  · rw [searchDC, hfind] at h; cases h
  · rw [searchDC, hfind] at h
    simp only [Option.map_some', Option.some.injEq] at h
    exact ⟨r, List.mem_of_find?_eq_some hfind, h⟩

/-- A `barcode` hit designates an existing template. -/
theorem searchBC_mem {s : State} {barcode : String} {t : ℕ}
    (h : searchBC s barcode = some t) : ∃ tm ∈ s.templates, tm.id = t := by
  rcases hfind : s.templates.find? (fun tm => tm.barcode = some barcode) with _ | r
  · rw [searchBC, hfind] at h; cases h
  · rw [searchBC, hfind] at h
    simp only [Option.map_some', Option.some.injEq] at h
    exact ⟨r, List.mem_of_find?_eq_some hfind, h⟩

/-- A resolved template id designates an existing template (supplier
lines point at existing templates by `WF`). -/
theorem findTemplate_mem {cfg : Config} {s : State} {sku barcode : String} {t : ℕ}
    (hwf : WF s) (h : findTemplate cfg s sku barcode = some t) :
    ∃ tm ∈ s.templates, tm.id = t := by
  simp only [findTemplate] at h
  by_cases hcond : cfg.mapBy = "supplierinfo" ∧ sku ≠ ""
  · simp only [if_pos hcond] at h
    rcases hvid : cfg.vendorId with _ | v
    · simp only [hvid] at h
      rcases hB : searchSIAny s sku with _ | tB
      · simp only [hB] at h
        rcases hC : (if sku ≠ "" then searchDC s sku else none) with _ | tC
        · simp only [hC] at h
          rcases hD : (if barcode ≠ "" then searchBC s barcode else none) with _ | tD
          · simp only [hD] at h; cases h
          · simp only [hD, Option.some.injEq] at h
            rw [← h]
            by_cases hbc : barcode ≠ ""
            · rw [if_pos hbc] at hD
              exact searchBC_mem hD
            · rw [if_neg hbc] at hD; cases hD
        · simp only [hC, Option.some.injEq] at h
          rw [← h]
          by_cases hsk : sku ≠ ""
          · rw [if_pos hsk] at hC
            exact searchDC_mem hC
          · rw [if_neg hsk] at hC; cases hC
      · simp only [hB, Option.some.injEq] at h
        rw [← h]
        exact searchSIAny_fk hwf hB
    · simp only [hvid] at h
      rcases hA : searchSIVendor s v sku with _ | tA
      · simp only [hA] at h
        rcases hB : searchSIAny s sku with _ | tB
        · simp only [hB] at h
          rcases hC : (if sku ≠ "" then searchDC s sku else none) with _ | tC
          · simp only [hC] at h
            rcases hD : (if barcode ≠ "" then searchBC s barcode else none) with _ | tD
            · simp only [hD] at h; cases h
            · simp only [hD, Option.some.injEq] at h
              rw [← h]
              by_cases hbc : barcode ≠ ""
              · rw [if_pos hbc] at hD
                exact searchBC_mem hD
              · rw [if_neg hbc] at hD; cases hD
          · simp only [hC, Option.some.injEq] at h
            rw [← h]
            by_cases hsk : sku ≠ ""
            · rw [if_pos hsk] at hC
              exact searchDC_mem hC
            · rw [if_neg hsk] at hC; cases hC
        · simp only [hB, Option.some.injEq] at h
          rw [← h]
          exact searchSIAny_fk hwf hB
      · simp only [hA, Option.some.injEq] at h
        rw [← h]
        exact searchSIVendor_fk hwf hA
  · simp only [if_neg hcond] at h
    rcases hC : (if sku ≠ "" then searchDC s sku else none) with _ | tC
    · simp only [hC] at h
      rcases hD : (if barcode ≠ "" then searchBC s barcode else none) with _ | tD
      · simp only [hD] at h; cases h
      · simp only [hD, Option.some.injEq] at h
        rw [← h]
        by_cases hbc : barcode ≠ ""
        · rw [if_pos hbc] at hD
          exact searchBC_mem hD
        · rw [if_neg hbc] at hD; cases hD
    · simp only [hC, Option.some.injEq] at h
      rw [← h]
      by_cases hsk : sku ≠ ""
      · rw [if_pos hsk] at hC
        exact searchDC_mem hC
      · rw [if_neg hsk] at hC; cases hC

/-- Field effects of the base vals application. -/
theorem baseApplyVals_fields (nameV descEcom : Option String) (cost : Option ℚ)
    (w : ℚ) (catId? : Option ℕ) (sku : String) (bset : Option String)
    (vstock : ℤ) (vname : String) (t0 : Tmpl) :
    (baseApplyVals nameV descEcom cost w catId? sku bset vstock vname t0).id = t0.id ∧
    (baseApplyVals nameV descEcom cost w catId? sku bset vstock vname t0).standardPrice =
      (match cost with | some c => c | none => t0.standardPrice) ∧
    (baseApplyVals nameV descEcom cost w catId? sku bset vstock vname t0).defaultCode =
      (if sku ≠ "" then some sku else t0.defaultCode) ∧
    (baseApplyVals nameV descEcom cost w catId? sku bset vstock vname t0).barcode =
      (match bset with | some b => some b | none => t0.barcode) ∧
    (baseApplyVals nameV descEcom cost w catId? sku bset vstock vname t0).websiteDescription =
      t0.websiteDescription ∧
    (baseApplyVals nameV descEcom cost w catId? sku bset vstock vname t0).description =
      t0.description ∧
    (baseApplyVals nameV descEcom cost w catId? sku bset vstock vname t0).descriptionSale =
      t0.descriptionSale ∧
    (baseApplyVals nameV descEcom cost w catId? sku bset vstock
        vname t0).websiteShortDescription = t0.websiteShortDescription ∧
    (baseApplyVals nameV descEcom cost w catId? sku bset vstock vname t0).variants =
      t0.variants ∧
    (baseApplyVals nameV descEcom cost w catId? sku bset vstock vname t0).descriptionEcommerce =
      (match descEcom with | some d => some d | none => t0.descriptionEcommerce) := by
  unfold baseApplyVals
  rcases descEcom with _ | d <;> rcases cost with _ | c <;>
    rcases catId? with _ | cat <;> rcases bset with _ | b <;>
    by_cases hw : w ≠ 0 ∧ w > 0 <;> by_cases hs : sku ≠ "" <;>
    simp [hw, hs]

/-- A projection untouched by an in-place write survives `browse`. -/
theorem lookup_map_write {α : Type} (s : State) (i t : ℕ) (f : Tmpl → Tmpl)
    (g : Tmpl → α) (hf : ∀ tm, (f tm).id = tm.id ∧ g (f tm) = g tm) :
    (lookupTmpl (writeTmplState s i f) t).map g = (lookupTmpl s t).map g := by
  rw [lookupTmpl_write s i t f (fun tm => (hf tm).1)]
  cases h : lookupTmpl s t with
  | none => rfl
  | some tm =>
    simp only [Option.map_some']
    by_cases hid : tm.id = i
    · simp [hid, (hf tm).2]
    · simp [hid]

/-- The category block only touches categories and the allocator. -/
theorem resolveCategory_parts (cfg : Config) (item : Item) (s : State) :
    (resolveCategory cfg item s).2.templates = s.templates ∧
    (resolveCategory cfg item s).2.sis = s.sis ∧
    (resolveCategory cfg item s).2.images = s.images ∧
    s.nextId ≤ (resolveCategory cfg item s).2.nextId := by
  unfold resolveCategory
  rcases item.category with _ | cn
  · rcases cfg.defaultCategId with _ | d <;> simp
  · by_cases hcn : cn ≠ ""
    · simp only [if_pos hcn]
      rcases hf : (s.categories.find? (fun c => c.name = cn)) with _ | c
      · rcases cfg.defaultCategId with _ | d <;> simp [hf]
      · simp [hf]
    · simp only [if_neg hcn]
      rcases cfg.defaultCategId with _ | d <;> simp

/-- The supplier-link step leaves templates, images and the result tuple
untouched. -/
theorem upsertLinkStep_parts (cfg : Config) (item : Item) (r : State × ℕ × Bool) :
    (upsertLinkStep cfg item r).1.templates = r.1.templates ∧
    (upsertLinkStep cfg item r).1.images = r.1.images ∧
    (upsertLinkStep cfg item r).2 = r.2 := by
  unfold upsertLinkStep
  rcases cfg.vendorId with _ | v
  · simp
  · by_cases h : itemSku item ≠ "" <;> simp [h]

/-- The main-image step changes only `image_1920` of the target record. -/
theorem upsertImageStep_lookup {α : Type} (dl : String → Option (List ℕ))
    (item : Item) (r : State × ℕ × Bool) (t : ℕ) (g : Tmpl → α)
    (hg : ∀ tm content, g { tm with image1920 := some content } = g tm) :
    (lookupTmpl (upsertImageStep dl item r).1 t).map g = (lookupTmpl r.1 t).map g ∧
    (upsertImageStep dl item r).1.sis = r.1.sis ∧
    (upsertImageStep dl item r).1.images = r.1.images ∧
    (upsertImageStep dl item r).1.nextId = r.1.nextId ∧
    (upsertImageStep dl item r).2 = r.2 := by
  unfold upsertImageStep
  by_cases hu : truthyS item.imageUrl
  · simp only [if_pos hu]
    rcases hdl : dl (item.imageUrl.getD "") with _ | content
    · simp
    · by_cases hl : looksLikeImage content
      · simp only [if_pos hl]
        refine ⟨?_, by simp [writeTmplState], by simp [writeTmplState],
          by simp [writeTmplState], by simp⟩
        exact lookup_map_write r.1 r.2.1 t _ g (fun tm => ⟨rfl, hg tm content⟩)
      · simp [hl]
  · simp [hu]

/-- The publication step changes only the publication fields of the
target record. -/
theorem upsertPublishStep_lookup {α : Type} (cfg : Config)
    (r : State × ℕ × Bool) (t : ℕ) (g : Tmpl → α)
    (hg1 : ∀ tm, g { tm with websitePublished := true } = g tm)
    (hg2 : ∀ tm ids, g { tm with websiteIds := ids } = g tm) :
    (lookupTmpl (upsertPublishStep cfg r).1 t).map g = (lookupTmpl r.1 t).map g ∧
    (upsertPublishStep cfg r).1.sis = r.1.sis ∧
    (upsertPublishStep cfg r).1.images = r.1.images ∧
    (upsertPublishStep cfg r).1.nextId = r.1.nextId ∧
    (upsertPublishStep cfg r).2 = r.2 := by
  unfold upsertPublishStep
  by_cases hp : cfg.publishOnWebsite
  · simp only [if_pos hp]
    rcases cfg.websiteId with _ | wid
    · refine ⟨?_, by simp [writeTmplState], by simp [writeTmplState],
        by simp [writeTmplState], by simp⟩
      exact lookup_map_write r.1 r.2.1 t _ g (fun tm => ⟨rfl, hg1 tm⟩)
    · refine ⟨?_, by simp [writeTmplState], by simp [writeTmplState],
        by simp [writeTmplState], by simp⟩
      have h1 := lookup_map_write r.1 r.2.1 t
        (fun tm => { tm with websitePublished := true }) g (fun tm => ⟨rfl, hg1 tm⟩)
      have h2 := lookup_map_write (writeTmplState r.1 r.2.1
        (fun tm => { tm with websitePublished := true })) r.2.1 t
        (fun tm => { tm with websiteIds :=
          if tm.websiteIds.contains wid then tm.websiteIds else tm.websiteIds ++ [wid] }) g
        (fun tm => ⟨rfl, hg2 tm _⟩)
      rw [h2, h1]
  · simp [hp]

/-- The brand/notes overlay changes only the description surfaces and
variants of the re-resolved record. -/
theorem brandStage_lookup {α : Type} (cfg : Config) (ah : String → Option String)
    (item : Item) (r : State × ℕ × Bool) (t : ℕ) (g : Tmpl → α)
    (hg : ∀ tm stored, g (brandWriteTmpl stored tm) = g tm) :
    (lookupTmpl (brandStage cfg ah item r).1 t).map g = (lookupTmpl r.1 t).map g ∧
    (brandStage cfg ah item r).1.sis = r.1.sis ∧
    (brandStage cfg ah item r).1.images = r.1.images ∧
    (brandStage cfg ah item r).1.nextId = r.1.nextId ∧
    (brandStage cfg ah item r).2 = r.2 := by
  rcases r with ⟨s, tid, wc⟩
  unfold brandStage
  rcases hf : findTemplate cfg s (itemSku item) (itemBarcode item) with _ | tf
  · simp [hf]
  · simp only [hf]
    refine ⟨?_, by simp [writeTmplState], by simp [writeTmplState],
      by simp [writeTmplState], by simp⟩
    refine lookup_map_write s tf t _ g (fun tm => ⟨?_, hg tm _⟩)
    simp [brandWriteTmpl]

/-- The gallery overlay leaves the template collection untouched. -/
theorem galleryStage_parts (cfg : Config) (dl : String → Option (List ℕ))
    (item : Item) (r : State × ℕ × Bool) :
    (galleryStage cfg dl item r).1.templates = r.1.templates ∧
    (galleryStage cfg dl item r).1.sis = r.1.sis ∧
    (galleryStage cfg dl item r).2 = r.2 := by
  rcases r with ⟨s, tid, wc⟩
  unfold galleryStage
  rcases hf : findTemplate cfg s (itemSku item) (itemBarcode item) with _ | tf
  · simp [hf]
  · by_cases hc : galleryCandidates item = [] <;> simp [hf, hc]

/-- C5 witness: the stale-barcode conjunct applied at a concrete store —
the vendor's supplier line points at record 1 while record 2 owns the
item's barcode, and the resolver returns record 1. -/
theorem C5_resolution_amended_witness :
    let cfg : Config := ⟨some 7, "V", "supplierinfo", none, false, none, 100⟩
    let s : State :=
      { emptyState with
        templates := [{ defaultTmpl 1 with defaultCode := some "S" },
                      { defaultTmpl 2 with barcode := some "B" }],
        sis := [⟨3, 7, 1, some "S", 0⟩],
        nextId := 4 }
    findTemplate cfg s "S" "B" = some 1 := by
  intro cfg s
  exact C5_resolution_amended.2.2 cfg s 7 "S" "B" 1 rfl rfl (by decide) (by decide)

/-- C4 counterexample: the store holds two supplier lines of the same
vendor 2 on record 1 with distinct codes `"Y"` (id 10) and `"X"`
(id 11) — so every (record, vendor_code) pair holds at most one line.
Reconciling for vendor 2 and sku `"X"` picks line 10 as the vendor's
line (the `(partner, record)` search ignores `product_code`) and rewrites
it to code `"X"`, while line 11 survives: two lines for the pair
(record 1, `"X"`) after the call, violating the claimed invariant. -/
theorem C4_link_counterexample :
    let sis : List SI := [⟨10, 2, 1, some "Y", 0⟩, ⟨11, 2, 1, some "X", 0⟩]
    let out := (reconcileLinks 2 1 "X" 0 sis 12).1
    ((sis.filter (fun r => r.productTmplId = 1 ∧ r.productCode = some "X")).length = 1 ∧
     (sis.filter (fun r => r.productTmplId = 1 ∧ r.productCode = some "Y")).length = 1) ∧
    (out.filter (fun r => r.productTmplId = 1 ∧ r.productCode = some "X")).length = 2 ∧
    ¬ (out.filter (fun r => r.productTmplId = 1 ∧ r.productCode = some "X")).length ≤ 1 := by
  exact ⟨by decide, by decide, by decide⟩

/-- C4 (amended): when the configured vendor holds at most one supplier
line on the record (in particular after any run history, which never
creates a second same-vendor line on a record), the reconciliation step
leaves exactly one line for the pair (record, sku) — created, rewritten
in place, or the vendor's surviving line — and creates no line for any
other code value, so the per-(record, vendor_code) invariant is
established at the reconciled code and preserved elsewhere.  When the
vendor had no line on the record and other-vendor lines with this code
exist, the canonical line keeps the id of the first such line (rewritten,
not deleted and recreated). -/
theorem C4_link_dedup_amended (v T : ℕ) (sku : String) (stock : ℤ)
    (sis : List SI) (nid : ℕ)
    (hnodup : (sis.map SI.id).Nodup)
    (hclean : (sis.filter (fun r => r.partnerId = v ∧ r.productTmplId = T)).length ≤ 1) :
    (∃ r, r ∈ (reconcileLinks v T sku stock sis nid).1 ∧
      r.partnerId = v ∧ r.productTmplId = T ∧ r.productCode = some sku ∧
      r.xVendorStockInfo = stock ∧
      (∀ r', r' ∈ (reconcileLinks v T sku stock sis nid).1 →
        r'.productTmplId = T → r'.productCode = some sku → r' = r) ∧
      (∀ o rest,
        sis.find? (fun r => r.partnerId = v ∧ r.productTmplId = T) = none →
        sis.filter (fun r => r.productTmplId = T ∧ r.productCode = some sku ∧ r.partnerId ≠ v)
          = o :: rest →
        r.id = o.id)) ∧
    (∀ r', r' ∈ (reconcileLinks v T sku stock sis nid).1 →
      r'.productCode ≠ some sku → r' ∈ sis) := by
  classical
  rcases hfind : sis.find? (fun r => r.partnerId = v ∧ r.productTmplId = T) with _ | rNew
  · rcases hothers : sis.filter
        (fun r => r.productTmplId = T ∧ r.productCode = some sku ∧ r.partnerId ≠ v)
        with _ | ⟨o, rest⟩
    · -- no vendor line, no others: a fresh canonical line is appended
      have hout : (reconcileLinks v T sku stock sis nid).1 =
          sis ++ [⟨nid, v, T, some sku, stock⟩] := by
        simp only [reconcileLinks, hfind, hothers]
      refine ⟨⟨⟨nid, v, T, some sku, stock⟩, ?_, rfl, rfl, rfl, rfl, ?_, ?_⟩, ?_⟩
      · rw [hout]; simp
      · intro r' hr' hT hsku
        rw [hout, List.mem_append] at hr'
        rcases hr' with hr' | hr'
        · exfalso
          by_cases hp : r'.partnerId = v
          · exact (List.find?_eq_none.mp hfind r' hr') (decide_eq_true ⟨hp, hT⟩)
          · have hmem : r' ∈ sis.filter
                (fun r => r.productTmplId = T ∧ r.productCode = some sku ∧ r.partnerId ≠ v) :=
              List.mem_filter.mpr ⟨hr', decide_eq_true ⟨hT, hsku, hp⟩⟩
            rw [hothers] at hmem
            cases hmem
        · simpa using hr'
      · intro o rest _ hro
        rw [hothers] at hro
        cases hro
      · intro r' hr' hcode
        rw [hout, List.mem_append] at hr'
        rcases hr' with hr' | hr'
        · exact hr'
        · simp at hr'
          rw [hr'] at hcode
          simp at hcode
    · -- no vendor line, others o :: rest: o is rewritten in place
      have hout : (reconcileLinks v T sku stock sis nid).1 =
          writeSI ((writeSI sis o.id (fun r => { r with partnerId := v })).filter
            (fun r => ¬ (rest.map SI.id).contains r.id)) o.id
            (fun r => { r with partnerId := v, productTmplId := T,
                               productCode := some sku, xVendorStockInfo := stock }) := by
        simp only [reconcileLinks, hfind, hothers]
      have ho_mem : o ∈ sis ∧ (o.productTmplId = T ∧ o.productCode = some sku ∧
          o.partnerId ≠ v) := by
        have hmem : o ∈ sis.filter
            (fun r => r.productTmplId = T ∧ r.productCode = some sku ∧ r.partnerId ≠ v) := by
          rw [hothers]; exact List.mem_cons_self o rest
        have h2 := List.mem_filter.mp hmem
        exact ⟨h2.1, by simpa using h2.2⟩
      have hrest_sub : ∀ r ∈ rest, r ∈ sis ∧ (r.productTmplId = T ∧
          r.productCode = some sku ∧ r.partnerId ≠ v) := by
        intro r hr
        have hmem : r ∈ sis.filter
            (fun r => r.productTmplId = T ∧ r.productCode = some sku ∧ r.partnerId ≠ v) := by
          rw [hothers]; exact List.mem_cons_of_mem o hr
        have h2 := List.mem_filter.mp hmem
        exact ⟨h2.1, by simpa using h2.2⟩
      have ho_not_rest : o.id ∉ rest.map SI.id := by
        intro hin
        rw [List.mem_map] at hin
        obtain ⟨r, hr, hid⟩ := hin
        have heq : r = o := eq_of_id_eq hnodup (hrest_sub r hr).1 ho_mem.1 hid
        have hfil : (sis.filter
            (fun r => r.productTmplId = T ∧ r.productCode = some sku ∧ r.partnerId ≠ v)).Nodup :=
          ((List.Nodup.of_map SI.id hnodup).filter _)
        rw [hothers, List.nodup_cons] at hfil
        rw [heq] at hr
        exact hfil.1 hr
      refine ⟨⟨⟨o.id, v, T, some sku, stock⟩, ?_, rfl, rfl, rfl, rfl, ?_, ?_⟩, ?_⟩
      · rw [hout]
        simp only [writeSI, List.mem_map, List.mem_filter]
        refine ⟨{ o with partnerId := v }, ⟨⟨o, ho_mem.1, by simp⟩, ?_⟩, by simp⟩
        simpa using ho_not_rest
      · intro r' hr' hT' hsku'
        rw [hout] at hr'
        simp only [writeSI, List.mem_map, List.mem_filter] at hr'
        obtain ⟨r1, ⟨⟨r0, hr0, hr10⟩, hnr⟩, hr'eq⟩ := hr'
        by_cases hid0 : r0.id = o.id
        · have heq : r0 = o := eq_of_id_eq hnodup hr0 ho_mem.1 hid0
          rw [heq, if_pos rfl] at hr10
          rw [← hr10, if_pos rfl] at hr'eq
          rw [← hr'eq]
        · rw [if_neg hid0] at hr10
          rw [← hr10] at hnr hr'eq
          rw [if_neg hid0] at hr'eq
          rw [← hr'eq] at hT' hsku'
          exfalso
          by_cases hp : r0.partnerId = v
          · exact (List.find?_eq_none.mp hfind r0 hr0) (decide_eq_true ⟨hp, hT'⟩)
          · have hmem : r0 ∈ sis.filter
                (fun r => r.productTmplId = T ∧ r.productCode = some sku ∧ r.partnerId ≠ v) :=
              List.mem_filter.mpr ⟨hr0, decide_eq_true ⟨hT', hsku', hp⟩⟩
            rw [hothers] at hmem
            rcases List.mem_cons.mp hmem with h1 | h1
            · exact hid0 (by rw [h1])
            · rw [decide_eq_true_eq, List.elem_iff, List.mem_map] at hnr
              exact hnr ⟨r0, h1, rfl⟩
      · intro o' rest' _ hro
        rw [hothers] at hro
        injection hro with h1 _
        rw [h1]
      · intro r' hr' hcode
        rw [hout] at hr'
        simp only [writeSI, List.mem_map, List.mem_filter] at hr'
        obtain ⟨r1, ⟨⟨r0, hr0, hr10⟩, hnr2⟩, hr'eq⟩ := hr'
        by_cases hid1 : r1.id = o.id
        · rw [if_pos hid1] at hr'eq
          rw [← hr'eq] at hcode
          simp at hcode
        · rw [if_neg hid1] at hr'eq
          by_cases hid0 : r0.id = o.id
          · rw [if_pos hid0] at hr10
            apply absurd ?_ hid1
            rw [← hr10]
            simpa using hid0
          · rw [if_neg hid0] at hr10
            rw [← hr'eq, ← hr10]
            exact hr0
  · -- the vendor's line exists: others are deleted, the line rewritten
    have hrNew_mem : rNew ∈ sis := List.mem_of_find?_eq_some hfind
    have hrNew_q : rNew.partnerId = v ∧ rNew.productTmplId = T := by
      have h2 := List.find?_some hfind
      simpa using h2
    have hout : (reconcileLinks v T sku stock sis nid).1 =
        writeSI (sis.filter (fun r => ¬ ((sis.filter
            (fun r => r.productTmplId = T ∧ r.productCode = some sku ∧ r.partnerId ≠ v)).map
            SI.id).contains r.id)) rNew.id
          (fun r => { r with partnerId := v, productTmplId := T,
                             productCode := some sku, xVendorStockInfo := stock }) := by
      simp only [reconcileLinks, hfind]
    have hrNew_keep : rNew.id ∉ ((sis.filter
        (fun r => r.productTmplId = T ∧ r.productCode = some sku ∧ r.partnerId ≠ v)).map
        SI.id) := by
      intro hin
      rw [List.mem_map] at hin
      obtain ⟨r, hr, hid⟩ := hin
      have hrs := List.mem_filter.mp hr
      have heq : r = rNew := eq_of_id_eq hnodup hrs.1 hrNew_mem hid
      have h1 := of_decide_eq_true hrs.2
      rw [heq] at h1
      exact h1.2.2 hrNew_q.1
    refine ⟨⟨⟨rNew.id, v, T, some sku, stock⟩, ?_, rfl, rfl, rfl, rfl, ?_, ?_⟩, ?_⟩
    · rw [hout]
      simp only [writeSI, List.mem_map, List.mem_filter]
      refine ⟨rNew, ⟨hrNew_mem, ?_⟩, by simp⟩
      simpa using hrNew_keep
    · intro r' hr' hT' hsku'
      rw [hout] at hr'
      simp only [writeSI, List.mem_map, List.mem_filter] at hr'
      obtain ⟨r0, ⟨hr0, hnr⟩, hr'eq⟩ := hr'
      by_cases hid0 : r0.id = rNew.id
      · rw [if_pos hid0] at hr'eq
        rw [← hr'eq]
        simp [hid0]
      · rw [if_neg hid0] at hr'eq
        rw [← hr'eq] at hT' hsku'
        exfalso
        by_cases hp : r0.partnerId = v
        · have heq : r0 = rNew := by
            refine eq_of_mem_length_le_one ?_ ?_ hclean
            · exact List.mem_filter.mpr ⟨hr0, decide_eq_true ⟨hp, hT'⟩⟩
            · exact List.mem_filter.mpr ⟨hrNew_mem, decide_eq_true ⟨hrNew_q.1, hrNew_q.2⟩⟩
          exact hid0 (by rw [heq])
        · rw [decide_eq_true_eq, List.elem_iff, List.mem_map] at hnr
          exact hnr ⟨r0, List.mem_filter.mpr ⟨hr0, decide_eq_true ⟨hT', hsku', hp⟩⟩, rfl⟩
    · intro o rest hnone _
      rw [hnone] at hfind
      cases hfind
    · intro r' hr' hcode
      rw [hout] at hr'
      simp only [writeSI, List.mem_map, List.mem_filter] at hr'
      obtain ⟨r0, ⟨hr0, hnr3⟩, hr'eq⟩ := hr'
      by_cases hid0 : r0.id = rNew.id
      · rw [if_pos hid0] at hr'eq
        rw [← hr'eq] at hcode
        simp at hcode
      · rw [if_neg hid0] at hr'eq
        rw [← hr'eq]
        exact hr0

/-- C4 witness: the amended theorem applied at the reassignment store —
vendor 2 has no line on record 1, vendors 3 and 4 both carry code `"X"`
there; after the call the canonical line is the rewritten line id 10. -/
theorem C4_link_dedup_amended_witness :
    ((([⟨10, 3, 1, some "X", 0⟩, ⟨11, 4, 1, some "X", 0⟩] : List SI).map SI.id).Nodup ∧
     (([⟨10, 3, 1, some "X", 0⟩, ⟨11, 4, 1, some "X", 0⟩] : List SI).filter
        (fun r => r.partnerId = 2 ∧ r.productTmplId = 1)).length ≤ 1) ∧
    (∃ r, r ∈ (reconcileLinks 2 1 "X" 5
        [⟨10, 3, 1, some "X", 0⟩, ⟨11, 4, 1, some "X", 0⟩] 12).1 ∧
      r.partnerId = 2 ∧ r.productTmplId = 1 ∧ r.productCode = some "X" ∧
      r.xVendorStockInfo = 5 ∧
      (∀ r', r' ∈ (reconcileLinks 2 1 "X" 5
          [⟨10, 3, 1, some "X", 0⟩, ⟨11, 4, 1, some "X", 0⟩] 12).1 →
        r'.productTmplId = 1 → r'.productCode = some "X" → r' = r) ∧
      (∀ o rest,
        ([⟨10, 3, 1, some "X", 0⟩, ⟨11, 4, 1, some "X", 0⟩] : List SI).find?
          (fun r => r.partnerId = 2 ∧ r.productTmplId = 1) = none →
        ([⟨10, 3, 1, some "X", 0⟩, ⟨11, 4, 1, some "X", 0⟩] : List SI).filter
          (fun r => r.productTmplId = 1 ∧ r.productCode = some "X" ∧ r.partnerId ≠ 2)
          = o :: rest →
        r.id = o.id)) ∧
    (∀ r', r' ∈ (reconcileLinks 2 1 "X" 5
        [⟨10, 3, 1, some "X", 0⟩, ⟨11, 4, 1, some "X", 0⟩] 12).1 →
      r'.productCode ≠ some "X" → r' ∈ [⟨10, 3, 1, some "X", 0⟩, ⟨11, 4, 1, some "X", 0⟩]) :=
  ⟨⟨by decide, by decide⟩,
   C4_link_dedup_amended 2 1 "X" 5 [⟨10, 3, 1, some "X", 0⟩, ⟨11, 4, 1, some "X", 0⟩] 12
     (by decide) (by decide)⟩


/-- `browse` only reads the template collection. -/
theorem lookupTmpl_congr_templates (s1 s2 : State) (t : ℕ)
    (h : s1.templates = s2.templates) : lookupTmpl s1 t = lookupTmpl s2 t := by
  simp only [lookupTmpl, h]

/-- The create-or-write of the base upsert stores the resolved cost chain
when it is present and keeps the previous cost (the store default `0` on
a create) otherwise. -/
theorem upsertTmplStep_price (cfg : Config) (item : Item) (s : State) (hwf : WF s) :
    (lookupTmpl (upsertTmplStep cfg item s).1 (upsertTmplStep cfg item s).2.1).map
        Tmpl.standardPrice =
      some (match itemCost item with
            | some q => q
            | none =>
              match lookupTmpl s (upsertTmplStep cfg item s).2.1 with
              | some tm => tm.standardPrice
              | none => 0) := by
  have hparts := resolveCategory_parts cfg item s
  have hid : ∀ nameV descEcom cost w catId? sku bset vstock vname t0,
      (baseApplyVals nameV descEcom cost w catId? sku bset vstock vname t0).id = t0.id :=
    fun nameV descEcom cost w catId? sku bset vstock vname t0 =>
      (baseApplyVals_fields nameV descEcom cost w catId? sku bset vstock vname t0).1
  have hprice : ∀ nameV descEcom cost w catId? sku bset vstock vname t0,
      (baseApplyVals nameV descEcom cost w catId? sku bset vstock
        vname t0).standardPrice = (match cost with | some c => c | none => t0.standardPrice) :=
    fun nameV descEcom cost w catId? sku bset vstock vname t0 =>
      (baseApplyVals_fields nameV descEcom cost w catId? sku bset vstock vname t0).2.1
  simp only [upsertTmplStep]
  rcases hf : findTemplate cfg s (itemSku item) (itemBarcode item) with _ | t
  · have hn := hparts.2.2.2
    have hnone2 : lookupTmpl s (resolveCategory cfg item s).2.nextId = none := by
      rw [lookupTmpl]
      refine List.find?_eq_none.mpr ?_
      intro tm htm
      have := hwf.2.1 tm htm
      simp only [decide_eq_true_eq]
      omega
    have hnone1 : ((resolveCategory cfg item s).2.templates.find?
        (fun tm => tm.id = (resolveCategory cfg item s).2.nextId)) = none := by
      rw [hparts.1]
      refine List.find?_eq_none.mpr ?_
      intro tm htm
      have := hwf.2.1 tm htm
      simp only [decide_eq_true_eq]
      omega
    rw [lookupTmpl]
    simp only [find?_append_chain, hnone1, Option.none_orElse, hnone2]
    rw [List.find?_cons_of_pos]
    · simp only [Option.orElse, Option.map_some']
      rw [hprice]
      cases hc : itemCost item <;> simp [defaultTmpl]
    · simp only [hid, defaultTmpl, decide_eq_true_eq]
  · obtain ⟨tm, htm, htmid⟩ := findTemplate_mem hwf hf
    have hlt : lookupTmpl s t = some tm := by
      rw [← htmid]; exact lookupTmpl_of_mem hwf.1 htm
    have hlc : lookupTmpl (resolveCategory cfg item s).2 t = some tm := by
      rw [lookupTmpl_congr_templates _ s t hparts.1]; exact hlt
    rw [lookupTmpl_write _ t t _ (fun t0 => hid _ _ _ _ _ _ _ _ _ t0), hlc]
    simp only [Option.map_some']
    rw [if_pos htmid, hprice, hlt]



/-- C8: the spec's cost rule predicts for a `cost` of `0` that the record
is left unchanged and for `"1,5"` (comma decimal) the value `3/2`; over a
store whose record `1` carries cost `5`, the code writes `0` in both
cases — `_robust_float` is plain `float` (a comma string collapses to
`0.0`) and the write has no positivity guard. -/
theorem C8_cost_counterexample :
    let cfg : Config := ⟨none, "", "sku", none, false, none, 100⟩
    let s : State := ⟨[{ defaultTmpl 1 with defaultCode := some "S", standardPrice := 5 }],
                      [], [], [], 2⟩
    let priceOf : Item → Option ℚ := fun item =>
      (upsertFull cfg (fun _ => none) (fun _ => none) item s).toOption.bind
        (fun r => (lookupTmpl r.1 1).map Tmpl.standardPrice)
    let item0 : Item :=
      { emptyItem with
        name := some "P"
        sku := some "S"
        cost := some (.num 0) }
    let item1 : Item :=
      { emptyItem with
        name := some "P"
        sku := some "S"
        cost := some (.str "1,5") }
    (lookupTmpl s 1).map Tmpl.standardPrice = some 5 ∧
    (priceOf item0 = some 0 ∧ ¬ priceOf item0 = some 5) ∧
    (priceOf item1 = some 0 ∧
     ¬ ((priceOf item1).map Rat.num = some 3 ∧ (priceOf item1).map Rat.den = some 2)) := by
  decide

/-- C8 (amended): through the full `_upsert_product` chain the stored
cost of the resolved record is exactly the item's `cost`, falling back to
`price` only when the `cost` key is absent, converted by plain `float`
(exceptions collapse to `0.0`, no locale normalization) and written
whenever one of the two keys is present — zero and negative values
included; only when both keys are absent is the previous stored cost
kept (the store default `0` on a fresh record). -/
theorem C8_cost_amended (cfg : Config) (dl : String → Option (List ℕ))
    (ah : String → Option String) (item : Item) (s : State)
    (r : State × ℕ × Bool) (hwf : WF s)
    (h : upsertFull cfg dl ah item s = .ok r) :
    (lookupTmpl r.1 r.2.1).map Tmpl.standardPrice =
      some (match itemCost item with
            | some q => q
            | none =>
              match lookupTmpl s r.2.1 with
              | some tm => tm.standardPrice
              | none => 0) := by
  unfold upsertFull upsertBase upsertBaseCore at h
  by_cases h1 : ¬ truthyS (pyOrS item.name item.title)
  · rw [if_pos h1] at h
    simp [Except.map] at h
  · rw [if_neg h1] at h
    by_cases h2 : itemSku item = "" ∧ itemBarcode item = ""
    · rw [if_pos h2] at h
      simp [Except.map] at h
    · rw [if_neg h2] at h
      simp only [Except.map, Except.ok.injEq] at h
      have hT := upsertTmplStep_price cfg item s hwf
      have hL := upsertLinkStep_parts cfg item (upsertTmplStep cfg item s)
      have hI := upsertImageStep_lookup dl item
        (upsertLinkStep cfg item (upsertTmplStep cfg item s))
        (upsertTmplStep cfg item s).2.1 Tmpl.standardPrice (fun tm content => rfl)
      have hP := upsertPublishStep_lookup cfg
        (upsertImageStep dl item (upsertLinkStep cfg item (upsertTmplStep cfg item s)))
        (upsertTmplStep cfg item s).2.1 Tmpl.standardPrice (fun tm => rfl) (fun tm ids => rfl)
      have hB := brandStage_lookup cfg ah item
        (upsertPublishStep cfg (upsertImageStep dl item
          (upsertLinkStep cfg item (upsertTmplStep cfg item s))))
        (upsertTmplStep cfg item s).2.1 Tmpl.standardPrice (fun tm stored => rfl)
      have hG := galleryStage_parts cfg dl item
        (brandStage cfg ah item (upsertPublishStep cfg (upsertImageStep dl item
          (upsertLinkStep cfg item (upsertTmplStep cfg item s)))))
      have ht2 : r.2 = (upsertTmplStep cfg item s).2 := by
        rw [← h, hG.2.2, hB.2.2.2.2, hP.2.2.2.2, hI.2.2.2.2, hL.2.2]
      have hLlook : lookupTmpl (upsertLinkStep cfg item (upsertTmplStep cfg item s)).1
            (upsertTmplStep cfg item s).2.1 =
          lookupTmpl (upsertTmplStep cfg item s).1 (upsertTmplStep cfg item s).2.1 :=
        lookupTmpl_congr_templates _ _ _ hL.1
      have hGlook : lookupTmpl r.1 (upsertTmplStep cfg item s).2.1 =
          lookupTmpl (brandStage cfg ah item (upsertPublishStep cfg (upsertImageStep dl item
            (upsertLinkStep cfg item (upsertTmplStep cfg item s))))).1
            (upsertTmplStep cfg item s).2.1 := by
        rw [← h]
        exact lookupTmpl_congr_templates _ _ _ hG.1
      rw [ht2, hGlook, hB.1, hP.1, hI.1, hLlook]
      exact hT


/-- C8 witness: the amended theorem applied at a one-item create — cost
key `3` present, empty store; the record is created with stored cost
`3`. -/
theorem C8_cost_amended_witness :
    let cfg : Config := ⟨none, "", "sku", none, false, none, 100⟩
    let item : Item :=
      { emptyItem with
        name := some "P"
        sku := some "S"
        cost := some (.num 3) }
    let tW : Tmpl := ⟨1, "P", true, true, some "S", none, 3, 0, none, none, none, none,
                      none, none, 0, none, false, [], none, [⟨none, none, none, none⟩]⟩
    let r : State × ℕ × Bool := (⟨[tW], [], [], [], 2⟩, 1, true)
    (WF emptyState ∧
     upsertFull cfg (fun _ => none) (fun _ => none) item emptyState = .ok r) ∧
    (lookupTmpl r.1 r.2.1).map Tmpl.standardPrice =
      some (match itemCost item with
            | some q => q
            | none =>
              match lookupTmpl emptyState r.2.1 with
              | some tm => tm.standardPrice
              | none => 0) := by
  intro cfg item tW r
  exact ⟨⟨by unfold WF; decide, by rfl⟩,
    C8_cost_amended cfg (fun _ => none) (fun _ => none) item emptyState r
      (by unfold WF; decide) (by rfl)⟩


/-- The run fold from an arbitrary accumulator: counters add and details
append onto the run from the accumulator's state with zeroed counters. -/
theorem foldl_runFoldStep {σ : Type} (step : σ → Item → Except String (σ × Bool))
    (items : List Item) : ∀ (a : RunAcc σ),
    items.foldl (runFoldStep step) a =
      ⟨(runImport step a.state items).state,
       a.created + (runImport step a.state items).created,
       a.updated + (runImport step a.state items).updated,
       a.skipped + (runImport step a.state items).skipped,
       a.details ++ (runImport step a.state items).details⟩ := by
  induction items with
  | nil => intro a; simp [runImport]
  | cons raw rest ih =>
    intro a
    rw [List.foldl_cons, ih]
    conv_rhs => rw [runImport, List.foldl_cons, ih]
    rcases h : step a.state raw with e | ⟨s1, wc⟩ <;>
      [skip; rcases wc with _ | _] <;>
      simp [runFoldStep, h, Nat.add_assoc, List.append_assoc]

/-- The counters of a run partition the feed and the detail lines count
the failures exactly. -/
theorem runImport_counts {σ : Type} (step : σ → Item → Except String (σ × Bool))
    (items : List Item) : ∀ (s0 : σ),
    (runImport step s0 items).created + (runImport step s0 items).updated +
      (runImport step s0 items).skipped = items.length ∧
    (runImport step s0 items).details.length = (runImport step s0 items).skipped := by
  induction items with
  | nil => intro s0; simp [runImport]
  | cons raw rest ih =>
    intro s0
    rw [runImport, List.foldl_cons, foldl_runFoldStep]
    rcases h : step s0 raw with e | ⟨s1, wc⟩
    · have h2 := ih (runFoldStep step ⟨s0, 0, 0, 0, []⟩ raw).state
      simp [runFoldStep, h] at h2 ⊢
      omega
    · rcases wc with _ | _
      · have h2 := ih (runFoldStep step ⟨s0, 0, 0, 0, []⟩ raw).state
        simp [runFoldStep, h] at h2 ⊢
        omega
      · have h2 := ih (runFoldStep step ⟨s0, 0, 0, 0, []⟩ raw).state
        simp [runFoldStep, h] at h2 ⊢
        omega


/-- C9: an exception on one item is caught — the run continues over the
remaining items from the unchanged store, the failed counter rises by
exactly one, and exactly one `ERROR key: message` detail line (best-effort
natural key) is recorded for it, while created/updated come from the other
items alone; the counters partition the feed, the detail lines count the
failures exactly, and the persisted result text is the summary line joined
with at most 200 detail lines (a prefix of the details). -/
theorem C9_failure_isolation {σ : Type} (step : σ → Item → Except String (σ × Bool))
    (s0 : σ) (raw : Item) (rest : List Item) (e : String)
    (h : step s0 raw = .error e) :
    (runImport step s0 (raw :: rest)).state = (runImport step s0 rest).state ∧
    (runImport step s0 (raw :: rest)).created = (runImport step s0 rest).created ∧
    (runImport step s0 (raw :: rest)).updated = (runImport step s0 rest).updated ∧
    (runImport step s0 (raw :: rest)).skipped = (runImport step s0 rest).skipped + 1 ∧
    (runImport step s0 (raw :: rest)).details =
      ("ERROR " ++ bestKey raw ++ ": " ++ e) :: (runImport step s0 rest).details ∧
    ((runImport step s0 (raw :: rest)).created + (runImport step s0 (raw :: rest)).updated +
       (runImport step s0 (raw :: rest)).skipped = rest.length + 1 ∧
     (runImport step s0 (raw :: rest)).details.length =
       (runImport step s0 (raw :: rest)).skipped) ∧
    ((actionRunImportBase step s0 (raw :: rest)).2 =
       joinLines (mkMsgLine (rest.length + 1) (runImport step s0 (raw :: rest)).created
           (runImport step s0 (raw :: rest)).updated (runImport step s0 (raw :: rest)).skipped
         :: (runImport step s0 (raw :: rest)).details.take 200) ∧
     ((runImport step s0 (raw :: rest)).details.take 200).length ≤ 200 ∧
     List.IsPrefix ((runImport step s0 (raw :: rest)).details.take 200)
       (runImport step s0 (raw :: rest)).details) := by
  have hrec : runImport step s0 (raw :: rest) =
      ⟨(runImport step s0 rest).state,
       (runImport step s0 rest).created,
       (runImport step s0 rest).updated,
       (runImport step s0 rest).skipped + 1,
       ("ERROR " ++ bestKey raw ++ ": " ++ e) :: (runImport step s0 rest).details⟩ := by
    rw [runImport, List.foldl_cons, foldl_runFoldStep]
    simp [runFoldStep, h, Nat.add_comm]
  have hcounts := runImport_counts step (raw :: rest) s0
  refine ⟨by rw [hrec], by rw [hrec], by rw [hrec], by rw [hrec], by rw [hrec],
    ⟨by simpa using hcounts.1, hcounts.2⟩, ?_, ?_, List.take_prefix _ _⟩
  · rw [actionRunImportBase]
    simp only [mkResultText]
    rw [hrec]
    simp [List.length_cons]
  · exact List.length_take_le _ _


/-- C9 witness: the isolation theorem applied at a concrete two-item run —
the first item has no name, its upsert raises, and the run goes on over
the remaining good item. -/
theorem C9_failure_isolation_witness :
    let step := stepOfUpsert (upsertFull ⟨none, "", "sku", none, false, none, 100⟩
      (fun _ => none) (fun _ => none))
    let good : Item :=
      { emptyItem with
        name := some "G"
        sku := some "S2" }
    (runImport step emptyState (emptyItem :: [good])).state =
      (runImport step emptyState [good]).state ∧
    (runImport step emptyState (emptyItem :: [good])).created =
      (runImport step emptyState [good]).created ∧
    (runImport step emptyState (emptyItem :: [good])).updated =
      (runImport step emptyState [good]).updated ∧
    (runImport step emptyState (emptyItem :: [good])).skipped =
      (runImport step emptyState [good]).skipped + 1 ∧
    (runImport step emptyState (emptyItem :: [good])).details =
      ("ERROR " ++ bestKey emptyItem ++ ": " ++ "Falta name en el item")
        :: (runImport step emptyState [good]).details ∧
    ((runImport step emptyState (emptyItem :: [good])).created +
       (runImport step emptyState (emptyItem :: [good])).updated +
       (runImport step emptyState (emptyItem :: [good])).skipped = [good].length + 1 ∧
     (runImport step emptyState (emptyItem :: [good])).details.length =
       (runImport step emptyState (emptyItem :: [good])).skipped) ∧
    ((actionRunImportBase step emptyState (emptyItem :: [good])).2 =
       joinLines (mkMsgLine ([good].length + 1)
           (runImport step emptyState (emptyItem :: [good])).created
           (runImport step emptyState (emptyItem :: [good])).updated
           (runImport step emptyState (emptyItem :: [good])).skipped
         :: (runImport step emptyState (emptyItem :: [good])).details.take 200) ∧
     ((runImport step emptyState (emptyItem :: [good])).details.take 200).length ≤ 200 ∧
     List.IsPrefix ((runImport step emptyState (emptyItem :: [good])).details.take 200)
       (runImport step emptyState (emptyItem :: [good])).details) := by
  intro step good
  exact C9_failure_isolation step emptyState emptyItem [good] "Falta name en el item" rfl


/-- C10: in the wrapper implementation an empty mapping table with a
non-empty item list takes the fallback loop, whose body references the
names `cat_map` and `_norm` that are defined nowhere in the module, so the
first iteration raises `NameError` — the items are not passed through
unchanged as the claim states; the `PATCH v3` redefinition does leave an
unmatched item's category text untouched, with an empty table and with a
table that misses. -/
theorem C10_mapping_code_bug :
    let it : Item := { emptyItem with category := some "Audio" }
    wrapperApplyMap (fun k => k) [] [it] =
      .error "NameError: name cat_map is not defined" ∧
    mmApplyMap (fun _ _ => none) (fun k => k) [] [it] = [it] ∧
    mmApplyMap (fun _ _ => none) (fun k => k) [("x", "Y")] [it] = [it] := by
  intro it
  exact ⟨rfl, by decide, by decide⟩


/-- Decimal rendering facts for two-digit numbers. -/
theorem natDigits_facts : ∀ n : ℕ, n < 100 →
    natDigits n ≠ [] ∧ (natDigits n).length ≤ 2 ∧
    (natDigits n).all Char.isDigit = true ∧ digitsVal (natDigits n) = n := by
  decide

/-- `dropWhile` is the identity when the head fails the predicate. -/
theorem dropWhile_eq_self_of_head {α : Type} (p : α → Bool) (l : List α)
    (h : ∀ c, l.head? = some c → p c = false) : l.dropWhile p = l := by
  cases l with
  | nil => rfl
  | cons a t => simp [List.dropWhile_cons, h a rfl]

/-- `str.strip()` is the identity when both ends are not whitespace. -/
theorem stripChars_eq_self (l : List Char)
    (hh : ∀ c, l.head? = some c → c.isWhitespace = false)
    (hl : ∀ c, l.getLast? = some c → c.isWhitespace = false) :
    stripChars l = l := by
  rw [stripChars, dropWhile_eq_self_of_head _ _ hh,
    dropWhile_eq_self_of_head _ _ (by simpa using hl), List.reverse_reverse]

/-- Append before a dot is cancellable when neither prefix holds a dot. -/
theorem dotfree_append_dot_inj : ∀ (a b s t : List Char), '.' ∉ a → '.' ∉ b →
    a ++ '.' :: s = b ++ '.' :: t → a = b ∧ s = t := by
  intro a
  induction a with
  | nil =>
    intro b s t _ hb h
    cases b with
    | nil => simpa using h
    | cons x xs =>
      simp only [List.nil_append, List.cons_append, List.cons.injEq] at h
      exact absurd (h.1 ▸ List.mem_cons_self x xs) hb
  | cons x xs ih =>
    intro b s t ha hb h
    cases b with
    | nil =>
      simp only [List.cons_append, List.nil_append, List.cons.injEq] at h
      have hx : ('.' : Char) ∈ x :: xs := by
        rw [← h.1]; exact List.mem_cons_self x xs
      exact absurd hx ha
    | cons y ys =>
      simp only [List.cons_append, List.cons.injEq] at h
      obtain ⟨rfl, h2⟩ := h
      obtain ⟨h3, h4⟩ := ih ys s t (fun hm => ha (List.mem_cons_of_mem _ hm))
        (fun hm => hb (List.mem_cons_of_mem _ hm)) h2
      exact ⟨by rw [h3], h4⟩


/-- The regex tail parses the intended decomposition. -/
theorem parseTail_succ (sep : Char) (nd ext : List Char)
    (hsep : sep = '-' ∨ sep = '_') (hnd1 : nd ≠ []) (hnd2 : nd.length ≤ 2)
    (hnd3 : nd.all Char.isDigit = true) (hext : extMatchCI ext = some ext) :
    parseTail (sep :: (nd ++ '.' :: ext)) = some (some sep, some nd, ext) := by
  rcases nd with _ | ⟨d1, nd'⟩
  · exact absurd rfl hnd1
  rcases nd' with _ | ⟨d2, nd''⟩
  · have hd1 : d1.isDigit = true := by simpa using hnd3
    rcases hsep with rfl | rfl <;> simp [parseTail, takeUpTo2Digits, hd1, hext]
  rcases nd'' with _ | ⟨d3, nd3⟩
  · have hd : d1.isDigit = true ∧ d2.isDigit = true := by simpa using hnd3
    rcases hsep with rfl | rfl <;>
      simp [parseTail, takeUpTo2Digits, hd.1, hd.2, hext]
  · simp at hnd2

/-- The regex tail fails from any dot-free non-empty offset before the
intended split point. -/
theorem parseTail_fail (sep : Char) (nd ext : List Char)
    (hsep : sep = '-' ∨ sep = '_') (hnd1 : nd ≠ []) (hnd3 : nd.all Char.isDigit = true) :
    ∀ r : List Char, r ≠ [] → '.' ∉ r →
      parseTail (r ++ sep :: (nd ++ '.' :: ext)) = none := by
  have hsd : sep.isDigit = false := by rcases hsep with rfl | rfl <;> decide
  have hsdot : sep ≠ '.' := by rcases hsep with rfl | rfl <;> decide
  have hndc : ∃ d1 ndr, nd = d1 :: ndr := by
    rcases nd with _ | ⟨d1, ndr⟩
    · exact absurd rfl hnd1
    · exact ⟨d1, ndr, rfl⟩
  obtain ⟨d1, ndr, rfl⟩ := hndc
  intro r hr hdot
  rcases r with _ | ⟨b1, r1⟩
  · exact absurd rfl hr
  have hne1 : b1 ≠ '.' := fun h => hdot (by simp [h])
  rcases r1 with _ | ⟨b2, r2⟩
  · by_cases hb : b1 = '-' ∨ b1 = '_'
    · simp [parseTail, takeUpTo2Digits, hb, hsd, hsdot]
    · by_cases hbd : b1.isDigit = true <;>
        simp [parseTail, takeUpTo2Digits, hb, hbd, hsd, hsdot, hne1]
  have hne2 : b2 ≠ '.' := fun h => hdot (by simp [h])
  rcases r2 with _ | ⟨b3, r3⟩
  · by_cases hb : b1 = '-' ∨ b1 = '_'
    · by_cases hb2 : b2.isDigit = true <;>
        simp [parseTail, takeUpTo2Digits, hb, hb2, hsd, hsdot, hne2]
    · by_cases hb1 : b1.isDigit = true
      · by_cases hb2 : b2.isDigit = true <;>
          simp [parseTail, takeUpTo2Digits, hb, hb1, hb2, hsd, hsdot, hne2]
      · simp [parseTail, takeUpTo2Digits, hb, hb1, hne1]
  have hne3 : b3 ≠ '.' := fun h => hdot (by simp [h])
  rcases r3 with _ | ⟨b4, r4⟩
  · by_cases hb : b1 = '-' ∨ b1 = '_'
    · by_cases hb2 : b2.isDigit = true
      · by_cases hb3 : b3.isDigit = true <;>
          simp [parseTail, takeUpTo2Digits, hb, hb2, hb3, hsd, hsdot, hne3]
      · simp [parseTail, takeUpTo2Digits, hb, hb2, hne2]
    · by_cases hb1 : b1.isDigit = true
      · by_cases hb2 : b2.isDigit = true <;>
          simp [parseTail, takeUpTo2Digits, hb, hb1, hb2, hne2, hne3]
      · simp [parseTail, takeUpTo2Digits, hb, hb1, hne1]
  have hne4 : b4 ≠ '.' := fun h => hdot (by simp [h])
  by_cases hb : b1 = '-' ∨ b1 = '_'
  · by_cases hb2 : b2.isDigit = true
    · by_cases hb3 : b3.isDigit = true <;>
        simp [parseTail, takeUpTo2Digits, hb, hb2, hb3, hne3, hne4]
    · simp [parseTail, takeUpTo2Digits, hb, hb2, hne2]
  · by_cases hb1 : b1.isDigit = true
    · by_cases hb2 : b2.isDigit = true <;>
        simp [parseTail, takeUpTo2Digits, hb, hb1, hb2, hne2, hne3]
    · simp [parseTail, takeUpTo2Digits, hb, hb1, hne1]


/-- The lazy `base` group stops exactly at the intended split when the
base is dot-free: every earlier split point fails the tail parse. -/
theorem tryParseMain_intended (sep : Char) (nd ext : List Char)
    (hsep : sep = '-' ∨ sep = '_') (hnd1 : nd ≠ []) (hnd2 : nd.length ≤ 2)
    (hnd3 : nd.all Char.isDigit = true) (hext : extMatchCI ext = some ext) :
    ∀ (base taken : List Char), base ≠ [] → '.' ∉ base →
      tryParseMain taken (base ++ sep :: (nd ++ '.' :: ext)) =
        some (taken ++ base, some sep, some nd, ext) := by
  intro base
  induction base with
  | nil => intro taken h; exact absurd rfl h
  | cons c brest ih =>
    intro taken _ hdot
    rcases brest with _ | ⟨c2, brest2⟩
    · simp [tryParseMain, parseTail_succ sep nd ext hsep hnd1 hnd2 hnd3 hext]
    · have hfail := parseTail_fail sep nd ext hsep hnd1 hnd3 (c2 :: brest2)
        (by simp) (fun hm => hdot (List.mem_cons_of_mem _ hm))
      have hih := ih (taken ++ [c]) (by simp) (fun hm => hdot (List.mem_cons_of_mem _ hm))
      simp only [List.cons_append] at hfail hih ⊢
      rw [tryParseMain]
      simp only [hfail, hih]
      simp


/-- `getLast?` of an append with a non-empty right part. -/
theorem getLast?_append_right {α : Type} (l1 l2 : List α) (h : l2 ≠ []) :
    (l1 ++ l2).getLast? = l2.getLast? := by
  rw [List.getLast?_append]
  rcases hx : l2.getLast? with _ | x
  · have hs : l2.getLast?.isSome := List.getLast?_isSome.mpr h
    rw [hx] at hs
    cases hs
  · rfl

/-- The numbered-URL derivation on a main URL of the intended shape:
candidates continue the numeric suffix just above the URL's own number up
to the cap, preserving separator and extension. -/
theorem deriveNumberedUrls_intended (base ext : List Char) (sep : Char) (num : ℕ)
    (hbase : base ≠ []) (hdot : '.' ∉ base)
    (hhead : ∀ c, base.head? = some c → c.isWhitespace = false)
    (hsep : sep = '-' ∨ sep = '_') (hnum1 : 1 ≤ num) (hnum2 : num ≤ 99)
    (hext : extMatchCI ext = some ext)
    (hlast : ∀ c, ext.getLast? = some c → c.isWhitespace = false) :
    deriveNumberedUrls ⟨base ++ sep :: (natDigits num ++ '.' :: ext)⟩ 8 =
      (List.range' (num + 1) (8 - num)).map
        (fun i => (⟨base⟩ : String) ++ (⟨[sep]⟩ : String) ++ natStr i ++ "." ++
          (⟨ext⟩ : String)) := by
  have hfacts := natDigits_facts num (by omega)
  have hextne : ext ≠ [] := by
    intro h
    rw [h] at hext
    simp [extMatchCI] at hext
  have hh : ∀ c, (base ++ sep :: (natDigits num ++ '.' :: ext)).head? = some c →
      c.isWhitespace = false := by
    rcases base with _ | ⟨b0, bs⟩
    · exact absurd rfl hbase
    · intro c hc
      simp only [List.cons_append, List.head?_cons, Option.some.injEq] at hc
      exact hc ▸ hhead b0 rfl
  have hl : ∀ c, (base ++ sep :: (natDigits num ++ '.' :: ext)).getLast? = some c →
      c.isWhitespace = false := by
    intro c hc
    rw [getLast?_append_right _ _ (by simp),
      show sep :: (natDigits num ++ '.' :: ext) = [sep] ++ (natDigits num ++ '.' :: ext)
        from rfl,
      getLast?_append_right _ _ (by simp),
      getLast?_append_right _ _ (by simp),
      show ('.' :: ext) = ['.'] ++ ext from rfl,
      getLast?_append_right _ _ hextne] at hc
    exact hlast c hc
  have hne : (⟨base ++ sep :: (natDigits num ++ '.' :: ext)⟩ : String) ≠ "" := by
    rcases base with _ | ⟨b0, bs⟩
    · exact absurd rfl hbase
    · intro h
      have := congrArg String.data h
      simp at this
  have hstrip : pyStrip ⟨base ++ sep :: (natDigits num ++ '.' :: ext)⟩ =
      ⟨base ++ sep :: (natDigits num ++ '.' :: ext)⟩ := by
    simp only [pyStrip]
    rw [stripChars_eq_self _ hh hl]
  rw [deriveNumberedUrls, if_neg hne, hstrip]
  dsimp only
  rw [tryParseMain_intended sep (natDigits num) ext hsep hfacts.1 hfacts.2.1
    hfacts.2.2.1 hext base [] hbase hdot]
  simp only [List.nil_append, Option.getD_some, hfacts.2.2.2, if_pos hnum1]
  rw [show 8 + 1 - (num + 1) = 8 - num from by omega]


/-- A digit string holds no dot. -/
theorem dot_not_mem_of_digits (l : List Char) (h : l.all Char.isDigit = true) :
    '.' ∉ l := by
  intro hm
  have := List.all_eq_true.mp h _ hm
  simp at this

/-- The clean-up fold appends already-clean fresh URLs verbatim. -/
theorem cleanUrls_foldl (main : String) : ∀ (urls acc : List String),
    (∀ u ∈ urls, pyStrip u = u ∧ u ≠ "" ∧ u ≠ main ∧ u ∉ acc) → urls.Nodup →
    urls.foldl (fun acc u =>
      if pyStrip u = "" ∨ pyStrip u = main ∨ acc.contains (pyStrip u) then acc
      else acc ++ [pyStrip u]) acc = acc ++ urls := by
  intro urls
  induction urls with
  | nil => intro acc _ _; simp
  | cons u rest ih =>
    intro acc hprop hnd
    obtain ⟨hstrip, hne, hnm, hnacc⟩ := hprop u (List.mem_cons_self u rest)
    rw [List.foldl_cons]
    have hcond : ¬ (u = "" ∨ u = main ∨ acc.contains u = true) := by
      push_neg
      refine ⟨hne, hnm, ?_⟩
      simpa [List.elem_iff] using hnacc
    simp only [hstrip, if_neg hcond]
    rw [ih (acc ++ [u]) ?_ (List.nodup_cons.mp hnd).2]
    · simp
    · intro v hv
      obtain ⟨h1, h2, h3, h4⟩ := hprop v (List.mem_cons_of_mem _ hv)
      refine ⟨h1, h2, h3, ?_⟩
      simp only [List.mem_append, List.mem_singleton]
      rintro (hva | rfl)
      · exact h4 hva
      · exact (List.nodup_cons.mp hnd).1 hv


/-- Distinct numbers below 100 give distinct candidate URLs. -/
theorem candidate_inj (base ext : List Char) (sep : Char) (i j : ℕ)
    (hi : i < 100) (hj : j < 100)
    (h : (⟨base⟩ : String) ++ (⟨[sep]⟩ : String) ++ natStr i ++ "." ++ (⟨ext⟩ : String) =
         (⟨base⟩ : String) ++ (⟨[sep]⟩ : String) ++ natStr j ++ "." ++ (⟨ext⟩ : String)) :
    i = j := by
  have hdi := (natDigits_facts i hi).2.2
  have hdj := (natDigits_facts j hj).2.2
  have hd : base ++ [sep] ++ natDigits i ++ ['.'] ++ ext =
      base ++ [sep] ++ natDigits j ++ ['.'] ++ ext := congrArg String.data h
  simp only [List.append_assoc, List.singleton_append] at hd
  have hd2 := List.append_cancel_left hd
  have hd3 := List.append_cancel_left (show [sep] ++ (natDigits i ++ '.' :: ext) =
      [sep] ++ (natDigits j ++ '.' :: ext) by simpa using hd2)
  obtain ⟨hnd, _⟩ := dotfree_append_dot_inj (natDigits i) (natDigits j) ext ext
    (dot_not_mem_of_digits _ hdi.1) (dot_not_mem_of_digits _ hdj.1) hd3
  rw [← hdi.2, ← hdj.2, hnd]


/-- C7: with no explicit gallery fields and a main image URL of the shape
`base`+`sep`+`num`+`.`+`ext` (dot-free base, separator `-` or `_`, number
below 100, known image extension), the gallery candidate list is exactly
the URLs continuing the numeric suffix from `num + 1` up to the cap `8`,
preserving the original separator character and extension; the numbers
make the list duplicate-free and distinct from the main URL, so the
clean-up step drops nothing. -/
theorem C7_gallery_derivation (item : Item) (base ext : List Char) (sep : Char)
    (num : ℕ)
    (himg : item.images = none) (hextra : item.extraImages = none)
    (hgal : item.gallery = none) (hurls : item.imageUrls = none)
    (hmain : item.imageUrl = some ⟨base ++ sep :: (natDigits num ++ '.' :: ext)⟩)
    (hbase : base ≠ []) (hdot : '.' ∉ base)
    (hhead : ∀ c, base.head? = some c → c.isWhitespace = false)
    (hsep : sep = '-' ∨ sep = '_') (hnum1 : 1 ≤ num) (hnum2 : num ≤ 99)
    (hext : extMatchCI ext = some ext)
    (hlast : ∀ c, ext.getLast? = some c → c.isWhitespace = false) :
    galleryCandidates item =
      (List.range' (num + 1) (8 - num)).map
        (fun i => (⟨base⟩ : String) ++ (⟨[sep]⟩ : String) ++ natStr i ++ "." ++
          (⟨ext⟩ : String)) := by
  have hextne : ext ≠ [] := by
    intro h
    rw [h] at hext
    simp [extMatchCI] at hext
  have hh2 : ∀ c, (base ++ sep :: (natDigits num ++ '.' :: ext)).head? = some c →
      c.isWhitespace = false := by
    rcases base with _ | ⟨b0, bs⟩
    · exact absurd rfl hbase
    · intro c hc
      simp only [List.cons_append, List.head?_cons, Option.some.injEq] at hc
      exact hc ▸ hhead b0 rfl
  have hl2 : ∀ c, (base ++ sep :: (natDigits num ++ '.' :: ext)).getLast? = some c →
      c.isWhitespace = false := by
    intro c hc
    rw [getLast?_append_right _ _ (by simp),
      show sep :: (natDigits num ++ '.' :: ext) = [sep] ++ (natDigits num ++ '.' :: ext)
        from rfl,
      getLast?_append_right _ _ (by simp),
      getLast?_append_right _ _ (by simp),
      show ('.' :: ext) = ['.'] ++ ext from rfl,
      getLast?_append_right _ _ hextne] at hc
    exact hlast c hc
  have hmainne : (⟨base ++ sep :: (natDigits num ++ '.' :: ext)⟩ : String) ≠ "" := by
    rcases base with _ | ⟨b0, bs⟩
    · exact absurd rfl hbase
    · intro hcontra
      have := congrArg String.data hcontra
      simp at this
  have hstrip : pyStrip ⟨base ++ sep :: (natDigits num ++ '.' :: ext)⟩ =
      ⟨base ++ sep :: (natDigits num ++ '.' :: ext)⟩ := by
    simp only [pyStrip]
    rw [stripChars_eq_self _ hh2 hl2]
  have hmaincand : (⟨base ++ sep :: (natDigits num ++ '.' :: ext)⟩ : String) =
      (⟨base⟩ : String) ++ (⟨[sep]⟩ : String) ++ natStr num ++ "." ++ (⟨ext⟩ : String) := by
    refine Eq.trans (congrArg String.mk ?_) rfl
    simp [List.append_assoc]
  have hprops : ∀ u ∈ (List.range' (num + 1) (8 - num)).map
      (fun i => (⟨base⟩ : String) ++ (⟨[sep]⟩ : String) ++ natStr i ++ "." ++
        (⟨ext⟩ : String)),
      pyStrip u = u ∧ u ≠ "" ∧
        u ≠ (⟨base ++ sep :: (natDigits num ++ '.' :: ext)⟩ : String) ∧
        u ∉ ([] : List String) := by
    intro u hu
    obtain ⟨i, hi, rfl⟩ := List.mem_map.mp hu
    have hirange := List.mem_range'_1.mp hi
    have hi100 : i < 100 := by omega
    have hcd : ((⟨base⟩ : String) ++ (⟨[sep]⟩ : String) ++ natStr i ++ "." ++
        (⟨ext⟩ : String)).data = base ++ [sep] ++ natDigits i ++ ['.'] ++ ext := rfl
    have hh3 : ∀ c, (base ++ [sep] ++ natDigits i ++ ['.'] ++ ext).head? = some c →
        c.isWhitespace = false := by
      rcases base with _ | ⟨b0, bs⟩
      · exact absurd rfl hbase
      · intro c hc
        simp only [List.cons_append, List.append_assoc, List.head?_cons,
          Option.some.injEq] at hc
        exact hc ▸ hhead b0 rfl
    have hl3 : ∀ c, (base ++ [sep] ++ natDigits i ++ ['.'] ++ ext).getLast? = some c →
        c.isWhitespace = false := by
      intro c hc
      rw [getLast?_append_right _ _ hextne] at hc
      exact hlast c hc
    refine ⟨?_, ?_, ?_, by simp⟩
    · show pyStrip _ = _
      rw [pyStrip, hcd, stripChars_eq_self _ hh3 hl3]
      rfl
    · intro hcontra
      have := congrArg String.data hcontra
      rw [hcd] at this
      rcases base with _ | ⟨b0, bs⟩
      · exact absurd rfl hbase
      · simp at this
    · intro hcontra
      rw [hmaincand] at hcontra
      have := candidate_inj base ext sep i num hi100 (by omega) hcontra
      omega
  have hnodup : ((List.range' (num + 1) (8 - num)).map
      (fun i => (⟨base⟩ : String) ++ (⟨[sep]⟩ : String) ++ natStr i ++ "." ++
        (⟨ext⟩ : String))).Nodup := by
    refine List.Nodup.map_on ?_ (List.nodup_range' _ _)
    intro i hi j hj hij
    have h1 := List.mem_range'_1.mp hi
    have h2 := List.mem_range'_1.mp hj
    exact candidate_inj base ext sep i j (by omega) (by omega) hij
  unfold galleryCandidates
  rw [himg, hextra, hgal, hurls, hmain]
  simp only [toListImages, Option.getD_some, List.append_nil, List.nil_append, hstrip]
  rw [if_pos ⟨trivial, hmainne⟩]
  rw [deriveNumberedUrls_intended base ext sep num hbase hdot hhead hsep hnum1 hnum2
    hext hlast, cleanUrls, cleanUrls_foldl _ _ [] hprops hnodup]
  simp


/-- C7 witness: the derivation theorem applied at `sku-1.jpg` — the
candidates are `sku-2.jpg` through `sku-8.jpg`. -/
theorem C7_gallery_derivation_witness :
    let item : Item := { emptyItem with imageUrl := some "sku-1.jpg" }
    galleryCandidates item =
      (List.range' (1 + 1) (8 - 1)).map
        (fun i => (⟨"sku".data⟩ : String) ++ (⟨['-']⟩ : String) ++ natStr i ++ "." ++
          (⟨"jpg".data⟩ : String)) := by
  intro item
  exact C7_gallery_derivation item "sku".data "jpg".data '-' 1 rfl rfl rfl rfl rfl
    (by decide) (by decide)
    (by intro c hc; simp at hc; subst hc; decide)
    (Or.inl rfl) (by decide) (by decide) (by decide)
    (by intro c hc; simp at hc; subst hc; decide)


/-- `search` by `default_code` only reads the template collection. -/
theorem searchDC_congr_templates (s1 s2 : State) (sku : String)
    (h : s1.templates = s2.templates) : searchDC s1 sku = searchDC s2 sku := by
  simp only [searchDC, h]

/-- `search` by `default_code` is untouched by an in-place write that
keeps ids and `default_code`. -/
theorem searchDC_write (s : State) (i : ℕ) (f : Tmpl → Tmpl) (sku : String)
    (hf : ∀ tm, (f tm).id = tm.id ∧ (f tm).defaultCode = tm.defaultCode) :
    searchDC (writeTmplState s i f) sku = searchDC s sku := by
  simp only [searchDC, writeTmplState]
  rw [find?_map_pred s.templates _ _
    (fun tm => by by_cases h : tm.id = i <;> simp [h, (hf tm).2])]
  cases h : s.templates.find? (fun t => t.defaultCode = some sku) with
  | none => rfl
  | some tm =>
    simp only [Option.map_some']
    by_cases hid : tm.id = i <;> simp [hid, (hf tm).1]

/-- `find?` over a pointwise rewrite that keeps the found element found
and non-matches non-matching. -/
theorem find?_map_of_found {α : Type} (l : List α) (g : α → α) (p : α → Bool)
    (tm0 : α) (hfound : l.find? p = some tm0) (hpos : p (g tm0) = true)
    (hneg : ∀ tm ∈ l, p tm = false → p (g tm) = false) :
    (l.map g).find? p = some (g tm0) := by
  induction l with
  | nil => cases hfound
  | cons a t ih =>
    by_cases hpa : p a = true
    · rw [List.find?_cons_of_pos _ hpa] at hfound
      cases hfound
      rw [List.map_cons, List.find?_cons_of_pos _ hpos]
    · have hpa2 : p a = false := by
        cases h2 : p a
        · rfl
        · exact absurd h2 hpa
      rw [List.find?_cons_of_neg _ (by simp [hpa2])] at hfound
      rw [List.map_cons, List.find?_cons_of_neg _
        (by simp [hneg a (List.mem_cons_self a t) hpa2])]
      exact ih hfound (fun tm hm hp => hneg tm (List.mem_cons_of_mem _ hm) hp)

/-- `find?` over a pointwise rewrite whose matches are exactly the
elements with a given id. -/
theorem find?_map_by_id (l : List Tmpl) (g : Tmpl → Tmpl) (p : Tmpl → Bool) (t : ℕ)
    (hiff : ∀ tm ∈ l, p (g tm) = true ↔ tm.id = t) :
    ∀ tm0 ∈ l, tm0.id = t →
      ∃ tm ∈ l, tm.id = t ∧ (l.map g).find? p = some (g tm) := by
  induction l with
  | nil => intro tm0 h; cases h
  | cons a rest ih =>
    intro tm0 hm0 hid0
    by_cases ha : a.id = t
    · refine ⟨a, List.mem_cons_self a rest, ha, ?_⟩
      rw [List.map_cons, List.find?_cons_of_pos _
        ((hiff a (List.mem_cons_self a rest)).mpr ha)]
    · have hm0r : tm0 ∈ rest := by
        rcases List.mem_cons.mp hm0 with rfl | hr
        · exact absurd hid0 ha
        · exact hr
      obtain ⟨tm, hmem, hidt, hfind⟩ := ih
        (fun x hx => hiff x (List.mem_cons_of_mem _ hx)) tm0 hm0r hid0
      refine ⟨tm, List.mem_cons_of_mem _ hmem, hidt, ?_⟩
      rw [List.map_cons, List.find?_cons_of_neg _ (by
        simp only [(hiff a (List.mem_cons_self a rest))]
        exact ha)]
      exact hfind


/-- With a non-supplier-link priority and a non-empty sku, the resolver is
the `default_code` search with `barcode` fallback. -/
theorem findTemplate_nonSI (cfg : Config) (s : State) (sku barcode : String)
    (hmapby : ¬ (cfg.mapBy = "supplierinfo" ∧ sku ≠ "")) (hsku : sku ≠ "") :
    findTemplate cfg s sku barcode =
      (match searchDC s sku with
       | some t => some t
       | none => if barcode ≠ "" then searchBC s barcode else none) := by
  rw [findTemplate]
  simp only [if_neg hmapby, if_pos hsku]

/-- After the create-or-write of the base upsert, the `default_code`
search finds exactly the touched record. -/
theorem searchDC_upsertTmplStep_chain (cfg : Config) (item : Item) (s : State)
    (hnodup : (s.templates.map Tmpl.id).Nodup)
    (hftc : findTemplate cfg s (itemSku item) (itemBarcode item) =
      (match searchDC s (itemSku item) with
       | some t => some t
       | none => if itemBarcode item ≠ "" then searchBC s (itemBarcode item) else none))
    (hsku : itemSku item ≠ "") :
    searchDC (upsertTmplStep cfg item s).1 (itemSku item) =
      some (upsertTmplStep cfg item s).2.1 := by
  have hparts := resolveCategory_parts cfg item s
  have hdc_fields : ∀ t0, (baseApplyVals (pyOrS item.name item.title) (itemDescEcom item)
      (itemCost item) (itemWeight item) (resolveCategory cfg item s).1 (itemSku item)
      (barcodeToSet (resolveCategory cfg item s).2
        (findTemplate cfg s (itemSku item) (itemBarcode item)) (itemBarcode item))
      (itemVStock item) (itemVName cfg item) t0).defaultCode = some (itemSku item) := by
    intro t0
    rw [(baseApplyVals_fields _ _ _ _ _ _ _ _ _ t0).2.2.1, if_pos hsku]
  have hid_fields : ∀ t0, (baseApplyVals (pyOrS item.name item.title) (itemDescEcom item)
      (itemCost item) (itemWeight item) (resolveCategory cfg item s).1 (itemSku item)
      (barcodeToSet (resolveCategory cfg item s).2
        (findTemplate cfg s (itemSku item) (itemBarcode item)) (itemBarcode item))
      (itemVStock item) (itemVName cfg item) t0).id = t0.id :=
    fun t0 => (baseApplyVals_fields _ _ _ _ _ _ _ _ _ t0).1
  simp only [upsertTmplStep]
  rcases hf : findTemplate cfg s (itemSku item) (itemBarcode item) with _ | t
  · have hdc : searchDC s (itemSku item) = none := by
      rw [hftc] at hf
      rcases h : searchDC s (itemSku item) with _ | t2
      · rfl
      · rw [h] at hf; cases hf
    have hfind0 : s.templates.find?
        (fun tm => tm.defaultCode = some (itemSku item)) = none := by
      rcases h : s.templates.find? (fun tm => tm.defaultCode = some (itemSku item))
        with _ | tm
      · exact h
      · rw [searchDC, h] at hdc; cases hdc
    rw [hf] at hdc_fields hid_fields
    simp only [searchDC, find?_append_chain]
    rw [hparts.1, hfind0]
    rw [List.find?_cons_of_pos _ (by simp [hdc_fields])]
    simp [hid_fields, defaultTmpl]
  · rw [hf] at hdc_fields hid_fields
    rw [hftc] at hf
    rcases hA : searchDC s (itemSku item) with _ | t2
    · rw [hA] at hf
      have hbc : searchBC s (itemBarcode item) = some t := by
        by_cases hb : itemBarcode item ≠ ""
        · rw [if_pos hb] at hf; exact hf
        · rw [if_neg hb] at hf; cases hf
      have hfindn : s.templates.find?
          (fun tm => tm.defaultCode = some (itemSku item)) = none := by
        rcases h : s.templates.find?
          (fun tm => tm.defaultCode = some (itemSku item)) with _ | tm
        · exact h
        · rw [searchDC, h] at hA; cases hA
      obtain ⟨tm0, hm0, hid0⟩ := searchBC_mem hbc
      obtain ⟨tm, hmem, hidt, hfind⟩ := find?_map_by_id s.templates
        (fun tm => if tm.id = t then baseApplyVals (pyOrS item.name item.title)
          (itemDescEcom item) (itemCost item) (itemWeight item)
          (resolveCategory cfg item s).1 (itemSku item)
          (barcodeToSet (resolveCategory cfg item s).2 (some t) (itemBarcode item))
          (itemVStock item) (itemVName cfg item) tm else tm)
        (fun tm => decide (tm.defaultCode = some (itemSku item))) t
        (fun tm hm => by
          by_cases hidq : tm.id = t
          · simp only [if_pos hidq, hdc_fields]
            simp [hidq]
          · have hne := List.find?_eq_none.mp hfindn tm hm
            simp only [decide_eq_true_eq] at hne
            simp only [if_neg hidq]
            simp [hidq, hne])
        tm0 hm0 hid0
      simp only [searchDC, writeTmplState]
      rw [hparts.1, hfind]
      simp [if_pos hidt, hid_fields, hidt]
    · rw [hA] at hf
      have ht2 : t2 = t := by cases hf; rfl
      subst ht2
      obtain ⟨tm0, hfind0, hid0⟩ : ∃ tm0, s.templates.find?
          (fun tm => tm.defaultCode = some (itemSku item)) = some tm0 ∧ tm0.id = t2 := by
        rcases h : s.templates.find?
          (fun tm => tm.defaultCode = some (itemSku item)) with _ | tm
        · rw [searchDC, h] at hA; cases hA
        · rw [searchDC, h] at hA
          simp only [Option.map_some', Option.some.injEq] at hA
          exact ⟨tm, h, hA⟩
      have hmem0 := List.mem_of_find?_eq_some hfind0
      have hfound := find?_map_of_found s.templates
        (fun tm => if tm.id = t2 then baseApplyVals (pyOrS item.name item.title)
          (itemDescEcom item) (itemCost item) (itemWeight item)
          (resolveCategory cfg item s).1 (itemSku item)
          (barcodeToSet (resolveCategory cfg item s).2 (some t2) (itemBarcode item))
          (itemVStock item) (itemVName cfg item) tm else tm)
        (fun tm => decide (tm.defaultCode = some (itemSku item))) tm0 hfind0
        (by simp only [if_pos hid0, hdc_fields]; simp)
        (fun tm hm hp => by
          by_cases hidq : tm.id = t2
          · have heq : tm = tm0 := tmpl_eq_of_id_eq hnodup hm hmem0 (by rw [hidq, hid0])
            have hptrue := List.find?_some hfind0
            rw [← heq] at hptrue
            simp [hptrue] at hp
          · simp only [if_neg hidq]
            exact hp)
      simp only [searchDC, writeTmplState]
      rw [hparts.1, hfound]
      simp [if_pos hid0, hid_fields, hid0]


/-- After the create-or-write, with a non-supplier-link priority, the
`default_code` search finds exactly the touched record. -/
theorem searchDC_upsertTmplStep (cfg : Config) (item : Item) (s : State)
    (hnodup : (s.templates.map Tmpl.id).Nodup)
    (hmapby : ¬ (cfg.mapBy = "supplierinfo" ∧ itemSku item ≠ ""))
    (hsku : itemSku item ≠ "") :
    searchDC (upsertTmplStep cfg item s).1 (itemSku item) =
      some (upsertTmplStep cfg item s).2.1 :=
  searchDC_upsertTmplStep_chain cfg item s hnodup
    (findTemplate_nonSI cfg s (itemSku item) (itemBarcode item) hmapby hsku) hsku

/-- The post-write steps of the base upsert and the overlays keep the
`default_code` search unchanged. -/
theorem searchDC_upsertLinkStep (cfg : Config) (item : Item) (r : State × ℕ × Bool)
    (sku : String) :
    searchDC (upsertLinkStep cfg item r).1 sku = searchDC r.1 sku :=
  searchDC_congr_templates _ _ _ (upsertLinkStep_parts cfg item r).1

theorem searchDC_upsertImageStep (dl : String → Option (List ℕ)) (item : Item)
    (r : State × ℕ × Bool) (sku : String) :
    searchDC (upsertImageStep dl item r).1 sku = searchDC r.1 sku := by
  unfold upsertImageStep
  by_cases hu : truthyS item.imageUrl
  · simp only [if_pos hu]
    rcases hdl : dl (item.imageUrl.getD "") with _ | content
    · rfl
    · by_cases hl : looksLikeImage content
      · simp only [if_pos hl]
        exact searchDC_write _ _ _ _ (fun tm => ⟨rfl, rfl⟩)
      · simp [hl]
  · simp [hu]

theorem searchDC_upsertPublishStep (cfg : Config) (r : State × ℕ × Bool)
    (sku : String) :
    searchDC (upsertPublishStep cfg r).1 sku = searchDC r.1 sku := by
  unfold upsertPublishStep
  by_cases hp : cfg.publishOnWebsite
  · simp only [if_pos hp]
    rcases cfg.websiteId with _ | wid
    · exact searchDC_write _ _ _ _ (fun tm => ⟨rfl, rfl⟩)
    · dsimp only
      rw [searchDC_write _ r.2.1 (fun t =>
          { t with websiteIds :=
              if t.websiteIds.contains wid then t.websiteIds else t.websiteIds ++ [wid] })
          sku (fun tm => ⟨rfl, rfl⟩),
        searchDC_write _ r.2.1 (fun t => { t with websitePublished := true }) sku
          (fun tm => ⟨rfl, rfl⟩)]
  · simp [hp]

theorem searchDC_brandStage (cfg : Config) (ah : String → Option String)
    (item : Item) (r : State × ℕ × Bool) (sku : String) :
    searchDC (brandStage cfg ah item r).1 sku = searchDC r.1 sku := by
  rcases r with ⟨s, tid, wc⟩
  unfold brandStage
  rcases hf : findTemplate cfg s (itemSku item) (itemBarcode item) with _ | tf
  · simp [hf]
  · simp only [hf]
    exact searchDC_write _ _ _ _ (fun tm => ⟨by simp [brandWriteTmpl], by
      simp [brandWriteTmpl]⟩)

theorem searchDC_galleryStage (cfg : Config) (dl : String → Option (List ℕ))
    (item : Item) (r : State × ℕ × Bool) (sku : String) :
    searchDC (galleryStage cfg dl item r).1 sku = searchDC r.1 sku :=
  searchDC_congr_templates _ _ _ (galleryStage_parts cfg dl item r).1

/-- After the base `_upsert_product` body, the `default_code` search
finds exactly the touched record. -/
theorem searchDC_upsertBaseCore (cfg : Config) (dl : String → Option (List ℕ))
    (item : Item) (s : State) (hnodup : (s.templates.map Tmpl.id).Nodup)
    (hmapby : ¬ (cfg.mapBy = "supplierinfo" ∧ itemSku item ≠ ""))
    (hsku : itemSku item ≠ "") :
    searchDC (upsertBaseCore cfg dl item s).1 (itemSku item) =
      some (upsertBaseCore cfg dl item s).2.1 := by
  have h2 : (upsertBaseCore cfg dl item s).2 = (upsertTmplStep cfg item s).2 := by
    rw [upsertBaseCore,
      (upsertPublishStep_lookup cfg _ 0 (fun _ => 0) (fun _ => rfl)
        (fun _ _ => rfl)).2.2.2.2,
      (upsertImageStep_lookup dl item _ 0 (fun _ => 0) (fun _ _ => rfl)).2.2.2.2,
      (upsertLinkStep_parts cfg item _).2.2]
  rw [upsertBaseCore, searchDC_upsertPublishStep, searchDC_upsertImageStep,
    searchDC_upsertLinkStep, searchDC_upsertTmplStep cfg item s hnodup hmapby hsku]
  rw [upsertBaseCore] at h2
  rw [← congrArg Prod.fst h2]

/-- Re-resolution after the base body: a non-supplier-link priority and a
non-empty sku land on exactly the record the base touched. -/
theorem findTemplate_after_base (cfg : Config) (dl : String → Option (List ℕ))
    (item : Item) (s : State) (hnodup : (s.templates.map Tmpl.id).Nodup)
    (hmapby : ¬ (cfg.mapBy = "supplierinfo" ∧ itemSku item ≠ ""))
    (hsku : itemSku item ≠ "") :
    findTemplate cfg (upsertBaseCore cfg dl item s).1 (itemSku item) (itemBarcode item) =
      some (upsertBaseCore cfg dl item s).2.1 := by
  rw [findTemplate_nonSI _ _ _ _ hmapby hsku,
    searchDC_upsertBaseCore cfg dl item s hnodup hmapby hsku]


/-- In-place writes keep the id column of the template table. -/
theorem map_id_write (s : State) (i : ℕ) (f : Tmpl → Tmpl)
    (hf : ∀ tm, (f tm).id = tm.id) :
    (writeTmplState s i f).templates.map Tmpl.id = s.templates.map Tmpl.id := by
  simp only [writeTmplState, List.map_map]
  exact List.map_congr_left (fun tm _ => by
    by_cases h : tm.id = i <;> simp [h, hf])

/-- Id column preservation through each post-write step. -/
theorem map_id_upsertLinkStep (cfg : Config) (item : Item) (r : State × ℕ × Bool) :
    (upsertLinkStep cfg item r).1.templates.map Tmpl.id = r.1.templates.map Tmpl.id := by
  rw [(upsertLinkStep_parts cfg item r).1]

theorem map_id_upsertImageStep (dl : String → Option (List ℕ)) (item : Item)
    (r : State × ℕ × Bool) :
    (upsertImageStep dl item r).1.templates.map Tmpl.id = r.1.templates.map Tmpl.id := by
  unfold upsertImageStep
  by_cases hu : truthyS item.imageUrl
  · simp only [if_pos hu]
    rcases hdl : dl (item.imageUrl.getD "") with _ | content
    · rfl
    · by_cases hl : looksLikeImage content
      · simp only [if_pos hl]
        exact map_id_write _ _ _ (fun tm => rfl)
      · simp [hl]
  · simp [hu]

theorem map_id_upsertPublishStep (cfg : Config) (r : State × ℕ × Bool) :
    (upsertPublishStep cfg r).1.templates.map Tmpl.id = r.1.templates.map Tmpl.id := by
  unfold upsertPublishStep
  by_cases hp : cfg.publishOnWebsite
  · simp only [if_pos hp]
    rcases cfg.websiteId with _ | wid
    · exact map_id_write _ _ _ (fun tm => rfl)
    · dsimp only
      rw [map_id_write _ r.2.1 (fun t =>
          { t with websiteIds :=
              if t.websiteIds.contains wid then t.websiteIds else t.websiteIds ++ [wid] })
          (fun tm => rfl),
        map_id_write _ r.2.1 (fun t => { t with websitePublished := true })
          (fun tm => rfl)]
  · simp [hp]

theorem map_id_brandStage (cfg : Config) (ah : String → Option String) (item : Item)
    (r : State × ℕ × Bool) :
    (brandStage cfg ah item r).1.templates.map Tmpl.id = r.1.templates.map Tmpl.id := by
  rcases r with ⟨s, tid, wc⟩
  unfold brandStage
  rcases hf : findTemplate cfg s (itemSku item) (itemBarcode item) with _ | tf
  · simp [hf]
  · simp only [hf]
    exact map_id_write _ _ _ (fun tm => by simp [brandWriteTmpl])

theorem map_id_galleryStage (cfg : Config) (dl : String → Option (List ℕ))
    (item : Item) (r : State × ℕ × Bool) :
    (galleryStage cfg dl item r).1.templates.map Tmpl.id = r.1.templates.map Tmpl.id := by
  rw [(galleryStage_parts cfg dl item r).1]

/-- Id column of the create-or-write step: unchanged on a write, one
fresh id appended on a create. -/
theorem map_id_upsertTmplStep (cfg : Config) (item : Item) (s : State) :
    (upsertTmplStep cfg item s).1.templates.map Tmpl.id =
      (match findTemplate cfg s (itemSku item) (itemBarcode item) with
       | some _ => s.templates.map Tmpl.id
       | none => s.templates.map Tmpl.id ++ [(resolveCategory cfg item s).2.nextId]) := by
  have hparts := resolveCategory_parts cfg item s
  simp only [upsertTmplStep]
  rcases hf : findTemplate cfg s (itemSku item) (itemBarcode item) with _ | t
  · rw [show ({ (resolveCategory cfg item s).2 with
        templates := (resolveCategory cfg item s).2.templates ++
          [baseApplyVals (pyOrS item.name item.title) (itemDescEcom item) (itemCost item)
            (itemWeight item) (resolveCategory cfg item s).1 (itemSku item)
            (barcodeToSet (resolveCategory cfg item s).2 none (itemBarcode item))
            (itemVStock item) (itemVName cfg item)
            (defaultTmpl (resolveCategory cfg item s).2.nextId)],
        nextId := (resolveCategory cfg item s).2.nextId + 1 } : State).templates =
      (resolveCategory cfg item s).2.templates ++
        [baseApplyVals (pyOrS item.name item.title) (itemDescEcom item) (itemCost item)
          (itemWeight item) (resolveCategory cfg item s).1 (itemSku item)
          (barcodeToSet (resolveCategory cfg item s).2 none (itemBarcode item))
          (itemVStock item) (itemVName cfg item)
          (defaultTmpl (resolveCategory cfg item s).2.nextId)] from rfl]
    rw [List.map_append, hparts.1]
    simp [(baseApplyVals_fields _ _ _ _ _ _ _ _ _ _).1, defaultTmpl]
  · rw [map_id_write _ _ _ (fun tm => (baseApplyVals_fields _ _ _ _ _ _ _ _ _ tm).1),
      hparts.1]

/-- The base upsert body keeps the template id column duplicate-free. -/
theorem templates_nodup_upsertBaseCore (cfg : Config) (dl : String → Option (List ℕ))
    (item : Item) (s : State) (hwf : WF s) :
    ((upsertBaseCore cfg dl item s).1.templates.map Tmpl.id).Nodup := by
  have hparts := resolveCategory_parts cfg item s
  rw [upsertBaseCore, map_id_upsertPublishStep, map_id_upsertImageStep,
    map_id_upsertLinkStep, map_id_upsertTmplStep]
  rcases hf : findTemplate cfg s (itemSku item) (itemBarcode item) with _ | t
  · simp only [List.nodup_append, List.nodup_cons, List.nodup_nil]
    refine ⟨hwf.1, by simp, ?_⟩
    intro x hx hmem
    simp only [List.mem_singleton] at hmem
    obtain ⟨tm, htm, rfl⟩ := List.mem_map.mp hx
    have h1 := hwf.2.1 tm htm
    have h2 := hparts.2.2.2
    omega
  · exact hwf.1


/-- The create-or-write step leaves supplier lines and images untouched
and never lowers the allocator. -/
theorem upsertTmplStep_parts (cfg : Config) (item : Item) (s : State) :
    (upsertTmplStep cfg item s).1.sis = s.sis ∧
    (upsertTmplStep cfg item s).1.images = s.images ∧
    s.nextId ≤ (upsertTmplStep cfg item s).1.nextId := by
  have hparts := resolveCategory_parts cfg item s
  simp only [upsertTmplStep]
  rcases hf : findTemplate cfg s (itemSku item) (itemBarcode item) with _ | t
  · refine ⟨by simp [hparts.2.1], by simp [hparts.2.2.1], ?_⟩
    have := hparts.2.2.2
    simp only []
    omega
  · exact ⟨by simp [writeTmplState, hparts.2.1], by simp [writeTmplState, hparts.2.2.1],
      by simp [writeTmplState]; exact hparts.2.2.2⟩


/-- A sublist by `filter` keeps the id column duplicate-free. -/
theorem filter_map_id_nodup (l : List SI) (q : SI → Bool)
    (h : (l.map SI.id).Nodup) : ((l.filter q).map SI.id).Nodup :=
  List.Nodup.sublist (List.Sublist.map SI.id (List.filter_sublist l)) h

/-- Exactly one row satisfies the predicate after an in-place write that
makes the target row match while every other row fails. -/
theorem filter_writeSI_unique (p : SI → Bool) (i : ℕ) (f : SI → SI) :
    ∀ (l : List SI), (l.map SI.id).Nodup →
    (∃ r0 ∈ l, r0.id = i) →
    (∀ r ∈ l, r.id ≠ i → p r = false) →
    (∀ r ∈ l, r.id = i → p (f r) = true) →
    ((writeSI l i f).filter p).length = 1 := by
  intro l
  induction l with
  | nil =>
    intro _ hmem _ _
    obtain ⟨r0, hr0, _⟩ := hmem
    cases hr0
  | cons a rest ih =>
    intro hnodup hmem hp hpf
    simp only [List.map_cons, List.nodup_cons] at hnodup
    rw [writeSI, List.map_cons]
    by_cases ha : a.id = i
    · rw [if_pos ha,
        List.filter_cons_of_pos (hpf a (List.mem_cons_self a rest) ha)]
      have hnil : ((rest.map (fun r => if r.id = i then f r else r)).filter p) = [] := by
        rw [List.filter_eq_nil_iff]
        intro x hx
        obtain ⟨r, hr, rfl⟩ := List.mem_map.mp hx
        have hrid : r.id ≠ i := by
          intro hcontra
          exact hnodup.1 (by rw [← ha] at hcontra
                             exact hcontra ▸ List.mem_map_of_mem SI.id hr)
        rw [if_neg hrid]
        simp [hp r (List.mem_cons_of_mem _ hr) hrid]
      rw [hnil]
      rfl
    · rw [if_neg ha,
        List.filter_cons_of_neg (by
          simp [hp a (List.mem_cons_self a rest) ha])]
      have hmem2 : ∃ r0 ∈ rest, r0.id = i := by
        obtain ⟨r0, hr0, hid0⟩ := hmem
        rcases List.mem_cons.mp hr0 with rfl | hr0t
        · exact absurd hid0 ha
        · exact ⟨r0, hr0t, hid0⟩
      rw [show (rest.map (fun r => if r.id = i then f r else r)) = writeSI rest i f
        from rfl]
      exact ih hnodup.2 hmem2 (fun r hr h2 => hp r (List.mem_cons_of_mem _ hr) h2)
        (fun r hr h2 => hpf r (List.mem_cons_of_mem _ hr) h2)


/-- Bool membership for lists with lawful equality. -/
theorem contains_iff_mem {α : Type} [BEq α] [LawfulBEq α] (l : List α) (a : α) :
    l.contains a = true ↔ a ∈ l :=
  List.elem_iff

/-- Reconciliation leaves exactly one line of the configured vendor on
the record when the vendor held at most one there before. -/
theorem reconcileLinks_vendor_count (v t : ℕ) (sku : String) (stock : ℤ)
    (sis : List SI) (nextId : ℕ)
    (hnodup : (sis.map SI.id).Nodup)
    (hpre : (sis.filter (fun x => x.partnerId = v ∧ x.productTmplId = t)).length ≤ 1) :
    ((reconcileLinks v t sku stock sis nextId).1.filter
       (fun x => x.partnerId = v ∧ x.productTmplId = t)).length = 1 := by
  unfold reconcileLinks
  rcases hNew : sis.find? (fun r => r.partnerId = v ∧ r.productTmplId = t) with _ | rNew
  · have hnone : ∀ r ∈ sis, ¬ (r.partnerId = v ∧ r.productTmplId = t) := by
      intro r hr
      have := List.find?_eq_none.mp hNew r hr
      simpa using this
    rcases hOth : sis.filter
        (fun r => r.productTmplId = t ∧ r.productCode = some sku ∧ r.partnerId ≠ v)
        with _ | ⟨o, rest⟩
    · simp only [hNew, hOth]
      rw [List.filter_append,
        List.filter_eq_nil_iff.mpr (fun r hr => by simpa using hnone r hr)]
      simp
    · simp only [hNew, hOth]
      have hofilter : o ∈ sis.filter
          (fun r => r.productTmplId = t ∧ r.productCode = some sku ∧ r.partnerId ≠ v) := by
        rw [hOth]
        exact List.mem_cons_self o rest
      have homem : o ∈ sis := (List.mem_filter.mp hofilter).1
      have honodup : ((o :: rest).map SI.id).Nodup := by
        rw [← hOth]
        exact filter_map_id_nodup sis _ hnodup
      have hoid : o.id ∉ rest.map SI.id := by
        simp only [List.map_cons, List.nodup_cons] at honodup
        exact honodup.1
      apply filter_writeSI_unique
      · exact filter_map_id_nodup _ _ (by
          rw [writeSI_map_id sis o.id (fun r => { r with partnerId := v })
            (fun r => rfl)]
          exact hnodup)
      · refine ⟨{ o with partnerId := v }, ?_, rfl⟩
        rw [List.mem_filter]
        constructor
        · have heq : (fun r => if r.id = o.id then { r with partnerId := v } else r) o =
              { o with partnerId := v } := by simp
          rw [← heq]
          exact List.mem_map_of_mem _ homem
        · simp only [decide_eq_true_eq]
          intro hcontra
          rw [show ({ o with partnerId := v } : SI).id = o.id from rfl,
            contains_iff_mem] at hcontra
          exact hoid hcontra
      · intro r hr hrid
        obtain ⟨hrw, hfil⟩ := List.mem_filter.mp hr
        obtain ⟨r3, hr3, rfl⟩ := List.mem_map.mp hrw
        by_cases h3 : r3.id = o.id
        · simp only [if_pos h3] at hrid
          exact absurd h3 (by simpa using hrid)
        · simp only [if_neg h3]
          simp [hnone r3 hr3]
      · intro r _ _
        simp
  · have hmemNew := List.mem_of_find?_eq_some hNew
    have hpNew : rNew.partnerId = v ∧ rNew.productTmplId = t := by
      have := List.find?_some hNew
      simpa using this
    simp only [hNew]
    apply filter_writeSI_unique
    · exact filter_map_id_nodup _ _ hnodup
    · refine ⟨rNew, ?_, rfl⟩
      rw [List.mem_filter]
      refine ⟨hmemNew, ?_⟩
      simp only [decide_eq_true_eq]
      intro hcontra
      rw [contains_iff_mem] at hcontra
      obtain ⟨x, hx, hxid⟩ := List.mem_map.mp hcontra
      have hxmem := (List.mem_filter.mp hx).1
      have hxpred := (List.mem_filter.mp hx).2
      have hxr : x = rNew := eq_of_id_eq hnodup hxmem hmemNew hxid
      rw [hxr] at hxpred
      simp [hpNew.1] at hxpred
    · intro r hr hrid
      have hrsis := (List.mem_filter.mp hr).1
      by_cases hpr : (r.partnerId = v ∧ r.productTmplId = t)
      · have h1 : r ∈ sis.filter (fun x => x.partnerId = v ∧ x.productTmplId = t) :=
          List.mem_filter.mpr ⟨hrsis, by simpa using hpr⟩
        have h2 : rNew ∈ sis.filter (fun x => x.partnerId = v ∧ x.productTmplId = t) :=
          List.mem_filter.mpr ⟨hmemNew, by simpa using hpNew⟩
        exact absurd (congrArg SI.id (eq_of_mem_length_le_one h1 h2 hpre))
          (by simpa using hrid)
      · simpa using hpr
    · intro r _ _
      simp


/-- Reconciliation keeps the supplier-line id column duplicate-free and
bounded by the (possibly bumped) allocator. -/
theorem reconcileLinks_id_facts (v t : ℕ) (sku : String) (stock : ℤ)
    (sis : List SI) (nextId : ℕ)
    (hnodup : (sis.map SI.id).Nodup) (hbound : ∀ x ∈ sis, x.id < nextId) :
    ((reconcileLinks v t sku stock sis nextId).1.map SI.id).Nodup ∧
    (∀ x ∈ (reconcileLinks v t sku stock sis nextId).1,
       x.id < (reconcileLinks v t sku stock sis nextId).2) ∧
    nextId ≤ (reconcileLinks v t sku stock sis nextId).2 := by
  unfold reconcileLinks
  rcases hNew : sis.find? (fun r => r.partnerId = v ∧ r.productTmplId = t) with _ | rNew
  · rcases hOth : sis.filter
        (fun r => r.productTmplId = t ∧ r.productCode = some sku ∧ r.partnerId ≠ v)
        with _ | ⟨o, rest⟩
    · simp only [hNew, hOth]
      refine ⟨?_, ?_, by omega⟩
      · rw [List.map_append]
        simp only [List.map_cons, List.map_nil]
        rw [List.nodup_append]
        refine ⟨hnodup, by simp, ?_⟩
        intro x hx
        obtain ⟨r, hr, rfl⟩ := List.mem_map.mp hx
        have := hbound r hr
        simp only [List.mem_singleton]
        omega
      · intro x hx
        rcases List.mem_append.mp hx with hx1 | hx2
        · have := hbound x hx1
          omega
        · simp only [List.mem_singleton] at hx2
          rw [hx2]
          show nextId < nextId + 1
          omega
    · simp only [hNew, hOth]
      have hids : ((writeSI sis o.id (fun r => { r with partnerId := v })).filter
          (fun r => ¬ (rest.map SI.id).contains r.id)).map SI.id
          |>.Nodup := filter_map_id_nodup _ _ (by
        rw [writeSI_map_id sis o.id (fun r => { r with partnerId := v }) (fun r => rfl)]
        exact hnodup)
      refine ⟨?_, ?_, by omega⟩
      · rw [writeSI_map_id _ o.id (fun r =>
          { r with partnerId := v, productTmplId := t, productCode := some sku,
                   xVendorStockInfo := stock }) (fun r => rfl)]
        exact hids
      · intro x hx
        obtain ⟨x2, hx2, rfl⟩ := List.mem_map.mp hx
        obtain ⟨hx3, _⟩ := List.mem_filter.mp hx2
        obtain ⟨x4, hx4, rfl⟩ := List.mem_map.mp hx3
        by_cases h4 : x4.id = o.id <;>
          by_cases h5 : (if x4.id = o.id then ({ x4 with partnerId := v } : SI)
            else x4).id = o.id <;>
          simp only [h4, h5, if_pos, if_neg, if_true, if_false] <;>
          have := hbound x4 hx4 <;>
          simp [h4] <;> omega
  · simp only [hNew]
    refine ⟨?_, ?_, by omega⟩
    · rw [writeSI_map_id _ rNew.id (fun r =>
        { r with partnerId := v, productTmplId := t, productCode := some sku,
                 xVendorStockInfo := stock }) (fun r => rfl)]
      exact filter_map_id_nodup _ _ hnodup
    · intro x hx
      obtain ⟨x2, hx2, rfl⟩ := List.mem_map.mp hx
      obtain ⟨hx3, _⟩ := List.mem_filter.mp hx2
      by_cases h4 : x2.id = rNew.id <;>
        have := hbound x2 hx3 <;>
        simp [h4] <;> omega


/-- All clean-up survivors are non-empty and differ from the main URL. -/
theorem cleanUrls_mem_ne (main : String) (urls : List String) :
    ∀ u ∈ cleanUrls main urls, u ≠ "" ∧ u ≠ main := by
  rw [cleanUrls]
  suffices h : ∀ (l : List String) (acc : List String),
      (∀ u ∈ acc, u ≠ "" ∧ u ≠ main) →
      ∀ u ∈ l.foldl (fun acc u =>
        if pyStrip u = "" ∨ pyStrip u = main ∨ acc.contains (pyStrip u) then acc
        else acc ++ [pyStrip u]) acc, u ≠ "" ∧ u ≠ main by
    exact h urls [] (by simp)
  intro l
  induction l with
  | nil => intro acc hacc u hu; exact hacc u hu
  | cons a rest ih =>
    intro acc hacc u hu
    rw [List.foldl_cons] at hu
    by_cases hc : pyStrip a = "" ∨ pyStrip a = main ∨ acc.contains (pyStrip a) = true
    · rw [if_pos hc] at hu
      exact ih acc hacc u hu
    · rw [if_neg hc] at hu
      push_neg at hc
      refine ih (acc ++ [pyStrip a]) ?_ u hu
      intro x hx
      rcases List.mem_append.mp hx with hx1 | hx2
      · exact hacc x hx1
      · simp only [List.mem_singleton] at hx2
        rw [hx2]
        exact ⟨hc.1, hc.2.1⟩

/-- `contains` on the gallery's `existing_urls` set is exactly
`urlStored`. -/
theorem contains_existingUrls (s : State) (t : ℕ) (url : String) :
    (((s.images.filter (fun im =>
        im.productTmplId = t ∧ im.xVendorImage ∧ truthyS im.xVendorImageUrl)).filterMap
        (·.xVendorImageUrl)).contains url = true) ↔ urlStored s t url := by
  rw [List.elem_iff]
  constructor
  · intro h
    obtain ⟨im, him, hurl⟩ := List.mem_filterMap.mp h
    obtain ⟨him2, hpred⟩ := List.mem_filter.mp him
    simp only [decide_eq_true_eq] at hpred
    exact ⟨im, him2, hpred.1, hpred.2.1, hpred.2.2, hurl⟩
  · intro h
    obtain ⟨im, him, h1, h2, h3, h4⟩ := h
    refine List.mem_filterMap.mpr ⟨im, ?_, h4⟩
    refine List.mem_filter.mpr ⟨him, ?_⟩
    simp [h1, h2, h3]

/-- The gallery fold never drops an already-created image row. -/
theorem galleryFold_mono (dl : String → Option (List ℕ)) (ex : List String)
    (t : ℕ) (nm : Option String) (sb : ℕ) (vn : String) :
    ∀ (clean : List String) (acc : List Img × ℕ × ℕ) (im : Img), im ∈ acc.1 →
      im ∈ (clean.foldl (galleryFoldStep dl ex t nm sb vn) acc).1 := by
  intro clean
  induction clean with
  | nil => intro acc im him; exact him
  | cons url rest ih =>
    intro acc im him
    rw [List.foldl_cons]
    refine ih _ im ?_
    rcases acc with ⟨imgs, nid, idx⟩
    unfold galleryFoldStep
    dsimp only
    split
    · exact him
    · split
      · split
        · exact List.mem_append_left _ him
        · exact him
      · exact him

/-- When every candidate is already known or fails to download, the
gallery fold creates nothing and allocates nothing. -/
theorem galleryFold_nop (dl : String → Option (List ℕ)) (ex : List String)
    (t : ℕ) (nm : Option String) (sb : ℕ) (vn : String) :
    ∀ (clean : List String) (acc : List Img × ℕ × ℕ),
      (∀ url ∈ clean, ex.contains url = true ∨ dl url = none ∨ dl url = some []) →
      (clean.foldl (galleryFoldStep dl ex t nm sb vn) acc).1 = acc.1 ∧
      (clean.foldl (galleryFoldStep dl ex t nm sb vn) acc).2.1 = acc.2.1 := by
  intro clean
  induction clean with
  | nil => intro acc _; exact ⟨rfl, rfl⟩
  | cons url rest ih =>
    intro acc hall
    rw [List.foldl_cons]
    have hstep : (galleryFoldStep dl ex t nm sb vn acc url).1 = acc.1 ∧
        (galleryFoldStep dl ex t nm sb vn acc url).2.1 = acc.2.1 := by
      rcases acc with ⟨imgs, nid, idx⟩
      rcases hall url (List.mem_cons_self url rest) with hc | hdl | hdl
      · have hc2 : url ∈ ex := (contains_iff_mem ex url).mp hc
        unfold galleryFoldStep
        simp [hc2]
      · by_cases hc : url ∈ ex <;>
          unfold galleryFoldStep <;> simp [hc, hdl]
      · by_cases hc : url ∈ ex <;>
          unfold galleryFoldStep <;> simp [hc, hdl]
    have hrest := ih (galleryFoldStep dl ex t nm sb vn acc url)
      (fun u hu => hall u (List.mem_cons_of_mem _ hu))
    exact ⟨hrest.1.trans hstep.1, hrest.2.trans hstep.2⟩

/-- Every candidate the fold processes is either already known, fails to
download, or ends stored in the created rows. -/
theorem galleryFold_covers (dl : String → Option (List ℕ)) (ex : List String)
    (t : ℕ) (nm : Option String) (sb : ℕ) (vn : String) :
    ∀ (clean : List String) (acc : List Img × ℕ × ℕ) (url : String), url ∈ clean →
      ex.contains url = true ∨ dl url = none ∨ dl url = some [] ∨
      ∃ im ∈ (clean.foldl (galleryFoldStep dl ex t nm sb vn) acc).1,
        im.productTmplId = t ∧ im.xVendorImage = true ∧ im.xVendorImageUrl = some url := by
  intro clean
  induction clean with
  | nil => intro acc url hurl; cases hurl
  | cons u0 rest ih =>
    intro acc url hurl
    rcases List.mem_cons.mp hurl with rfl | hurlr
    · by_cases hc : ex.contains url = true
      · exact Or.inl hc
      · rcases hdl : dl url with _ | content
        · exact Or.inr (Or.inl rfl)
        · by_cases hne : content = []
          · exact Or.inr (Or.inr (Or.inl (by rw [hne])))
          · refine Or.inr (Or.inr (Or.inr ?_))
            rcases acc with ⟨imgs, nid, idx⟩
            rw [List.foldl_cons]
            refine ⟨⟨nid, t, content, nm, sb + idx, true, some url, vn⟩,
              galleryFold_mono dl ex t nm sb vn rest _ _ ?_, rfl, rfl, rfl⟩
            have hc2 : url ∉ ex := fun hm =>
              hc ((contains_iff_mem ex url).mpr hm)
            unfold galleryFoldStep
            simp [hc2, hdl, hne]
    · rcases ih (galleryFoldStep dl ex t nm sb vn acc u0) url hurlr with h | h | h | h
      · exact Or.inl h
      · exact Or.inr (Or.inl h)
      · exact Or.inr (Or.inr (Or.inl h))
      · refine Or.inr (Or.inr (Or.inr ?_))
        rw [List.foldl_cons]
        exact h


/-- The gallery overlay never drops an image row. -/
theorem galleryStage_images_super (cfg : Config) (dl : String → Option (List ℕ))
    (item : Item) (s : State) (tid : ℕ) (wc : Bool) :
    ∀ im ∈ s.images, im ∈ (galleryStage cfg dl item (s, tid, wc)).1.images := by
  intro im him
  unfold galleryStage
  rcases hf : findTemplate cfg s (itemSku item) (itemBarcode item) with _ | t
  · simpa [hf] using him
  · by_cases hc : galleryCandidates item = []
    · simpa [hf, hc] using him
    · simp only [hf, if_neg hc]
      exact List.mem_append_left _ him

/-- After the gallery overlay, every candidate URL of the item is either
impossible to download or stored on a vendor image of the re-resolved
record. -/
theorem galleryStage_covers (cfg : Config) (dl : String → Option (List ℕ))
    (item : Item) (s : State) (tid : ℕ) (wc : Bool) (t : ℕ)
    (hf : findTemplate cfg s (itemSku item) (itemBarcode item) = some t) :
    ∀ url ∈ galleryCandidates item,
      dl url = none ∨ dl url = some [] ∨
      ∃ im ∈ (galleryStage cfg dl item (s, tid, wc)).1.images,
        im.productTmplId = t ∧ im.xVendorImage = true ∧
        im.xVendorImageUrl = some url := by
  intro url hurl
  by_cases hc : galleryCandidates item = []
  · rw [hc] at hurl
    cases hurl
  · have hcov := galleryFold_covers dl
      ((s.images.filter (fun im =>
        im.productTmplId = t ∧ im.xVendorImage ∧ truthyS im.xVendorImageUrl)).filterMap
        (·.xVendorImageUrl)) t
      (firstTruthyS [some (match lookupTmpl s t with
        | some tm => tm.name
        | none => ""), some (itemSku item), some (itemBarcode item)])
      (((s.images.filter (fun im => im.productTmplId = t)).map (·.sequence)).foldl
        max 0 + 10)
      (if itemVName cfg item = "" then "Proveedor" else itemVName cfg item)
      (galleryCandidates item) ([], s.nextId, 1) url hurl
    unfold galleryStage
    simp only [hf, if_neg hc]
    rcases hcov with h | h | h | h
    · obtain ⟨im, him, h1, h2, h3, h4⟩ := (contains_existingUrls s t url).mp h
      exact Or.inr (Or.inr ⟨im, List.mem_append_left _ him, h1, h2, h4⟩)
    · exact Or.inl h
    · exact Or.inr (Or.inl h)
    · obtain ⟨im, him, hprops⟩ := h
      exact Or.inr (Or.inr ⟨im, List.mem_append_right _ him, hprops⟩)

/-- When every candidate URL is already stored or impossible to download,
the gallery overlay stores nothing new. -/
theorem galleryStage_nop (cfg : Config) (dl : String → Option (List ℕ))
    (item : Item) (s : State) (tid : ℕ) (wc : Bool) (t : ℕ)
    (hf : findTemplate cfg s (itemSku item) (itemBarcode item) = some t)
    (hall : ∀ url ∈ galleryCandidates item,
      urlStored s t url ∨ dl url = none ∨ dl url = some []) :
    (galleryStage cfg dl item (s, tid, wc)).1.images = s.images := by
  unfold galleryStage
  by_cases hc : galleryCandidates item = []
  · simp [hf, hc]
  · simp only [hf, if_neg hc]
    rw [(galleryFold_nop dl _ t _ _ _ (galleryCandidates item) ([], s.nextId, 1)
      (fun url hurl => by
        rcases hall url hurl with h | h | h
        · exact Or.inl ((contains_existingUrls s t url).mpr h)
        · exact Or.inr (Or.inl h)
        · exact Or.inr (Or.inr h))).1]
    simp


/-- A resolved template makes the create-or-write step an update. -/
theorem upsertTmplStep_found (cfg : Config) (item : Item) (s : State) (t : ℕ)
    (hf : findTemplate cfg s (itemSku item) (itemBarcode item) = some t) :
    (upsertTmplStep cfg item s).2 = (t, false) := by
  simp only [upsertTmplStep, hf]

/-- The base body never touches the image rows. -/
theorem upsertBaseCore_images (cfg : Config) (dl : String → Option (List ℕ))
    (item : Item) (s : State) :
    (upsertBaseCore cfg dl item s).1.images = s.images := by
  rw [upsertBaseCore,
    (upsertPublishStep_lookup cfg _ 0 (fun _ => 0) (fun _ => rfl)
      (fun _ _ => rfl)).2.2.1,
    (upsertImageStep_lookup dl item _ 0 (fun _ => 0) (fun _ _ => rfl)).2.2.1,
    (upsertLinkStep_parts cfg item _).2.1,
    (upsertTmplStep_parts cfg item s).2.1]

/-- With a configured vendor and a non-empty sku, the base body's
supplier lines are exactly the reconciliation of the pre-state's. -/
theorem upsertBaseCore_sis (cfg : Config) (dl : String → Option (List ℕ))
    (item : Item) (s : State) (v : ℕ) (hv : cfg.vendorId = some v)
    (hsku : itemSku item ≠ "") :
    (upsertBaseCore cfg dl item s).1.sis =
      (reconcileLinks v (upsertTmplStep cfg item s).2.1 (itemSku item)
        (itemVStock item) s.sis (upsertTmplStep cfg item s).1.nextId).1 := by
  rw [upsertBaseCore,
    (upsertPublishStep_lookup cfg _ 0 (fun _ => 0) (fun _ => rfl)
      (fun _ _ => rfl)).2.1,
    (upsertImageStep_lookup dl item _ 0 (fun _ => 0) (fun _ _ => rfl)).2.1]
  unfold upsertLinkStep
  rw [hv]
  dsimp only
  rw [if_pos hsku]
  dsimp only
  rw [(upsertTmplStep_parts cfg item s).1]

/-- The `.2` pair survives from the create-or-write step to the base
body's result. -/
theorem upsertBaseCore_snd (cfg : Config) (dl : String → Option (List ℕ))
    (item : Item) (s : State) :
    (upsertBaseCore cfg dl item s).2 = (upsertTmplStep cfg item s).2 := by
  rw [upsertBaseCore,
    (upsertPublishStep_lookup cfg _ 0 (fun _ => 0) (fun _ => rfl)
      (fun _ _ => rfl)).2.2.2.2,
    (upsertImageStep_lookup dl item _ 0 (fun _ => 0) (fun _ _ => rfl)).2.2.2.2,
    (upsertLinkStep_parts cfg item _).2.2]

/-- Unpacking a successful full upsert: the validation passed and the
result is the overlay chain over the base body. -/
theorem upsertFull_ok (cfg : Config) (dl : String → Option (List ℕ))
    (ah : String → Option String) (item : Item) (s : State) (r : State × ℕ × Bool)
    (h : upsertFull cfg dl ah item s = .ok r) :
    galleryStage cfg dl item (brandStage cfg ah item (upsertBaseCore cfg dl item s)) = r := by
  unfold upsertFull upsertBase at h
  by_cases h1 : ¬ truthyS (pyOrS item.name item.title)
  · rw [if_pos h1] at h
    simp [Except.map] at h
  rw [if_neg h1] at h
  by_cases h2 : itemSku item = "" ∧ itemBarcode item = ""
  · rw [if_pos h2] at h
    simp [Except.map] at h
  rw [if_neg h2] at h
  simp only [Except.map, Except.ok.injEq] at h
  rw [upsertBaseCore]
  exact h

/-- After a successful full upsert the result's second component is the
base body's, and the configured resolver finds the touched record. -/
theorem after_full_facts (cfg : Config) (dl : String → Option (List ℕ))
    (ah : String → Option String) (item : Item) (s : State) (r : State × ℕ × Bool)
    (hnodup : (s.templates.map Tmpl.id).Nodup)
    (hmapby : ¬ (cfg.mapBy = "supplierinfo" ∧ itemSku item ≠ ""))
    (hsku : itemSku item ≠ "")
    (hrun : upsertFull cfg dl ah item s = .ok r) :
    r.2 = (upsertBaseCore cfg dl item s).2 ∧
    searchDC r.1 (itemSku item) = some r.2.1 ∧
    findTemplate cfg r.1 (itemSku item) (itemBarcode item) = some r.2.1 := by
  have hchain := upsertFull_ok cfg dl ah item s r hrun
  have h2 : r.2 = (upsertBaseCore cfg dl item s).2 := by
    rw [← hchain, (galleryStage_parts cfg dl item _).2.2,
      (brandStage_lookup cfg ah item _ 0 (fun _ => 0) (fun _ _ => rfl)).2.2.2.2]
  have hdc : searchDC r.1 (itemSku item) = some r.2.1 := by
    rw [← hchain, searchDC_galleryStage, searchDC_brandStage,
      searchDC_upsertBaseCore cfg dl item s hnodup hmapby hsku,
      (galleryStage_parts cfg dl item _).2.2,
      (brandStage_lookup cfg ah item _ 0 (fun _ => 0) (fun _ _ => rfl)).2.2.2.2]
  exact ⟨h2, hdc, by rw [findTemplate_nonSI _ _ _ _ hmapby hsku, hdc]⟩

/-- The full chain keeps the template id column duplicate-free. -/
theorem templates_nodup_after_full (cfg : Config) (dl : String → Option (List ℕ))
    (ah : String → Option String) (item : Item) (s : State) (r : State × ℕ × Bool)
    (hwf : WF s) (hrun : upsertFull cfg dl ah item s = .ok r) :
    (r.1.templates.map Tmpl.id).Nodup := by
  rw [← upsertFull_ok cfg dl ah item s r hrun, map_id_galleryStage, map_id_brandStage]
  exact templates_nodup_upsertBaseCore cfg dl item s hwf


/-- Gallery candidates are never the empty string. -/
theorem galleryCandidates_ne (item : Item) :
    ∀ u ∈ galleryCandidates item, u ≠ "" := by
  intro u hu
  rw [galleryCandidates] at hu
  exact (cleanUrls_mem_ne _ _ u hu).1

/-- `digitChar` of a digit value evaluates to the decimal digit. -/
theorem digitChar_val (n : ℕ) (h : n < 10) :
    (Nat.digitChar n).toNat - 48 = n ∧ (Nat.digitChar n).isDigit = true ∧
    Nat.digitChar n ≠ '\n' ∧ Nat.digitChar n ≠ '.' := by
  interval_cases n <;> exact ⟨by decide, by decide, by decide, by decide⟩

/-- The fuelled decimal rendering round-trips through `digitsVal` and
yields digits only. -/
theorem natDigitsAux_facts : ∀ (fuel n : ℕ), n ≤ fuel →
    digitsVal (natDigitsAux fuel n) = n ∧
    (natDigitsAux fuel n).all Char.isDigit = true ∧
    natDigitsAux fuel n ≠ [] := by
  intro fuel
  induction fuel with
  | zero =>
    intro n hn
    have : n = 0 := by omega
    subst this
    exact ⟨by decide, by decide, by decide⟩
  | succ fuel ih =>
    intro n hn
    by_cases h10 : n < 10
    · rw [natDigitsAux, if_pos h10]
      have hd := digitChar_val n h10
      refine ⟨?_, by simp [hd.2.1], by simp⟩
      simp [digitsVal, hd.1]
    · rw [natDigitsAux, if_neg h10]
      have hdiv : n / 10 ≤ fuel := by omega
      have hih := ih (n / 10) hdiv
      have hmod : n % 10 < 10 := Nat.mod_lt n (by omega)
      have hd := digitChar_val (n % 10) hmod
      refine ⟨?_, ?_, by simp⟩
      · rw [digitsVal, List.foldl_append]
        rw [show (List.foldl (fun a c => a * 10 + (c.toNat - 48))
          (List.foldl (fun a c => a * 10 + (c.toNat - 48)) 0
            (natDigitsAux fuel (n / 10))) [Nat.digitChar (n % 10)]) =
          (digitsVal (natDigitsAux fuel (n / 10))) * 10 +
            ((Nat.digitChar (n % 10)).toNat - 48) from rfl]
        rw [hih.1, hd.1]
        omega
      · rw [List.all_append]
        simp [hih.2.1, hd.2.1]

/-- `str(n)` round-trips and is all digits. -/
theorem natDigits_roundtrip (n : ℕ) :
    digitsVal (natDigits n) = n ∧ (natDigits n).all Char.isDigit = true ∧
    natDigits n ≠ [] := by
  exact natDigitsAux_facts n n (le_refl n)

/-- A digit list holds no newline. -/
theorem noNl_of_digits (l : List Char) (h : l.all Char.isDigit = true) :
    '\n' ∉ l := by
  intro hm
  have := List.all_eq_true.mp h _ hm
  simp at this

/-- Prefix stripping of an exact prefix. -/
theorem stripPfx_append : ∀ (p r : List Char), stripPfx p (p ++ r) = some r := by
  intro p
  induction p with
  | nil => intro r; rfl
  | cons c ps ih =>
    intro r
    rw [List.cons_append, stripPfx, if_pos rfl]
    exact ih r

/-- `takeWhile`/`dropWhile` on an all-matching list followed by a
non-matching head. -/
theorem takeWhile_all_append (p : Char → Bool) :
    ∀ (a r : List Char), a.all p = true →
      (∀ c, r.head? = some c → p c = false) →
      (a ++ r).takeWhile p = a ∧ (a ++ r).dropWhile p = r := by
  intro a
  induction a with
  | nil =>
    intro r _ hr
    refine ⟨?_, dropWhile_eq_self_of_head p r hr⟩
    cases r with
    | nil => rfl
    | cons c t =>
      rw [List.nil_append, List.takeWhile_cons, hr c rfl]
      simp
  | cons c a2 ih =>
    intro r ha hr
    rw [List.all_cons, Bool.and_eq_true] at ha
    have hih := ih r ha.2 hr
    rw [List.cons_append, List.takeWhile_cons, List.dropWhile_cons]
    simp only [ha.1, if_true]
    exact ⟨by rw [hih.1], hih.2⟩

/-- Greedy number parse of a rendered number followed by a non-digit. -/
theorem parseNatChars_digits (n : ℕ) (r : List Char)
    (hr : ∀ c, r.head? = some c → c.isDigit = false) :
    parseNatChars (natDigits n ++ r) = some (n, r) := by
  have h := natDigits_roundtrip n
  have htw := takeWhile_all_append Char.isDigit (natDigits n) r h.2.1 hr
  rw [parseNatChars, htw.1, htw.2, if_neg h.2.2]
  rw [h.1]


/-- Number parse of a bare rendered number. -/
theorem parseNatChars_digits_end (n : ℕ) :
    parseNatChars (natDigits n) = some (n, []) := by
  have h := natDigits_roundtrip n
  have htw := takeWhile_all_append Char.isDigit (natDigits n) [] h.2.1
    (fun ch hc => by cases hc)
  rw [List.append_nil] at htw
  rw [parseNatChars, htw.1, htw.2, if_neg h.2.2, h.1]

/-- The summary-line parser inverts the summary-line renderer. -/
theorem parseFirstLine_mkMsgLine (t c u f : ℕ) :
    parseFirstLine (mkMsgLine t c u f) = some (t, c, u, f) := by
  have hsp : ∀ (l2 : List Char) (X : List Char) (ch : Char),
      ((' ' :: l2) ++ X).head? = some ch → ch.isDigit = false := by
    intro l2 X ch hc
    rw [List.cons_append, List.head?_cons] at hc
    cases hc
    decide
  have hdata : (mkMsgLine t c u f).data =
      "Total: ".data ++ (natDigits t ++ (" | Creados: ".data ++ (natDigits c ++
        (" | Actualizados: ".data ++ (natDigits u ++
          (" | Fallidos: ".data ++ natDigits f)))))) := by
    show ((((((("Total: ".data ++ natDigits t) ++ " | Creados: ".data) ++ natDigits c)
      ++ " | Actualizados: ".data) ++ natDigits u) ++ " | Fallidos: ".data)
      ++ natDigits f) = _
    simp [List.append_assoc]
  have h1 : stripPfx "Total: ".data (mkMsgLine t c u f).data =
      some (natDigits t ++ (" | Creados: ".data ++ (natDigits c ++
        (" | Actualizados: ".data ++ (natDigits u ++
          (" | Fallidos: ".data ++ natDigits f)))))) := by
    rw [hdata]
    exact stripPfx_append _ _
  have h2 := parseNatChars_digits t (" | Creados: ".data ++ (natDigits c ++
      (" | Actualizados: ".data ++ (natDigits u ++
        (" | Fallidos: ".data ++ natDigits f)))))
    (hsp "| Creados: ".data _)
  have h3 := stripPfx_append " | Creados: ".data (natDigits c ++
      (" | Actualizados: ".data ++ (natDigits u ++
        (" | Fallidos: ".data ++ natDigits f))))
  have h4 := parseNatChars_digits c (" | Actualizados: ".data ++ (natDigits u ++
      (" | Fallidos: ".data ++ natDigits f)))
    (hsp "| Actualizados: ".data _)
  have h5 := stripPfx_append " | Actualizados: ".data (natDigits u ++
      (" | Fallidos: ".data ++ natDigits f))
  have h6 := parseNatChars_digits u (" | Fallidos: ".data ++ natDigits f)
    (hsp "| Fallidos: ".data _)
  have h7 := stripPfx_append " | Fallidos: ".data (natDigits f)
  have h8 := parseNatChars_digits_end f
  simp only [parseFirstLine, h1, h2, h3, h4, h5, h6, h7, h8]


/-- The newline splitter never yields the empty list. -/
theorem splitOnNl_ne_nil : ∀ (l : List Char), splitOnNl l ≠ [] := by
  intro l
  induction l with
  | nil => simp [splitOnNl]
  | cons c rest ih =>
    rw [splitOnNl]
    by_cases hc : c = '\n'
    · rw [if_pos hc]
      simp
    · rw [if_neg hc]
      rcases h : splitOnNl rest with _ | ⟨a, t⟩
      · simp
      · simp

/-- A newline-free list splits to itself alone. -/
theorem splitOnNl_no_nl : ∀ (l : List Char), '\n' ∉ l → splitOnNl l = [l] := by
  intro l
  induction l with
  | nil => intro h; rfl
  | cons c rest ih =>
    intro h
    have hc : c ≠ '\n' := fun he => h (he ▸ List.mem_cons_self c rest)
    have hr : '\n' ∉ rest := fun hm => h (List.mem_cons_of_mem c hm)
    rw [splitOnNl, if_neg hc, ih hr]

/-- Splitting at the first newline. -/
theorem splitOnNl_append : ∀ (a r : List Char), '\n' ∉ a →
    splitOnNl (a ++ '\n' :: r) = a :: splitOnNl r := by
  intro a
  induction a with
  | nil =>
    intro r h
    rw [List.nil_append, splitOnNl, if_pos rfl]
  | cons c cs ih =>
    intro r h
    have hc : c ≠ '\n' := fun he => h (he ▸ List.mem_cons_self c cs)
    have hcs : '\n' ∉ cs := fun hm => h (List.mem_cons_of_mem c hm)
    rw [List.cons_append, splitOnNl, if_neg hc, ih r hcs]

/-- Character data of a two-or-more-line join. -/
theorem joinLines_data_cons (l a : String) (t : List String) :
    (joinLines (l :: a :: t)).data = l.data ++ '\n' :: (joinLines (a :: t)).data := by
  show (l.data ++ ('\n' :: [])) ++ (joinLines (a :: t)).data = _
  simp

/-- The split inverts the join on newline-free lines. -/
theorem splitOnNl_joinLines : ∀ (L : List String), (∀ l ∈ L, '\n' ∉ l.data) → L ≠ [] →
    splitOnNl (joinLines L).data = L.map String.data := by
  intro L
  induction L with
  | nil => intro h hne; exact absurd rfl hne
  | cons l rest ih =>
    intro h hne
    rcases rest with _ | ⟨a, t⟩
    · show splitOnNl l.data = [l.data]
      exact splitOnNl_no_nl l.data (h l (List.mem_cons_self l []))
    · rw [joinLines_data_cons, splitOnNl_append _ _ (h l (List.mem_cons_self l _)),
          ih (fun x hx => h x (List.mem_cons_of_mem l hx)) (by simp)]
      rfl

/-- Appending before a nonempty tail keeps the last element. -/
theorem getLast?_append_some {α : Type} (l1 : List α) {l2 : List α} {x : α}
    (h : l2.getLast? = some x) : (l1 ++ l2).getLast? = some x := by
  rw [getLast?_append_right l1 l2 (fun hn => by rw [hn] at h; cases h)]
  exact h

/-- The last character of a join is the last character of the last line. -/
theorem joinLines_getLast (L : List String) : ∀ (l : String), L.getLast? = some l →
    l.data ≠ [] → (joinLines L).data.getLast? = l.data.getLast? := by
  induction L with
  | nil => intro l hl hld; cases hl
  | cons a rest ih =>
    intro l hl hld
    rcases rest with _ | ⟨b, t⟩
    · have ha : a = l := by
        rw [List.getLast?_singleton] at hl
        exact Option.some.inj hl
      rw [ha]
      rfl
    · have hl2 : (b :: t).getLast? = some l := by
        rw [List.getLast?_cons_cons] at hl
        exact hl
      have hIH := ih l hl2 hld
      obtain ⟨x, hx⟩ := Option.isSome_iff_exists.mp (List.getLast?_isSome.mpr hld)
      rw [joinLines_data_cons,
          getLast?_append_right a.data ('\n' :: (joinLines (b :: t)).data) (by simp)]
      rcases hJ : (joinLines (b :: t)).data with _ | ⟨c, cs⟩
      · rw [hJ] at hIH
        rw [hx] at hIH
        cases hIH
      · rw [List.getLast?_cons_cons, ← hJ, hIH]


/-- The last element is a member. -/
theorem mem_of_getLast_some {α : Type} {l : List α} {x : α} (h : l.getLast? = some x) :
    x ∈ l := by
  obtain ⟨hne, hx⟩ := List.mem_getLast?_eq_getLast (Option.mem_def.mpr h)
  rw [hx]
  exact List.getLast_mem hne

/-- `rstrip("\n")` is the identity when the text does not end in a newline. -/
theorem rstripNl_id (s : String) (h : ∀ x, s.data.getLast? = some x → x ≠ '\n') :
    rstripNl s = s := by
  unfold rstripNl
  rcases hrev : s.data.reverse with _ | ⟨c, cs⟩
  · have h0 : s.data = [] := by
      rw [← List.reverse_reverse s.data, hrev]
      rfl
    exact congrArg String.mk h0.symm
  · have hc : c ≠ '\n' := by
      apply h
      rw [← List.head?_reverse, hrev]
      rfl
    have h0 : s.data = (c :: cs).reverse := by
      rw [← List.reverse_reverse s.data, hrev]
    rw [List.dropWhile_cons, if_neg (by simp [hc])]
    exact congrArg String.mk h0.symm

/-- The character data of the rendered summary line, fully reassociated. -/
theorem mkMsgLine_data (t c u f : ℕ) :
    (mkMsgLine t c u f).data =
      "Total: ".data ++ (natDigits t ++ (" | Creados: ".data ++ (natDigits c ++
        (" | Actualizados: ".data ++ (natDigits u ++
          (" | Fallidos: ".data ++ natDigits f)))))) := by
  show ((((((("Total: ".data ++ natDigits t) ++ " | Creados: ".data) ++ natDigits c)
    ++ " | Actualizados: ".data) ++ natDigits u) ++ " | Fallidos: ".data)
    ++ natDigits f) = _
  simp [List.append_assoc]

/-- The summary line holds no newline. -/
theorem mkMsgLine_no_nl (t c u f : ℕ) : '\n' ∉ (mkMsgLine t c u f).data := by
  rw [mkMsgLine_data]
  intro hm
  simp only [List.mem_append] at hm
  rcases hm with h | h | h | h | h | h | h | h
  · exact absurd h (by decide)
  · exact noNl_of_digits _ (natDigits_roundtrip t).2.1 h
  · exact absurd h (by decide)
  · exact noNl_of_digits _ (natDigits_roundtrip c).2.1 h
  · exact absurd h (by decide)
  · exact noNl_of_digits _ (natDigits_roundtrip u).2.1 h
  · exact absurd h (by decide)
  · exact noNl_of_digits _ (natDigits_roundtrip f).2.1 h

/-- The summary line ends in a digit. -/
theorem mkMsgLine_last_digit (t c u f : ℕ) :
    ∃ x, (mkMsgLine t c u f).data.getLast? = some x ∧ x.isDigit = true := by
  have hne := (natDigits_roundtrip f).2.2
  obtain ⟨x, hx⟩ := Option.isSome_iff_exists.mp (List.getLast?_isSome.mpr hne)
  refine ⟨x, ?_, ?_⟩
  · rw [mkMsgLine_data]
    exact getLast?_append_some _ (getLast?_append_some _ (getLast?_append_some _
      (getLast?_append_some _ (getLast?_append_some _ (getLast?_append_some _
      (getLast?_append_some _ hx))))))
  · exact List.all_eq_true.mp (natDigits_roundtrip f).2.1 x (mem_of_getLast_some hx)

/-- `splitlines` inverts the newline join of newline-free, last-nonempty lines. -/
theorem pySplitlines_joinLines (L : List String)
    (h : ∀ l ∈ L, '\n' ∉ l.data) (hne : L ≠ [])
    (l : String) (hl : L.getLast? = some l) (hld : l.data ≠ []) :
    pySplitlines (joinLines L) = L := by
  have hJlast := joinLines_getLast L l hl hld
  obtain ⟨x, hx⟩ := Option.isSome_iff_exists.mp (List.getLast?_isSome.mpr hld)
  have hJne : (joinLines L).data ≠ [] := by
    intro hnil
    rw [hnil, hx] at hJlast
    cases hJlast
  have hlastne : ¬ (joinLines L).data.getLast? = some '\n' := by
    rw [hJlast, hx]
    intro he
    have hmem : '\n' ∈ l.data := Option.some.inj he ▸ mem_of_getLast_some hx
    exact h l (mem_of_getLast_some hl) hmem
  unfold pySplitlines
  rw [if_neg hJne]
  simp only [splitOnNl_joinLines L h hne, if_neg hlastne, List.map_map]
  have hid : ((fun d => (⟨d⟩ : String)) ∘ String.data) = id := funext (fun x => rfl)
  rw [hid, List.map_id]


/-- `splitlines(rstrip(result_text))` recovers the summary line and the
shown detail lines when the lines are newline-free and nonempty. -/
theorem splitlines_resultText (msg : String) (details : List String)
    (hm1 : '\n' ∉ msg.data) (hm2 : msg.data ≠ [])
    (hd : ∀ d ∈ details, '\n' ∉ d.data ∧ d ≠ "") :
    pySplitlines (rstripNl (mkResultText msg details)) = msg :: details.take 200 := by
  rcases details with _ | ⟨d, ds⟩
  · rw [mkResultText, if_pos rfl]
    have hr : rstripNl msg = msg :=
      rstripNl_id msg (fun x hx hxe => hm1 (hxe ▸ mem_of_getLast_some hx))
    rw [hr]
    have h1 := pySplitlines_joinLines [msg]
      (fun l hl => by rw [List.mem_singleton] at hl; rw [hl]; exact hm1)
      (by simp) msg rfl hm2
    exact h1
  · rw [mkResultText, if_neg (by simp)]
    have hLne : (msg :: (d :: ds).take 200) ≠ [] := by simp
    obtain ⟨last, hlast⟩ :=
      Option.isSome_iff_exists.mp (List.getLast?_isSome.mpr hLne)
    have hmem := mem_of_getLast_some hlast
    have hlprops : '\n' ∉ last.data ∧ last.data ≠ [] := by
      rcases List.mem_cons.mp hmem with h | h
      · rw [h]
        exact ⟨hm1, hm2⟩
      · have hin := List.take_subset 200 (d :: ds) h
        refine ⟨(hd last hin).1, fun hdata => (hd last hin).2 ?_⟩
        exact congrArg String.mk hdata
    have hall : ∀ l ∈ (msg :: (d :: ds).take 200), '\n' ∉ l.data := by
      intro l hl
      rcases List.mem_cons.mp hl with h | h
      · rw [h]
        exact hm1
      · exact (hd l (List.take_subset 200 (d :: ds) h)).1
    have hsp := pySplitlines_joinLines (msg :: (d :: ds).take 200) hall hLne
      last hlast hlprops.2
    have hjlast := joinLines_getLast (msg :: (d :: ds).take 200) last hlast hlprops.2
    have hr : rstripNl (joinLines (msg :: (d :: ds).take 200)) =
        joinLines (msg :: (d :: ds).take 200) := by
      apply rstripNl_id
      intro x hx hxe
      rw [hjlast] at hx
      exact hlprops.1 (hxe ▸ mem_of_getLast_some hx)
    rw [hr, hsp]


/-- C1: the claim counts gallery-skip detail lines among the soft failures
subtracted from `failed`, but the reconciler subtracts only the
unreadable-image lines: a run whose single detail line is a gallery-skip
match still reports `Fallidos: 1` (the skip line is only added to
`Sin imagen extra`). -/
theorem C1_stats_counterexample :
    isSkipLine "ERROR N/A: Galería saltada X1" = true ∧
    (actionRunImportStats
        (fun (s : State) (it : Item) => .error "Galería saltada X1")
        c1Cfg emptyState [emptyItem]).2 =
      "Total: 1 | Creados: 0 | Actualizados: 0 | Fallidos: 1 | Sin imagen extra: 1\nERROR N/A: Galería saltada X1" := by
  constructor
  · decide
  · rfl

/-- C1 (amended): on a run whose detail lines are newline-free and
nonempty, the reconciler rewrites the summary to `created` = the number
of de-duplicated feed natural keys absent from the pre-run snapshot and
present in the post-run snapshot, capped at `success` = total minus real
failures; `updated` = the remainder of successes; `failed` = the base
failure count minus the unreadable-image lines only; and
`no_extra_images` = unreadable-image lines plus gallery-skip lines (the
side-channel counter itself is never incremented); at most 200 detail
lines are kept. -/
theorem C1_stats_amended (step : State → Item → Except String (State × Bool))
    (cfg : Config) (s0 : State) (items : List Item)
    (hnl : ∀ d ∈ (runImport step s0 items).details, '\n' ∉ d.data ∧ d ≠ "") :
    actionRunImportStats step cfg s0 items =
      (let acc := runImport step s0 items
       let shown := acc.details.take 200
       let soft := (shown.filter isSoftLine).length
       let skip := (shown.filter isSkipLine).length
       let failedReal := acc.skipped - soft
       let success := items.length - failedReal
       let field := ptFieldOf (mapByNorm cfg)
       let createdRaw := ((feedKeys (mapByNorm cfg) items).filter
         (fun k => ¬ hasKeyTmpl field s0 k ∧ hasKeyTmpl field acc.state k)).length
       let createdReal := if createdRaw > success then success else createdRaw
       let updatedReal := success - createdReal
       let noExtra := 0 + soft + skip
       (acc.state,
        joinLines (("Total: " ++ natStr items.length ++
          " | Creados: " ++ natStr createdReal ++
          " | Actualizados: " ++ natStr updatedReal ++
          " | Fallidos: " ++ natStr failedReal ++
          " | Sin imagen extra: " ++ natStr noExtra) :: shown))) := by
  obtain ⟨x, hx, hxd⟩ := mkMsgLine_last_digit items.length
    (runImport step s0 items).created (runImport step s0 items).updated
    (runImport step s0 items).skipped
  have hm2 : (mkMsgLine items.length (runImport step s0 items).created
      (runImport step s0 items).updated
      (runImport step s0 items).skipped).data ≠ [] := by
    intro hnil
    rw [hnil] at hx
    cases hx
  have hsp := splitlines_resultText _ _ (mkMsgLine_no_nl items.length
    (runImport step s0 items).created (runImport step s0 items).updated
    (runImport step s0 items).skipped) hm2 hnl
  have hpf := parseFirstLine_mkMsgLine items.length (runImport step s0 items).created
    (runImport step s0 items).updated (runImport step s0 items).skipped
  simp only [actionRunImportStats, actionRunImportBase, hsp, hpf]

/-- C1 witness: the claim's concrete scenario — pre-run catalog `{A}`,
feed `{A, B, C}` with `B` lacking a name — through the full upsert chain:
the rewritten summary states `created=1`, `updated=1`, `failed=1`. -/
theorem C1_stats_amended_witness :
    (actionRunImportStats (stepOfUpsert (upsertFull c1Cfg c1Dl c1Ah)) c1Cfg c1S0
        [c1ItemA, c1ItemB, c1ItemC]).2 =
      "Total: 3 | Creados: 1 | Actualizados: 1 | Fallidos: 1 | Sin imagen extra: 0\nERROR B: Falta name en el item" := by
  have h := C1_stats_amended (stepOfUpsert (upsertFull c1Cfg c1Dl c1Ah)) c1Cfg c1S0
    [c1ItemA, c1ItemB, c1ItemC] (by decide)
  rw [h]
  rfl


/-- A `find?` hit splits the list at the first matching element. -/
theorem find?_decomp {α : Type} (p : α → Bool) (x : α) :
    ∀ (l : List α), l.find? p = some x →
      ∃ l1 l2, l = l1 ++ x :: l2 ∧ ∀ z ∈ l1, p z = false := by
  intro l
  induction l with
  | nil => intro h; cases h
  | cons a t ih =>
    intro h
    by_cases hpa : p a = true
    · rw [List.find?_cons_of_pos _ hpa] at h
      cases h
      exact ⟨[], t, rfl, by simp⟩
    · have hpa2 : p a = false := by
        cases h2 : p a
        · rfl
        · exact absurd h2 hpa
      rw [List.find?_cons_of_neg _ hpa] at h
      obtain ⟨l1, l2, heq, hfail⟩ := ih h
      refine ⟨a :: l1, l2, by rw [heq]; rfl, ?_⟩
      intro z hz
      rcases List.mem_cons.mp hz with rfl | hz2
      · exact hpa2
      · exact hfail z hz2

/-- `find?` returns the unique matching element. -/
theorem find?_eq_of_unique {α : Type} (p : α → Bool) (x : α) :
    ∀ (l : List α), x ∈ l → p x = true → (∀ y ∈ l, p y = true → y = x) →
      l.find? p = some x := by
  intro l
  induction l with
  | nil => intro hx; cases hx
  | cons a t ih =>
    intro hx hpx huniq
    by_cases hpa : p a = true
    · rw [List.find?_cons_of_pos _ hpa, huniq a (List.mem_cons_self a t) hpa]
    · rw [List.find?_cons_of_neg _ hpa]
      rcases List.mem_cons.mp hx with rfl | hx2
      · exact absurd hpx hpa
      · exact ih hx2 hpx (fun y hy hpy => huniq y (List.mem_cons_of_mem a hy) hpy)

/-- `find?` only sees the predicate's values on the members. -/
theorem find?_congr_mem {α : Type} (p q : α → Bool) :
    ∀ (l : List α), (∀ a ∈ l, p a = q a) → l.find? p = l.find? q := by
  intro l
  induction l with
  | nil => intro h; rfl
  | cons a t ih =>
    intro h
    have ha := h a (List.mem_cons_self a t)
    by_cases hpa : p a = true
    · rw [List.find?_cons_of_pos _ hpa, List.find?_cons_of_pos _ (ha ▸ hpa)]
    · rw [List.find?_cons_of_neg _ hpa, List.find?_cons_of_neg _ (by rw [← ha]; exact hpa)]
      exact ih (fun b hb => h b (List.mem_cons_of_mem a hb))

/-- Filtering away only non-matching elements leaves `find?` unchanged. -/
theorem find?_filter_of_fail {α : Type} (p q : α → Bool) :
    ∀ (l : List α), (∀ a ∈ l, q a = false → p a = false) →
      (l.filter q).find? p = l.find? p := by
  intro l
  induction l with
  | nil => intro h; rfl
  | cons a t ih =>
    intro h
    have hrest := fun b hb => h b (List.mem_cons_of_mem a hb)
    by_cases hqa : q a = true
    · rw [List.filter_cons_of_pos hqa]
      by_cases hpa : p a = true
      · rw [List.find?_cons_of_pos _ hpa, List.find?_cons_of_pos _ hpa]
      · rw [List.find?_cons_of_neg _ hpa, List.find?_cons_of_neg _ hpa]
        exact ih hrest
    · have hqa2 : q a = false := by
        cases h2 : q a
        · rfl
        · exact absurd h2 hqa
      rw [List.filter_cons_of_neg (by simp [hqa2])]
      rw [List.find?_cons_of_neg _ (by simp [h a (List.mem_cons_self a t) hqa2])]
      exact ih hrest


/-- `find?` over a pointwise rewrite tracks a renamed predicate. -/
theorem find?_map_lockstep {α : Type} (g : α → α) (p q : α → Bool) :
    ∀ (l : List α), (∀ a ∈ l, p (g a) = q a) →
      (l.map g).find? p = (l.find? q).map g := by
  intro l
  induction l with
  | nil => intro h; rfl
  | cons a t ih =>
    intro h
    have ha := h a (List.mem_cons_self a t)
    by_cases hpa : p (g a) = true
    · rw [List.map_cons, List.find?_cons_of_pos _ hpa,
        List.find?_cons_of_pos _ (ha ▸ hpa)]
      rfl
    · rw [List.map_cons, List.find?_cons_of_neg _ hpa,
        List.find?_cons_of_neg _ (by rw [← ha]; exact hpa)]
      exact ih (fun b hb => h b (List.mem_cons_of_mem a hb))

/-- After reconciliation, the vendor-by-code search lands on the
reconciled record: whenever the first pre-existing `(vendor, code)` line —
if any — already pointed at the record, the first `(vendor, code)` line of
the result points at it too. -/
theorem find?_reconcile_vendor (v tid : ℕ) (sku : String) (stock : ℤ)
    (sis : List SI) (nextId : ℕ)
    (hnodup : (sis.map SI.id).Nodup)
    (hc : ∀ e, sis.find? (fun r => r.partnerId = v ∧ r.productCode = some sku) = some e →
      e.productTmplId = tid) :
    ((reconcileLinks v tid sku stock sis nextId).1.find?
        (fun r => r.partnerId = v ∧ r.productCode = some sku)).map SI.productTmplId =
      some tid := by
  unfold reconcileLinks
  rcases hNew : sis.find? (fun r => r.partnerId = v ∧ r.productTmplId = tid) with _ | rNew
  · -- no vendor line on the record: the code rewrites an other-vendor
    -- line in place or appends a fresh one
    have hnoNew : ∀ r ∈ sis, ¬ (r.partnerId = v ∧ r.productTmplId = tid) := by
      intro r hr
      have := List.find?_eq_none.mp hNew r hr
      simpa using this
    have hfe : sis.find? (fun r => r.partnerId = v ∧ r.productCode = some sku) = none := by
      rcases hfe2 : sis.find? (fun r => r.partnerId = v ∧ r.productCode = some sku)
        with _ | e
      · exact hfe2
      · have hmem := List.mem_of_find?_eq_some hfe2
        have hpe : e.partnerId = v ∧ e.productCode = some sku := by
          simpa using List.find?_some hfe2
        exact absurd ⟨hpe.1, hc e hfe2⟩ (hnoNew e hmem)
    have hallfail : ∀ r ∈ sis,
        decide (r.partnerId = v ∧ r.productCode = some sku) = false := by
      intro r hr
      have h2 := List.find?_eq_none.mp hfe r hr
      cases h3 : decide (r.partnerId = v ∧ r.productCode = some sku)
      · rfl
      · exact absurd h3 h2
    rcases hOth : sis.filter
        (fun r => r.productTmplId = tid ∧ r.productCode = some sku ∧ r.partnerId ≠ v)
        with _ | ⟨o, rest⟩
    · simp only [hNew, hOth]
      rw [find?_append_chain, hfe]
      simp only [Option.orElse]
      simp
    · simp only [hNew, hOth]
      have hofilter : o ∈ sis.filter
          (fun r => r.productTmplId = tid ∧ r.productCode = some sku ∧ r.partnerId ≠ v) := by
        rw [hOth]
        exact List.mem_cons_self o rest
      have homem := (List.mem_filter.mp hofilter).1
      have honodup : ((o :: rest).map SI.id).Nodup := by
        rw [← hOth]
        exact filter_map_id_nodup sis _ hnodup
      have hoid : o.id ∉ rest.map SI.id := by
        simp only [List.map_cons, List.nodup_cons] at honodup
        exact honodup.1
      rw [writeSI, writeSI, List.filter_map, List.map_map]
      rw [find?_map_lockstep _ _ (fun a => decide (a.id = o.id)) _ (by
        intro a ha
        have hamem := List.mem_of_mem_filter ha
        by_cases h5 : a.id = o.id
        · have hao : a = o := eq_of_id_eq hnodup hamem homem h5
          subst hao
          simp [Function.comp]
        · have hpa := hallfail a hamem
          simp [Function.comp, h5, hpa])]
      rw [find?_filter_of_fail _ _ _ (by
        intro a ha hq2
        have hcont : ((rest.map SI.id).contains
            ((fun r => if r.id = o.id then ({ r with partnerId := v } : SI) else r) a).id)
            = true := not_not.mp (decide_eq_false_iff_not.mp hq2)
        have haid : ((fun r => if r.id = o.id then ({ r with partnerId := v } : SI)
            else r) a).id = a.id := by
          by_cases h5 : a.id = o.id <;> simp [h5]
        rw [haid, contains_iff_mem] at hcont
        apply decide_eq_false
        intro h7
        exact hoid (h7 ▸ hcont))]
      rw [find?_eq_of_unique _ o sis homem (by simp)
        (fun y hy hpy => eq_of_id_eq hnodup hy homem (by simpa using hpy))]
      simp [Function.comp]
  · -- the vendor already holds a line on the record: it is rewritten in
    -- place, and the first (vendor, code) hit keeps designating the record
    have hmemNew := List.mem_of_find?_eq_some hNew
    have hpNew : rNew.partnerId = v ∧ rNew.productTmplId = tid := by
      simpa using List.find?_some hNew
    simp only [hNew]
    rw [writeSI]
    rw [find?_map_lockstep _ _ (fun a => decide (a.id = rNew.id) ||
        decide (a.partnerId = v ∧ a.productCode = some sku)) _ (by
      intro a ha
      by_cases h5 : a.id = rNew.id
      · simp [h5]
      · simp [h5])]
    rw [find?_filter_of_fail _ _ _ (by
      intro a ha hq2
      have hcont : (((sis.filter (fun r => r.productTmplId = tid ∧
          r.productCode = some sku ∧ r.partnerId ≠ v)).map SI.id).contains a.id)
          = true := not_not.mp (decide_eq_false_iff_not.mp hq2)
      rw [contains_iff_mem] at hcont
      obtain ⟨y, hy, hyid⟩ := List.mem_map.mp hcont
      have hymem := (List.mem_filter.mp hy).1
      have hyprops : y.productTmplId = tid ∧ y.productCode = some sku ∧ y.partnerId ≠ v := by
        simpa using (List.mem_filter.mp hy).2
      have hya : y = a := eq_of_id_eq hnodup hymem ha hyid
      have hav : a.partnerId ≠ v := hya ▸ hyprops.2.2
      have har : ¬ (a.id = rNew.id) := by
        intro h6
        exact hav ((eq_of_id_eq hnodup ha hmemNew h6) ▸ hpNew.1)
      simp [har, hav])]
    have hQsome : (sis.find? (fun a => decide (a.id = rNew.id) ||
        decide (a.partnerId = v ∧ a.productCode = some sku))).isSome :=
      List.find?_isSome.mpr ⟨rNew, hmemNew, by simp⟩
    rcases hq : sis.find? (fun a => decide (a.id = rNew.id) ||
        decide (a.partnerId = v ∧ a.productCode = some sku)) with _ | y
    · rw [hq] at hQsome
      cases hQsome
    · have hQy := List.find?_some hq
      have hymem := List.mem_of_find?_eq_some hq
      rw [hq]
      simp only [Option.map_some']
      by_cases hyid : y.id = rNew.id
      · simp [hyid]
      · have hQy2 : y.id = rNew.id ∨ (y.partnerId = v ∧ y.productCode = some sku) := by
          simpa using hQy
        have hpy : (y.partnerId = v ∧ y.productCode = some sku) := by
          rcases hQy2 with h6 | h6
          · exact absurd h6 hyid
          · exact h6
        obtain ⟨l1, l2, hsplit, hfailQ⟩ := find?_decomp _ y sis hq
        have hfindp : sis.find?
            (fun r => r.partnerId = v ∧ r.productCode = some sku) = some y := by
          rw [hsplit, find?_append_chain]
          rw [List.find?_eq_none.mpr (fun z hz hp => by
            have hz2 := hfailQ z hz
            have hp2 : decide (z.partnerId = v ∧ z.productCode = some sku) = true := hp
            rw [hp2] at hz2
            simp at hz2)]
          simp only [Option.orElse]
          exact List.find?_cons_of_pos _
            (show (fun r => decide (r.partnerId = v ∧ r.productCode = some sku)) y = true
             from decide_eq_true hpy)
        have htid := hc y hfindp
        simp [hyid, htid]


/-- With supplier-link priority, a configured vendor and a vendor-line
hit, the resolver returns that hit. -/
theorem findTemplate_SI_found (cfg : Config) (s : State) (sku bc : String) (v t : ℕ)
    (hmode : cfg.mapBy = "supplierinfo") (hsku : sku ≠ "")
    (hv : cfg.vendorId = some v) (hfound : searchSIVendor s v sku = some t) :
    findTemplate cfg s sku bc = some t := by
  simp only [findTemplate, hv, hfound, if_pos (And.intro hmode hsku)]

/-- The vendor-line search reads only the supplier lines. -/
theorem searchSIVendor_congr_sis (s1 s2 : State) (v : ℕ) (sku : String)
    (h : s1.sis = s2.sis) : searchSIVendor s1 v sku = searchSIVendor s2 v sku := by
  unfold searchSIVendor
  rw [h]

/-- The any-vendor-line search reads only the supplier lines. -/
theorem searchSIAny_congr_sis (s1 s2 : State) (sku : String)
    (h : s1.sis = s2.sis) : searchSIAny s1 sku = searchSIAny s2 sku := by
  unfold searchSIAny
  rw [h]

/-- After the base body, the configured vendor's line search lands on the
touched record. -/
theorem searchSIVendor_upsertBaseCore (cfg : Config) (dl : String → Option (List ℕ))
    (item : Item) (s : State) (v : ℕ)
    (hmode : cfg.mapBy = "supplierinfo") (hsku : itemSku item ≠ "")
    (hv : cfg.vendorId = some v) (hnodupS : (s.sis.map SI.id).Nodup) :
    searchSIVendor (upsertBaseCore cfg dl item s).1 v (itemSku item) =
      some (upsertBaseCore cfg dl item s).2.1 := by
  have hsis := upsertBaseCore_sis cfg dl item s v hv hsku
  have hsnd := upsertBaseCore_snd cfg dl item s
  have hc : ∀ e, s.sis.find?
      (fun r => r.partnerId = v ∧ r.productCode = some (itemSku item)) = some e →
      e.productTmplId = (upsertTmplStep cfg item s).2.1 := by
    intro e he
    have hsv : searchSIVendor s v (itemSku item) = some e.productTmplId := by
      unfold searchSIVendor
      rw [he]
      rfl
    have hft := findTemplate_SI_found cfg s (itemSku item) (itemBarcode item) v
      e.productTmplId hmode hsku hv hsv
    rw [upsertTmplStep_found cfg item s e.productTmplId hft]
  have hrec := find?_reconcile_vendor v (upsertTmplStep cfg item s).2.1 (itemSku item)
    (itemVStock item) s.sis (upsertTmplStep cfg item s).1.nextId hnodupS hc
  unfold searchSIVendor
  rw [hsis]
  rw [show (upsertBaseCore cfg dl item s).2.1 = (upsertTmplStep cfg item s).2.1 from
    congrArg Prod.fst hsnd]
  exact hrec

/-- After the base body, with the resolution routed through the
`default_code`/`barcode` chain, the `default_code` search finds exactly
the touched record. -/
theorem searchDC_upsertBaseCore_chain (cfg : Config) (dl : String → Option (List ℕ))
    (item : Item) (s : State) (hnodup : (s.templates.map Tmpl.id).Nodup)
    (hftc : findTemplate cfg s (itemSku item) (itemBarcode item) =
      (match searchDC s (itemSku item) with
       | some t => some t
       | none => if itemBarcode item ≠ "" then searchBC s (itemBarcode item) else none))
    (hsku : itemSku item ≠ "") :
    searchDC (upsertBaseCore cfg dl item s).1 (itemSku item) =
      some (upsertBaseCore cfg dl item s).2.1 := by
  have h2 : (upsertBaseCore cfg dl item s).2 = (upsertTmplStep cfg item s).2 :=
    upsertBaseCore_snd cfg dl item s
  rw [upsertBaseCore, searchDC_upsertPublishStep, searchDC_upsertImageStep,
    searchDC_upsertLinkStep, searchDC_upsertTmplStep_chain cfg item s hnodup hftc hsku]
  rw [upsertBaseCore] at h2
  rw [← congrArg Prod.fst h2]


/-- Re-resolution after the base body, for any mapping priority: a state
whose `default_code` view and supplier lines agree with the base body's
resolves the item to the record the base touched. -/
theorem findTemplate_shifted (cfg : Config) (dl : String → Option (List ℕ))
    (item : Item) (s : State) (x : State)
    (hnodupT : (s.templates.map Tmpl.id).Nodup)
    (hnodupS : (s.sis.map SI.id).Nodup)
    (hsku : itemSku item ≠ "")
    (hdc : searchDC x (itemSku item) =
      searchDC (upsertBaseCore cfg dl item s).1 (itemSku item))
    (hsis : x.sis = (upsertBaseCore cfg dl item s).1.sis) :
    findTemplate cfg x (itemSku item) (itemBarcode item) =
      some (upsertBaseCore cfg dl item s).2.1 := by
  by_cases hmode : cfg.mapBy = "supplierinfo"
  · rcases hvid : cfg.vendorId with _ | v
    · -- supplier-link priority without a configured vendor: the link step
      -- does not run, so the any-vendor query sees the pre-state lines
      have hsisid : (upsertBaseCore cfg dl item s).1.sis = s.sis := by
        rw [upsertBaseCore,
          (upsertPublishStep_lookup cfg _ 0 (fun _ => 0) (fun _ => rfl)
            (fun _ _ => rfl)).2.1,
          (upsertImageStep_lookup dl item _ 0 (fun _ => 0) (fun _ _ => rfl)).2.1]
        unfold upsertLinkStep
        rw [hvid]
        show (upsertTmplStep cfg item s).1.sis = s.sis
        exact (upsertTmplStep_parts cfg item s).1
      have hxsis : x.sis = s.sis := by rw [hsis, hsisid]
      rcases hAny : searchSIAny s (itemSku item) with _ | tA
      · have hftc : findTemplate cfg s (itemSku item) (itemBarcode item) =
            (match searchDC s (itemSku item) with
             | some t => some t
             | none => if itemBarcode item ≠ "" then searchBC s (itemBarcode item)
                       else none) := by
          simp only [findTemplate, hvid, hAny, if_pos (And.intro hmode hsku),
            if_pos hsku]
        have hdcafter := searchDC_upsertBaseCore_chain cfg dl item s hnodupT hftc hsku
        have hAny2 : searchSIAny x (itemSku item) = none := by
          rw [searchSIAny_congr_sis x s (itemSku item) hxsis, hAny]
        have hdcx : searchDC x (itemSku item) =
            some (upsertBaseCore cfg dl item s).2.1 := by
          rw [hdc, hdcafter]
        simp only [findTemplate, hvid, hAny2, if_pos (And.intro hmode hsku),
          if_pos hsku, hdcx]
      · have hft1 : findTemplate cfg s (itemSku item) (itemBarcode item) = some tA := by
          simp only [findTemplate, hvid, hAny, if_pos (And.intro hmode hsku)]
        have htid : (upsertBaseCore cfg dl item s).2.1 = tA := by
          rw [upsertBaseCore_snd, upsertTmplStep_found cfg item s tA hft1]
        have hAny2 : searchSIAny x (itemSku item) = some tA := by
          rw [searchSIAny_congr_sis x s (itemSku item) hxsis, hAny]
        rw [htid]
        simp only [findTemplate, hvid, hAny2, if_pos (And.intro hmode hsku)]
    · have hsv := searchSIVendor_upsertBaseCore cfg dl item s v hmode hsku hvid hnodupS
      have hsvx : searchSIVendor x v (itemSku item) =
          some (upsertBaseCore cfg dl item s).2.1 := by
        rw [searchSIVendor_congr_sis x (upsertBaseCore cfg dl item s).1 v
          (itemSku item) hsis]
        exact hsv
      exact findTemplate_SI_found cfg x (itemSku item) (itemBarcode item) v _
        hmode hsku hvid hsvx
  · have hmapby : ¬ (cfg.mapBy = "supplierinfo" ∧ itemSku item ≠ "") := fun h => hmode h.1
    rw [findTemplate_nonSI cfg x (itemSku item) (itemBarcode item) hmapby hsku]
    rw [hdc, searchDC_upsertBaseCore cfg dl item s hnodupT hmapby hsku]

/-- Re-resolution on the base body's own result state. -/
theorem findTemplate_upsertBaseCore_all (cfg : Config) (dl : String → Option (List ℕ))
    (item : Item) (s : State)
    (hnodupT : (s.templates.map Tmpl.id).Nodup)
    (hnodupS : (s.sis.map SI.id).Nodup)
    (hsku : itemSku item ≠ "") :
    findTemplate cfg (upsertBaseCore cfg dl item s).1 (itemSku item) (itemBarcode item) =
      some (upsertBaseCore cfg dl item s).2.1 :=
  findTemplate_shifted cfg dl item s _ hnodupT hnodupS hsku rfl rfl

/-- After a successful full upsert, for any mapping priority: the result
pair is the base body's and the resolver re-finds the touched record. -/
theorem after_full_resolution (cfg : Config) (dl : String → Option (List ℕ))
    (ah : String → Option String) (item : Item) (s : State) (r : State × ℕ × Bool)
    (hnodupT : (s.templates.map Tmpl.id).Nodup)
    (hnodupS : (s.sis.map SI.id).Nodup)
    (hsku : itemSku item ≠ "")
    (hrun : upsertFull cfg dl ah item s = .ok r) :
    r.2 = (upsertBaseCore cfg dl item s).2 ∧
    findTemplate cfg r.1 (itemSku item) (itemBarcode item) = some r.2.1 := by
  have hchain := upsertFull_ok cfg dl ah item s r hrun
  have h2 : r.2 = (upsertBaseCore cfg dl item s).2 := by
    rw [← hchain, (galleryStage_parts cfg dl item _).2.2,
      (brandStage_lookup cfg ah item _ 0 (fun _ => 0) (fun _ _ => rfl)).2.2.2.2]
  refine ⟨h2, ?_⟩
  have hdc : searchDC r.1 (itemSku item) =
      searchDC (upsertBaseCore cfg dl item s).1 (itemSku item) := by
    rw [← hchain, searchDC_galleryStage, searchDC_brandStage]
  have hsisr : r.1.sis = (upsertBaseCore cfg dl item s).1.sis := by
    rw [← hchain, (galleryStage_parts cfg dl item _).2.1,
      (brandStage_lookup cfg ah item _ 0 (fun _ => 0) (fun _ _ => rfl)).2.1]
  rw [findTemplate_shifted cfg dl item s r.1 hnodupT hnodupS hsku hdc hsisr,
    ← congrArg Prod.fst h2]


/-- The create-or-write of the base upsert stores the
`description_ecommerce` chain when it is truthy and keeps the previous
value (absent on a create) otherwise. -/
theorem upsertTmplStep_descEcom (cfg : Config) (item : Item) (s : State) (hwf : WF s) :
    (lookupTmpl (upsertTmplStep cfg item s).1 (upsertTmplStep cfg item s).2.1).map
        Tmpl.descriptionEcommerce =
      some (match itemDescEcom item with
            | some d => some d
            | none =>
              match lookupTmpl s (upsertTmplStep cfg item s).2.1 with
              | some tm => tm.descriptionEcommerce
              | none => none) := by
  have hparts := resolveCategory_parts cfg item s
  have hid : ∀ nameV descEcom cost w catId? sku bset vstock vname t0,
      (baseApplyVals nameV descEcom cost w catId? sku bset vstock vname t0).id = t0.id :=
    fun nameV descEcom cost w catId? sku bset vstock vname t0 =>
      (baseApplyVals_fields nameV descEcom cost w catId? sku bset vstock vname t0).1
  have hde : ∀ nameV descEcom cost w catId? sku bset vstock vname t0,
      (baseApplyVals nameV descEcom cost w catId? sku bset vstock
        vname t0).descriptionEcommerce =
      (match descEcom with | some d => some d | none => t0.descriptionEcommerce) :=
    fun nameV descEcom cost w catId? sku bset vstock vname t0 =>
      (baseApplyVals_fields nameV descEcom cost w catId?
        sku bset vstock vname t0).2.2.2.2.2.2.2.2.2
  simp only [upsertTmplStep]
  rcases hf : findTemplate cfg s (itemSku item) (itemBarcode item) with _ | t
  · have hnone2 : lookupTmpl s (resolveCategory cfg item s).2.nextId = none := by
      rw [lookupTmpl]
      refine List.find?_eq_none.mpr ?_
      intro tm htm
      have := hwf.2.1 tm htm
      simp only [decide_eq_true_eq]
      omega
    have hnone1 : ((resolveCategory cfg item s).2.templates.find?
        (fun tm => tm.id = (resolveCategory cfg item s).2.nextId)) = none := by
      rw [hparts.1]
      refine List.find?_eq_none.mpr ?_
      intro tm htm
      have := hwf.2.1 tm htm
      simp only [decide_eq_true_eq]
      omega
    rw [lookupTmpl]
    simp only [find?_append_chain, hnone1, Option.none_orElse, hnone2]
    rw [List.find?_cons_of_pos]
    · simp only [Option.orElse, Option.map_some']
      rw [hde]
      cases hc : itemDescEcom item <;> simp [defaultTmpl]
    · simp only [hid, defaultTmpl, decide_eq_true_eq]
  · obtain ⟨tm, htm, htmid⟩ := findTemplate_mem hwf hf
    have hlt : lookupTmpl s t = some tm := by
      rw [← htmid]
      exact lookupTmpl_of_mem hwf.1 htm
    have hlc : lookupTmpl (resolveCategory cfg item s).2 t = some tm := by
      rw [lookupTmpl_congr_templates _ s t hparts.1]
      exact hlt
    rw [lookupTmpl_write _ t t _ (fun t0 => hid _ _ _ _ _ _ _ _ _ t0), hlc]
    simp only [Option.map_some']
    rw [if_pos htmid, hde, hlt]

/-- `description_ecommerce` of the touched record after the whole base
body: the item's chain if truthy, else the previous value. -/
theorem upsertBaseCore_descEcom (cfg : Config) (dl : String → Option (List ℕ))
    (item : Item) (s : State) (hwf : WF s) :
    (lookupTmpl (upsertBaseCore cfg dl item s).1 (upsertBaseCore cfg dl item s).2.1).map
        Tmpl.descriptionEcommerce =
      some (match itemDescEcom item with
            | some d => some d
            | none =>
              match lookupTmpl s (upsertBaseCore cfg dl item s).2.1 with
              | some tm => tm.descriptionEcommerce
              | none => none) := by
  have hsnd := upsertBaseCore_snd cfg dl item s
  rw [show (upsertBaseCore cfg dl item s).2.1 = (upsertTmplStep cfg item s).2.1 from
    congrArg Prod.fst hsnd]
  rw [upsertBaseCore,
    (upsertPublishStep_lookup cfg _ (upsertTmplStep cfg item s).2.1
      Tmpl.descriptionEcommerce (fun tm => rfl) (fun tm ids => rfl)).1,
    (upsertImageStep_lookup dl item _ (upsertTmplStep cfg item s).2.1
      Tmpl.descriptionEcommerce (fun tm content => rfl)).1,
    lookupTmpl_congr_templates _ (upsertTmplStep cfg item s).1 _
      (upsertLinkStep_parts cfg item _).1]
  exact upsertTmplStep_descEcom cfg item s hwf

/-- The base body's touched record exists in its template collection. -/
theorem upsertBaseCore_tid_mem (cfg : Config) (dl : String → Option (List ℕ))
    (item : Item) (s : State) (hwf : WF s) :
    ∃ tm ∈ (upsertBaseCore cfg dl item s).1.templates,
      tm.id = (upsertBaseCore cfg dl item s).2.1 := by
  have hcol : (upsertBaseCore cfg dl item s).1.templates.map Tmpl.id =
      (match findTemplate cfg s (itemSku item) (itemBarcode item) with
       | some _ => s.templates.map Tmpl.id
       | none => s.templates.map Tmpl.id ++ [(resolveCategory cfg item s).2.nextId]) := by
    rw [upsertBaseCore, map_id_upsertPublishStep, map_id_upsertImageStep,
      map_id_upsertLinkStep, map_id_upsertTmplStep]
  have hsnd := upsertBaseCore_snd cfg dl item s
  rcases hf : findTemplate cfg s (itemSku item) (itemBarcode item) with _ | t
  · simp only [hf] at hcol
    have htid : (upsertBaseCore cfg dl item s).2.1 =
        (resolveCategory cfg item s).2.nextId := by
      rw [show (upsertBaseCore cfg dl item s).2.1 = (upsertTmplStep cfg item s).2.1 from
        congrArg Prod.fst hsnd]
      simp only [upsertTmplStep, hf]
    have hmem : (upsertBaseCore cfg dl item s).2.1 ∈
        (upsertBaseCore cfg dl item s).1.templates.map Tmpl.id := by
      rw [hcol, htid]
      exact List.mem_append_right _ (List.mem_singleton.mpr rfl)
    obtain ⟨tm, htm, hid⟩ := List.mem_map.mp hmem
    exact ⟨tm, htm, hid⟩
  · simp only [hf] at hcol
    have htid : (upsertBaseCore cfg dl item s).2.1 = t := by
      rw [show (upsertBaseCore cfg dl item s).2.1 = (upsertTmplStep cfg item s).2.1 from
        congrArg Prod.fst hsnd]
      rw [upsertTmplStep_found cfg item s t hf]
    obtain ⟨tm0, hm0, hid0⟩ := findTemplate_mem hwf hf
    have hmem : (upsertBaseCore cfg dl item s).2.1 ∈
        (upsertBaseCore cfg dl item s).1.templates.map Tmpl.id := by
      rw [hcol, htid]
      exact hid0 ▸ List.mem_map_of_mem Tmpl.id hm0
    obtain ⟨tm, htm, hid⟩ := List.mem_map.mp hmem
    exact ⟨tm, htm, hid⟩


/-- C2: for every mapping priority — supplier-code included — with a
non-empty sku, a configured vendor holding at most one supplier line per
record, and the same downloader, processing the same item twice resolves
the second pass to the record of the first, creates no new record (the id
column and the `was_created` flag are unchanged), leaves exactly one
supplier line of the vendor on the record after each pass, and adds no
second vendor image: every candidate origin URL is already stored or
undownloadable, so the image rows are identical after the second pass. -/
theorem C2_upsert_idempotent (cfg : Config) (dl : String → Option (List ℕ))
    (ah : String → Option String) (item : Item) (s : State)
    (r1 r2 : State × ℕ × Bool) (v : ℕ) (hwf : WF s)
    (hsku : itemSku item ≠ "")
    (hv : cfg.vendorId = some v)
    (hclean : ∀ t, (s.sis.filter
      (fun x => x.partnerId = v ∧ x.productTmplId = t)).length ≤ 1)
    (hrun1 : upsertFull cfg dl ah item s = .ok r1)
    (hrun2 : upsertFull cfg dl ah item r1.1 = .ok r2) :
    r2.2.1 = r1.2.1 ∧
    r2.2.2 = false ∧
    r2.1.templates.map Tmpl.id = r1.1.templates.map Tmpl.id ∧
    (r1.1.sis.filter
      (fun x => x.partnerId = v ∧ x.productTmplId = r1.2.1)).length = 1 ∧
    (r2.1.sis.filter
      (fun x => x.partnerId = v ∧ x.productTmplId = r1.2.1)).length = 1 ∧
    r2.1.images = r1.1.images := by
  have hchain1 := upsertFull_ok cfg dl ah item s r1 hrun1
  have hchain2 := upsertFull_ok cfg dl ah item r1.1 r2 hrun2
  have hfacts1 := after_full_resolution cfg dl ah item s r1 hwf.1 hwf.2.2.1 hsku hrun1
  have hnodup_r1 := templates_nodup_after_full cfg dl ah item s r1 hwf hrun1
  -- supplier lines of the first pass
  have hsis1 : r1.1.sis = (reconcileLinks v (upsertTmplStep cfg item s).2.1
      (itemSku item) (itemVStock item) s.sis (upsertTmplStep cfg item s).1.nextId).1 := by
    rw [← hchain1, (galleryStage_parts cfg dl item _).2.1,
      (brandStage_lookup cfg ah item _ 0 (fun _ => 0) (fun _ _ => rfl)).2.1,
      upsertBaseCore_sis cfg dl item s v hv hsku]
  have hnodup_r1_sis : (r1.1.sis.map SI.id).Nodup := by
    rw [hsis1]
    exact (reconcileLinks_id_facts v _ (itemSku item) (itemVStock item) s.sis _
      hwf.2.2.1 (fun x hx => by
        have h1 := hwf.2.2.2.1 x hx
        have h2 := (upsertTmplStep_parts cfg item s).2.2
        omega)).1
  have hfacts2 := after_full_resolution cfg dl ah item r1.1 r2 hnodup_r1
    hnodup_r1_sis hsku hrun2
  -- second-pass create-or-write is an update of the same record
  have hfound2 := upsertTmplStep_found cfg item r1.1 r1.2.1 hfacts1.2
  have ha : r2.2.1 = r1.2.1 := by
    rw [hfacts2.1, upsertBaseCore_snd, hfound2]
  have hb : r2.2.2 = false := by
    rw [hfacts2.1, upsertBaseCore_snd, hfound2]
  -- template id column unchanged in the second pass
  have hc : r2.1.templates.map Tmpl.id = r1.1.templates.map Tmpl.id := by
    rw [← hchain2, map_id_galleryStage, map_id_brandStage, upsertBaseCore,
      map_id_upsertPublishStep, map_id_upsertImageStep, map_id_upsertLinkStep,
      map_id_upsertTmplStep, hfacts1.2]
  -- supplier-line counts
  have ht1 : (upsertTmplStep cfg item s).2.1 = r1.2.1 := by
    rw [hfacts1.1, upsertBaseCore_snd]
  have hd1 : (r1.1.sis.filter
      (fun x => x.partnerId = v ∧ x.productTmplId = r1.2.1)).length = 1 := by
    rw [hsis1, ht1]
    exact reconcileLinks_vendor_count v r1.2.1 (itemSku item) (itemVStock item)
      s.sis _ hwf.2.2.1 (hclean r1.2.1)
  have hsis2 : r2.1.sis = (reconcileLinks v (upsertTmplStep cfg item r1.1).2.1
      (itemSku item) (itemVStock item) r1.1.sis
      (upsertTmplStep cfg item r1.1).1.nextId).1 := by
    rw [← hchain2, (galleryStage_parts cfg dl item _).2.1,
      (brandStage_lookup cfg ah item _ 0 (fun _ => 0) (fun _ _ => rfl)).2.1,
      upsertBaseCore_sis cfg dl item r1.1 v hv hsku]
  have ht2 : (upsertTmplStep cfg item r1.1).2.1 = r1.2.1 := by
    rw [hfound2]
  have hd2 : (r2.1.sis.filter
      (fun x => x.partnerId = v ∧ x.productTmplId = r1.2.1)).length = 1 := by
    rw [hsis2, ht2]
    exact reconcileLinks_vendor_count v r1.2.1 (itemSku item) (itemVStock item)
      r1.1.sis _ hnodup_r1_sis (by rw [hd1])
  -- image rows unchanged in the second pass
  refine ⟨ha, hb, hc, hd1, hd2, ?_⟩
  -- the state the second-pass gallery sees
  rcases hb2 : brandStage cfg ah item (upsertBaseCore cfg dl item r1.1)
    with ⟨sb2, tb2, wb2⟩
  have hBparts := brandStage_lookup cfg ah item (upsertBaseCore cfg dl item r1.1)
    0 (fun _ => 0) (fun _ _ => rfl)
  rw [hb2] at hBparts hchain2
  have hsb2img : sb2.images = r1.1.images := by
    have := hBparts.2.2.1
    simp only at this
    rw [this, upsertBaseCore_images]
  have hsb2find : findTemplate cfg sb2 (itemSku item) (itemBarcode item) =
      some r1.2.1 := by
    have hdcx : searchDC sb2 (itemSku item) =
        searchDC (upsertBaseCore cfg dl item r1.1).1 (itemSku item) := by
      have hx := searchDC_brandStage cfg ah item
        (upsertBaseCore cfg dl item r1.1) (itemSku item)
      rw [hb2] at hx
      exact hx
    have hsisx : sb2.sis = (upsertBaseCore cfg dl item r1.1).1.sis := by
      have := hBparts.2.1
      simpa using this
    have hres := findTemplate_shifted cfg dl item r1.1 sb2 hnodup_r1
      hnodup_r1_sis hsku hdcx hsisx
    rw [show (upsertBaseCore cfg dl item r1.1).2.1 = r1.2.1 from by
      rw [upsertBaseCore_snd, hfound2]] at hres
    exact hres
  -- the state the first-pass gallery saw
  rcases hb1 : brandStage cfg ah item (upsertBaseCore cfg dl item s)
    with ⟨sb1, tb1, wb1⟩
  have hB1parts := brandStage_lookup cfg ah item (upsertBaseCore cfg dl item s)
    0 (fun _ => 0) (fun _ _ => rfl)
  rw [hb1] at hB1parts hchain1
  have hsb1find : findTemplate cfg sb1 (itemSku item) (itemBarcode item) =
      some r1.2.1 := by
    have hdcx : searchDC sb1 (itemSku item) =
        searchDC (upsertBaseCore cfg dl item s).1 (itemSku item) := by
      have hx := searchDC_brandStage cfg ah item
        (upsertBaseCore cfg dl item s) (itemSku item)
      rw [hb1] at hx
      exact hx
    have hsisx : sb1.sis = (upsertBaseCore cfg dl item s).1.sis := by
      have := hB1parts.2.1
      simpa using this
    have hres := findTemplate_shifted cfg dl item s sb1 hwf.1 hwf.2.2.1
      hsku hdcx hsisx
    rw [show (upsertBaseCore cfg dl item s).2.1 = r1.2.1 from by
      rw [← hfacts1.1]] at hres
    exact hres
  -- coverage from the first pass
  have hcov := galleryStage_covers cfg dl item sb1 tb1 wb1 r1.2.1 hsb1find
  have hall : ∀ url ∈ galleryCandidates item,
      urlStored sb2 r1.2.1 url ∨ dl url = none ∨ dl url = some [] := by
    intro url hurl
    rcases hcov url hurl with h | h | h
    · exact Or.inr (Or.inl h)
    · exact Or.inr (Or.inr h)
    · obtain ⟨im, him, h1, h2, h3⟩ := h
      rw [hchain1] at him
      refine Or.inl ⟨im, ?_, h1, h2, ?_, h3⟩
      · rw [hsb2img]
        exact him
      · rw [h3]
        simp only [truthyS]
        simp [galleryCandidates_ne item url hurl]
  have hnop := galleryStage_nop cfg dl item sb2 tb2 wb2 r1.2.1 hsb2find hall
  rw [← hchain2, hnop, hsb2img]


/-- C2 witness: the idempotence theorem applied under the supplier-code
priority at a concrete one-item feed — the first pass creates record 1
with supplier line 2, the second pass resolves it through the vendor's
supplier line and updates in place, changing nothing. -/
theorem C2_upsert_idempotent_witness :
    let cfg : Config := ⟨some 7, "V", "supplierinfo", none, false, none, 100⟩
    let item : Item :=
      { emptyItem with
        name := some "P"
        sku := some "S" }
    let sW : State :=
      ⟨[⟨1, "P", true, true, some "S", none, 0, 0, none, none, none, none, none, none,
         0, some "V", false, [], none, [⟨none, none, none, none⟩]⟩],
       [⟨2, 7, 1, some "S", 0⟩], [], [], 3⟩
    let r1 : State × ℕ × Bool := (sW, 1, true)
    let r2 : State × ℕ × Bool := (sW, 1, false)
    (WF emptyState ∧
     upsertFull cfg (fun _ => none) (fun _ => none) item emptyState = .ok r1 ∧
     upsertFull cfg (fun _ => none) (fun _ => none) item r1.1 = .ok r2) ∧
    (r2.2.1 = r1.2.1 ∧
     r2.2.2 = false ∧
     r2.1.templates.map Tmpl.id = r1.1.templates.map Tmpl.id ∧
     (r1.1.sis.filter
       (fun x => x.partnerId = 7 ∧ x.productTmplId = r1.2.1)).length = 1 ∧
     (r2.1.sis.filter
       (fun x => x.partnerId = 7 ∧ x.productTmplId = r1.2.1)).length = 1 ∧
     r2.1.images = r1.1.images) := by
  intro cfg item sW r1 r2
  refine ⟨⟨by unfold WF; decide, by rfl, by rfl⟩, ?_⟩
  exact C2_upsert_idempotent cfg (fun _ => none) (fun _ => none) item emptyState
    r1 r2 7 (by unfold WF; decide) (by decide) (by rfl)
    (fun t => by simp [emptyState]) (by rfl) (by rfl)


/-- C3: the claim says exactly one canonical description field is
populated after the call, but the base layer's `description_ecommerce`
write is never cleared by the brand/notes overlay: an item carrying both
payloads leaves the record with `description_ecommerce = "E"` and
`website_description = "W"` populated at once, two different texts on two
canonical surfaces. -/
theorem C3_description_counterexample :
    (upsertFull c1Cfg (fun u => none) (fun t => none) c3Item emptyState).map
        (fun r => (lookupTmpl r.1 r.2.1).map
          (fun tm => (tm.descriptionEcommerce, tm.websiteDescription))) =
      .ok (some (some "E", some "W")) ∧
    ("E" : String) ≠ "W" := by
  constructor
  · rfl
  · decide

/-- C3 (amended): for every mapping priority, an upsert whose
web-description chain is truthy leaves the record with
`website_description` as the single web surface holding the computed
text — `description`, `description_sale` and `website_short_description`
are cleared on the record and on every variant — while the base layer's
`description_ecommerce` keeps the item's own e-commerce chain (the
previous value when that chain is falsy) and is not cleared, so it can
stay populated alongside `website_description`. -/
theorem C3_description_amended (cfg : Config) (dl : String → Option (List ℕ))
    (ah : String → Option String) (item : Item) (s : State)
    (r : State × ℕ × Bool) (w : String) (hwf : WF s)
    (hsku : itemSku item ≠ "")
    (hweb : truthyOpt (brandWebHtml ah item) = some w)
    (hrun : upsertFull cfg dl ah item s = .ok r) :
    ∃ tm, lookupTmpl r.1 r.2.1 = some tm ∧
      tm.websiteDescription = some w ∧
      tm.description = none ∧ tm.descriptionSale = none ∧
      tm.websiteShortDescription = none ∧
      (∀ vr ∈ tm.variants, vr.websiteDescription = some w ∧ vr.description = none ∧
        vr.descriptionSale = none ∧ vr.websiteShortDescription = none) ∧
      tm.descriptionEcommerce =
        (match itemDescEcom item with
         | some d => some d
         | none =>
           match lookupTmpl s r.2.1 with
           | some tm0 => tm0.descriptionEcommerce
           | none => none) := by
  have hchain := upsertFull_ok cfg dl ah item s r hrun
  have hnodup4 := templates_nodup_upsertBaseCore cfg dl item s hwf
  have hfind := findTemplate_upsertBaseCore_all cfg dl item s hwf.1 hwf.2.2.1 hsku
  obtain ⟨tm4, hmem4, hid4⟩ := upsertBaseCore_tid_mem cfg dl item s hwf
  have hlook4 : lookupTmpl (upsertBaseCore cfg dl item s).1
      (upsertBaseCore cfg dl item s).2.1 = some tm4 := by
    rw [← hid4]
    exact lookupTmpl_of_mem hnodup4 hmem4
  have hdesc4 := upsertBaseCore_descEcom cfg dl item s hwf
  rw [hlook4] at hdesc4
  have hde4 : tm4.descriptionEcommerce =
      (match itemDescEcom item with
       | some d => some d
       | none =>
         match lookupTmpl s (upsertBaseCore cfg dl item s).2.1 with
         | some tm0 => tm0.descriptionEcommerce
         | none => none) := by
    simpa using hdesc4
  rcases hc : upsertBaseCore cfg dl item s with ⟨s4, tid4, wc4⟩
  rw [hc] at hnodup4 hfind hlook4 hchain hid4 hde4
  simp only at hnodup4 hfind hlook4 hid4 hde4
  have hbrand : brandStage cfg ah item (s4, tid4, wc4) =
      (writeTmplState s4 tid4 (brandWriteTmpl (truthyOpt (brandWebHtml ah item))),
       tid4, wc4) := by
    unfold brandStage
    simp [hfind]
  rw [hbrand] at hchain
  have hG := galleryStage_parts cfg dl item
    (writeTmplState s4 tid4 (brandWriteTmpl (truthyOpt (brandWebHtml ah item))),
     tid4, wc4)
  have hr2 : r.2.1 = tid4 := by
    rw [← hchain]
    rw [hG.2.2]
  have hlookr : lookupTmpl r.1 tid4 =
      lookupTmpl (writeTmplState s4 tid4
        (brandWriteTmpl (truthyOpt (brandWebHtml ah item)))) tid4 := by
    rw [← hchain]
    exact lookupTmpl_congr_templates _ _ _ hG.1
  refine ⟨brandWriteTmpl (truthyOpt (brandWebHtml ah item)) tm4,
    ?_, ?_, ?_, ?_, ?_, ?_, ?_⟩
  · rw [hr2, hlookr,
      lookupTmpl_write s4 tid4 tid4 _ (fun tm => by simp [brandWriteTmpl]), hlook4]
    simp [hid4]
  · simp [brandWriteTmpl, hweb]
  · simp [brandWriteTmpl]
  · simp [brandWriteTmpl]
  · simp [brandWriteTmpl]
  · intro vr hvr
    simp only [brandWriteTmpl] at hvr
    obtain ⟨v0, hv0, rfl⟩ := List.mem_map.mp hvr
    simp [hweb]
  · rw [show (brandWriteTmpl (truthyOpt (brandWebHtml ah item))
        tm4).descriptionEcommerce = tm4.descriptionEcommerce from rfl, hr2]
    exact hde4

/-- C3 witness: the amended theorem applied at a one-item create with an
explicit `website_description` payload `W` — `description_ecommerce`
keeps the item's own chain (`W`, its first truthy entry) while the
legacy surfaces are cleared on the record and its variant. -/
theorem C3_description_amended_witness :
    let cfg : Config := ⟨none, "", "sku", none, false, none, 100⟩
    let item : Item :=
      { emptyItem with
        name := some "P"
        sku := some "S"
        websiteDescription := some "W" }
    let tW : Tmpl := ⟨1, "P", true, true, some "S", none, 0, 0, none, some "W",
                      some "W", none, none, none, 0, none, false, [], none,
                      [⟨some "W", none, none, none⟩]⟩
    let r : State × ℕ × Bool := (⟨[tW], [], [], [], 2⟩, 1, true)
    (WF emptyState ∧
     itemSku item ≠ "" ∧
     truthyOpt (brandWebHtml (fun _ => none) item) = some "W" ∧
     upsertFull cfg (fun _ => none) (fun _ => none) item emptyState = .ok r) ∧
    (∃ tm, lookupTmpl r.1 r.2.1 = some tm ∧
      tm.websiteDescription = some "W" ∧
      tm.description = none ∧ tm.descriptionSale = none ∧
      tm.websiteShortDescription = none ∧
      (∀ vr ∈ tm.variants, vr.websiteDescription = some "W" ∧ vr.description = none ∧
        vr.descriptionSale = none ∧ vr.websiteShortDescription = none) ∧
      tm.descriptionEcommerce =
        (match itemDescEcom item with
         | some d => some d
         | none =>
           match lookupTmpl emptyState r.2.1 with
           | some tm0 => tm0.descriptionEcommerce
           | none => none)) := by
  intro cfg item tW r
  refine ⟨⟨by unfold WF; decide, by decide, by rfl, by rfl⟩, ?_⟩
  exact C3_description_amended cfg (fun _ => none) (fun _ => none) item emptyState r
    "W" (by unfold WF; decide) (by decide) (by rfl) (by rfl)

end VendorCatalog
